import Mathlib

/-!
Shallow embedding of the `json-crdt-rust` repository (a CRDT-based JSON
document store) and proofs checking the claims of its specification.

Conventions of the embedding:
* Rust `u32`/`u64` counters (client ids, sequence numbers, timestamps) are
  modelled as `Nat`: the code never exercises wrap-around arithmetic on them.
* `FxHashMap` is modelled as an association list with one binding per key
  (`alistLookup`/`alistInsert`/`alistRemove` mirror `get`/`insert`/`remove`).
  Where the code iterates a hash map in hash order, the theorems below are
  stated so that they do not depend on that iteration order.
* Rust panics (`panic!`, `expect`, indexing a missing key) are modelled by
  `Except String`, with `.error` marking the panic.
* `sort_by` is modelled by stable insertion sort (`sortBy`); Rust's
  `slice::sort_by` is also stable, and a stable sort is determined by the
  comparator, so the two agree whenever the comparator is a total preorder.
* `f64` payloads are carried as their raw bit pattern (`Nat`): no claim
  exercises floating-point arithmetic.
-/

instance {ε α : Type} [DecidableEq ε] [DecidableEq α] : DecidableEq (Except ε α)
  | .error e, .error f =>
      if h : e = f then isTrue (by rw [h]) else isFalse (fun hh => by cases hh; exact h rfl)
  | .error _, .ok _ => isFalse (fun h => by cases h)
  | .ok _, .error _ => isFalse (fun h => by cases h)
  | .ok a, .ok b =>
      if h : a = b then isTrue (by rw [h]) else isFalse (fun hh => by cases hh; exact h rfl)

/-- Association list lookup: the unique binding of `k`, mirroring
`FxHashMap::get`. -/
def alistLookup {κ ν : Type} [DecidableEq κ] (k : κ) : List (κ × ν) → Option ν
  | [] => none
  | (k', v) :: t => if k' = k then some v else alistLookup k t

/-- Association list insert: replaces the binding of `k` if present, else
appends it, mirroring `FxHashMap::insert` (one binding per key). -/
def alistInsert {κ ν : Type} [DecidableEq κ] (k : κ) (v : ν) : List (κ × ν) → List (κ × ν)
  | [] => [(k, v)]
  | (k', v') :: t => if k' = k then (k, v) :: t else (k', v') :: alistInsert k v t

/-- Association list removal of the binding of `k`, mirroring
`FxHashMap::remove` (the removed value is recovered with `alistLookup`). -/
def alistRemove {κ ν : Type} [DecidableEq κ] (k : κ) : List (κ × ν) → List (κ × ν)
  | [] => []
  | (k', v') :: t => if k' = k then t else (k', v') :: alistRemove k t

/-- Whether `k` is bound. -/
def alistContains {κ ν : Type} [DecidableEq κ] (k : κ) (l : List (κ × ν)) : Bool :=
  (alistLookup k l).isSome

/-- In-place update of one list position, mirroring `vec[i] = ...` on an
index known to be in bounds (out of bounds leaves the list unchanged; every
use below is guarded by an exists-check that makes the index valid). -/
def listModify {α : Type} : List α → Nat → (α → α) → List α
  | [], _, _ => []
  | a :: t, 0, f => f a :: t
  | a :: t, n + 1, f => a :: listModify t n f

/-- Three-way comparison on `Nat`, extensionally `Nat.cmp`: spelled with
decidable tests to keep proofs elementary. -/
def cmpNat (a b : Nat) : Ordering :=
  if a = b then .eq else if a < b then .lt else .gt

/-- Stable sort by a three-way comparator, mirroring Rust's
`slice::sort_by` (both are stable sorts, hence extensionally equal for
total-preorder comparators). -/
def sortBy {α : Type} (cmp : α → α → Ordering) (l : List α) : List α :=
  List.insertionSort (fun a b => cmp a b ≠ Ordering.gt) l

/-! ## Identifiers and values (`src/types.rs`) -/

/-- `OperationId = (ClientId, SequenceIndex)` from `types.rs`. -/
structure OperationId where
  client_id : Nat
  sequence : Nat
deriving DecidableEq, Repr, Inhabited

/-- `MapBlockId` from `types.rs`. -/
structure MapBlockId where
  client_id : Nat
  sequence : Nat
deriving DecidableEq, Repr, Inhabited

/-- `SequenceBlockId` from `types.rs`. -/
structure SequenceBlockId where
  client_id : Nat
  sequence : Nat
deriving DecidableEq, Repr, Inhabited

/-- `ObjRef` from `types.rs`. -/
inductive ObjRef where
  | root : ObjRef
  | object (id : OperationId) : ObjRef
deriving DecidableEq, Repr, Inhabited

/-- `Selector` from `types.rs`. -/
inductive Selector where
  | key (s : String) : Selector
  | index (n : Nat) : Selector
deriving DecidableEq, Repr, Inhabited

/-- `ScalarValue` from `types.rs`; the `f64` payload is carried as raw bits. -/
inductive ScalarValue where
  | string (s : String) : ScalarValue
  | int (i : Int) : ScalarValue
  | double (bits : Nat) : ScalarValue
  | bool (b : Bool) : ScalarValue
deriving DecidableEq, Repr, Inhabited

/-- `Value` from `types.rs`. -/
inductive Value where
  | scalar (s : ScalarValue) : Value
  | object (r : ObjRef) : Value
deriving DecidableEq, Repr, Inhabited

/-- `MapBlock` from `src/crdt/map/shared.rs`. -/
structure MapBlock where
  id : MapBlockId
  parents : List MapBlockId
  value : Value
  timestamp : Nat
  deleted : Bool
deriving DecidableEq, Repr, Inhabited

/-! ## Map CRDT block set (`src/crdt/map/set.rs`) -/

/-- `BlockSet` from `set.rs`: `blocks` vector plus the `id_to_index` and
`block_children` hash maps (children keyed by block index). -/
structure BlockSet where
  blocks : List MapBlock
  id_to_index : List (MapBlockId × Nat)
  block_children : List (Nat × List Nat)
deriving DecidableEq, Repr, Inhabited

/-- `BlockSet::new`. -/
def BlockSet.new : BlockSet := ⟨[], [], []⟩

/-- Push `index` onto the children entry of `parentIndex`
(`entry(..).or_insert_with(Vec::new).push(index)`). -/
def BlockSet.pushChild (children : List (Nat × List Nat)) (parentIndex index : Nat) :
    List (Nat × List Nat) :=
  match alistLookup parentIndex children with
  | some l => alistInsert parentIndex (l ++ [index]) children
  | none => alistInsert parentIndex [index] children

/-- `BlockSet::insert`: append the block, register its id, create its
(empty) children entry, and register it as a child of each parent. A parent
id absent from `id_to_index` is a panic in the source (`self.id_to_index[&parent]`). -/
def BlockSet.insert (s : BlockSet) (block : MapBlock) : Except String BlockSet := do
  -- `index` (the position of the appended block) is `s.blocks.length`;
  -- `id_to_index` is updated before the parents are resolved, as in the source.
  let children ← block.parents.foldlM (fun ch parent =>
    match alistLookup parent (alistInsert block.id s.blocks.length s.id_to_index) with
    | some parentIndex => pure (BlockSet.pushChild ch parentIndex s.blocks.length)
    | none => Except.error "parent block id not found")
    (match alistLookup s.blocks.length s.block_children with
     | some _ => s.block_children
     | none => alistInsert s.blocks.length ([] : List Nat) s.block_children)
  return { blocks := s.blocks ++ [block],
           id_to_index := alistInsert block.id s.blocks.length s.id_to_index,
           block_children := children }

/-- `BlockSet::delete`: flip `deleted` on every listed block (the `for`
loop rendered as recursion over the list); a missing id is a panic in the
source (`self.id_to_index[block]`). -/
def BlockSet.delete (s : BlockSet) : List MapBlockId → Except String BlockSet
  | [] => Except.ok s
  | block :: rest =>
      match alistLookup block s.id_to_index with
      | some blockIndex =>
          BlockSet.delete
            { s with blocks := listModify s.blocks blockIndex (fun b => { b with deleted := true }) }
            rest
      | none => Except.error "block id not found"

/-- `BlockSet::get_latest_with_conflicts`: the blocks whose children list is
empty (hash-map iteration order is modelled by entry order; the theorems
below do not depend on it). -/
def BlockSet.get_latest_with_conflicts (s : BlockSet) : Option (List MapBlock) :=
  let blockIndexesWithoutChildren := (s.block_children.filter (fun e => e.2.isEmpty)).map (·.1)
  let blocksWithoutChildren := blockIndexesWithoutChildren.map (fun i => s.blocks.getD i default)
  if blocksWithoutChildren.isEmpty then none else some blocksWithoutChildren

/-- The comparator of `BlockSet::get_latest`: same client compares by
sequence; else equal timestamps compare by client id; else by timestamp. -/
def cmpMapBlocks (a b : MapBlock) : Ordering :=
  if a.id.client_id = b.id.client_id then cmpNat a.id.sequence b.id.sequence
  else if a.timestamp = b.timestamp then cmpNat a.id.client_id b.id.client_id
  else cmpNat a.timestamp b.timestamp

/-- `BlockSet::get_latest`: sort the candidate set and return the first
non-deleted block scanning from the greatest candidate downward. -/
def BlockSet.get_latest (s : BlockSet) : Option MapBlock := do
  let latest ← s.get_latest_with_conflicts
  let sorted := sortBy cmpMapBlocks latest
  sorted.reverse.find? (fun b => !b.deleted)

/-! ## Map CRDT (`src/crdt/map/map.rs`) -/

/-- `MapCRDT` from `map.rs`. -/
structure MapCRDT where
  client : Nat
  next_available_sequence : Nat
  fields : List (Selector × BlockSet)
deriving DecidableEq, Repr, Inhabited

/-- `MapCRDT::new`. -/
def MapCRDT.new (client : Nat) : MapCRDT := ⟨client, 0, []⟩

/-- `SetParams` from `map.rs`. -/
structure SetParams where
  selector : Selector
  id : MapBlockId
  parents : List MapBlockId
  value : Value
  timestamp : Nat
deriving Repr, Inhabited

/-- `DeleteParams` from `map.rs`. -/
structure DeleteParams where
  selector : Selector
  parents : List MapBlockId
deriving Repr, Inhabited

/-- `MapCRDT::get`. -/
def MapCRDT.get (m : MapCRDT) (key : Selector) : Option Value := do
  let field ← alistLookup key m.fields
  let latestBlock ← field.get_latest
  return latestBlock.value

/-- `MapCRDT::set`: insert a fresh (non-deleted) block into the field's
block set (created on demand). -/
def MapCRDT.set (m : MapCRDT) (action : SetParams) : Except String MapCRDT := do
  let field := (alistLookup action.selector m.fields).getD BlockSet.new
  let field ← field.insert
    { id := action.id, parents := action.parents, value := action.value,
      timestamp := action.timestamp, deleted := false }
  return { m with fields := alistInsert action.selector field m.fields }

/-- `MapCRDT::delete`: tombstone the listed blocks of the field's block set
(created on demand). -/
def MapCRDT.delete (m : MapCRDT) (action : DeleteParams) : Except String MapCRDT := do
  let field := (alistLookup action.selector m.fields).getD BlockSet.new
  let field ← field.delete action.parents
  return { m with fields := alistInsert action.selector field m.fields }

/-! ## Operations (`src/types.rs`) -/

/-- `CreateMapAction` from `types.rs`. -/
structure CreateMapAction where
  object : ObjRef
  selector : Selector
  id : MapBlockId
  parents : List MapBlockId
deriving DecidableEq, Repr, Inhabited

/-- `SetMapValueAction` from `types.rs`. -/
structure SetMapValueAction where
  object : ObjRef
  selector : Selector
  id : MapBlockId
  parents : List MapBlockId
  value : Value
deriving DecidableEq, Repr, Inhabited

/-- `DeleteMapValueAction` from `types.rs`. -/
structure DeleteMapValueAction where
  object : ObjRef
  selector : Selector
  parents : List MapBlockId
deriving DecidableEq, Repr, Inhabited

/-- `CreateTextAction` from `types.rs`. -/
structure CreateTextAction where
  object : ObjRef
  selector : Selector
  id : MapBlockId
  parents : List MapBlockId
deriving DecidableEq, Repr, Inhabited

/-- `InsertTextAction` from `types.rs`. -/
structure InsertTextAction where
  object : ObjRef
  id : SequenceBlockId
  value : String
  left : Option SequenceBlockId
deriving DecidableEq, Repr, Inhabited

/-- `DeleteTextAction` from `types.rs`. -/
structure DeleteTextAction where
  object : ObjRef
  left : SequenceBlockId
  right : SequenceBlockId
deriving DecidableEq, Repr, Inhabited

/-- `OperationAction` from `types.rs`. -/
inductive OperationAction where
  | createMap (a : CreateMapAction)
  | setMapValue (a : SetMapValueAction)
  | deleteMapValue (a : DeleteMapValueAction)
  | createText (a : CreateTextAction)
  | insertText (a : InsertTextAction)
  | deleteText (a : DeleteTextAction)
deriving DecidableEq, Repr, Inhabited

/-- `Operation` from `types.rs`. -/
structure Operation where
  id : OperationId
  parent : Option OperationId
  action : OperationAction
  timestamp : Nat
deriving DecidableEq, Repr, Inhabited

/-! ## Client-id remapping (`impl ClientRemappable`, `src/types.rs`) -/

/-- `ClientRemappings` (old local id to new local id). -/
def ClientRemappings : Type := List (Nat × Nat)

/-- A single `mappings.get(&client).expect("client ID not found")`. -/
def remapClient (mappings : List (Nat × Nat)) (c : Nat) : Except String Nat :=
  match alistLookup c mappings with
  | some n => Except.ok n
  | none => Except.error "client ID not found"

/-- `OperationId::remap_client_ids`. -/
def OperationId.remap (mappings : List (Nat × Nat)) (id : OperationId) :
    Except String OperationId := do
  let c ← remapClient mappings id.client_id
  return { id with client_id := c }

/-- `MapBlockId::remap_client_ids`. -/
def MapBlockId.remap (mappings : List (Nat × Nat)) (id : MapBlockId) :
    Except String MapBlockId := do
  let c ← remapClient mappings id.client_id
  return { id with client_id := c }

/-- `SequenceBlockId::remap_client_ids`. -/
def SequenceBlockId.remap (mappings : List (Nat × Nat)) (id : SequenceBlockId) :
    Except String SequenceBlockId := do
  let c ← remapClient mappings id.client_id
  return { id with client_id := c }

/-- `ObjRef::remap_client_ids` (only `Object` is rewritten). -/
def ObjRef.remap (mappings : List (Nat × Nat)) : ObjRef → Except String ObjRef
  | .root => Except.ok .root
  | .object id => do
      let id ← id.remap mappings
      return .object id

/-- `OperationAction::remap_client_ids`: each action rewrites its object
reference, its block id (when it has one), its parents, and its left/right
sequence ids; `SetMapValueAction` does not rewrite its value. -/
def OperationAction.remap (mappings : List (Nat × Nat)) :
    OperationAction → Except String OperationAction
  | .createMap a => do
      let object ← a.object.remap mappings
      let id ← a.id.remap mappings
      let parents ← a.parents.mapM (MapBlockId.remap mappings)
      return .createMap { a with object := object, id := id, parents := parents }
  | .setMapValue a => do
      let object ← a.object.remap mappings
      let id ← a.id.remap mappings
      let parents ← a.parents.mapM (MapBlockId.remap mappings)
      return .setMapValue { a with object := object, id := id, parents := parents }
  | .deleteMapValue a => do
      let object ← a.object.remap mappings
      let parents ← a.parents.mapM (MapBlockId.remap mappings)
      return .deleteMapValue { a with object := object, parents := parents }
  | .createText a => do
      let object ← a.object.remap mappings
      let id ← a.id.remap mappings
      let parents ← a.parents.mapM (MapBlockId.remap mappings)
      return .createText { a with object := object, id := id, parents := parents }
  | .insertText a => do
      let object ← a.object.remap mappings
      let id ← a.id.remap mappings
      let left ← match a.left with
        | some l => do
            let l ← l.remap mappings
            pure (some l)
        | none => pure none
      return .insertText { a with object := object, id := id, left := left }
  | .deleteText a => do
      let object ← a.object.remap mappings
      let left ← a.left.remap mappings
      let right ← a.right.remap mappings
      return .deleteText { a with object := object, left := left, right := right }

/-- `Operation::remap_client_ids`. -/
def Operation.remap (mappings : List (Nat × Nat)) (op : Operation) :
    Except String Operation := do
  let c ← remapClient mappings op.id.client_id
  let parent ← match op.parent with
    | some p => do
        let pc ← remapClient mappings p.client_id
        pure (some { p with client_id := pc })
    | none => pure none
  let action ← op.action.remap mappings
  return { op with id := { op.id with client_id := c }, parent := parent, action := action }

/-! ## Operation log (`src/operation_log/log.rs`) -/

/-- `OperationLog` from `log.rs` (`OperationIndex` is a position in
`operations`). -/
structure OperationLog where
  local_client : Nat
  operations : List Operation
  client_sequences : List (Nat × Nat)
  id_to_index : List (OperationId × Nat)
  roots : List Nat
  last : Option Nat
  orphans : List (OperationId × Operation)
deriving Repr, Inhabited, DecidableEq

/-- `OperationLog::new`. -/
def OperationLog.new (local_client : Nat) : OperationLog :=
  ⟨local_client, [], [], [], [], none, []⟩

/-- `SortedOperationIterator::compare_operations` (on operation indices). -/
def compare_operations (operations : List Operation) (a b : Nat) : Ordering :=
  let aOp := operations.getD a default
  let bOp := operations.getD b default
  if aOp.id.client_id = bOp.id.client_id then cmpNat aOp.id.sequence bOp.id.sequence
  else if aOp.timestamp = bOp.timestamp then cmpNat aOp.id.client_id bOp.id.client_id
  else cmpNat aOp.timestamp bOp.timestamp

/-- The children adjacency built by `SortedOperationIterator::new`: for each
operation with a parent, its index is pushed onto the parent's entry (a
missing parent id is a panic: `id_to_index[&parent]`). -/
def buildChildren (operations : List Operation) (id_to_index : List (OperationId × Nat)) :
    Except String (List (Nat × List Nat)) :=
  (operations.enum.foldlM (fun children (index, operation) =>
    match operation.parent with
    | some parent =>
        match alistLookup parent id_to_index with
        | some parentIndex => Except.ok (BlockSet.pushChild children parentIndex index)
        | none => Except.error "parent operation not in id_to_index"
    | none => Except.ok children) [])

/-- One round of `SortedOperationIterator::next`: the `to_visit` deque is
extended at the back and popped at the back, so the list here keeps the top
of that stack at its head.  The emitted value is the popped index; children
are pushed in ascending sorted order, so the greatest child surfaces first. -/
def iterSortedAux (operations : List Operation) (children : List (Nat × List Nat)) :
    Nat → List Nat → List Nat
  | 0, _ => []
  | _, [] => []
  | fuel + 1, index :: rest =>
      let newStack :=
        match alistLookup index children with
        | some cs =>
            if cs.length = 1 then cs ++ rest
            else (sortBy (compare_operations operations) cs).reverse ++ rest
        | none => rest
      index :: iterSortedAux operations children fuel newStack

/-- `OperationLog::iter_sorted`, as the list of visited operation indices:
roots are sorted ascending, then traversed LIFO (so the greatest root is
visited first).  The fuel `operations.length + 1` is enough for every log
whose parent pointers form a forest, which `insert_operation` guarantees. -/
def OperationLog.iterSortedIndices (log : OperationLog) : Except String (List Nat) :=
  match buildChildren log.operations log.id_to_index with
  | .error e => .error e
  | .ok children =>
      .ok (iterSortedAux log.operations children (log.operations.length + 1)
        (sortBy (compare_operations log.operations) log.roots).reverse)

/-- `OperationLog::iter_sorted` (the operations themselves). -/
def OperationLog.iter_sorted (log : OperationLog) : Except String (List Operation) :=
  match log.iterSortedIndices with
  | .error e => .error e
  | .ok indices => .ok (indices.map (fun i => log.operations.getD i default))

/-- `OperationLog::is_orphan`. -/
def OperationLog.is_orphan (log : OperationLog) (op : Operation) : Bool :=
  match op.parent with
  | some parent => !(alistContains parent log.id_to_index)
  | none => false

/-- `OperationLog::is_concurrent`. -/
def OperationLog.is_concurrent (log : OperationLog) (op : Operation) : Bool :=
  match log.last with
  | some last =>
      match op.parent with
      | some parent =>
          if (log.operations.getD last default).id = parent then false else true
      | none => true
  | none => true

/-- `OperationLog::recalculate_last`. -/
def OperationLog.recalculate_last (log : OperationLog) : Except String OperationLog :=
  match log.iter_sorted with
  | .error e => .error e
  | .ok sorted =>
      match sorted.getLast? with
      | some op =>
          match alistLookup op.id log.id_to_index with
          | some index => .ok { log with last := some index }
          | none => .error "operation should have an index"
      | none => .ok { log with last := none }

/-- `OperationLog::insert_operation` (the in-function panics are rendered
as `.error`; the sequential mutations of `self` are rendered as the
numbered intermediate logs). -/
def OperationLog.insert_operation (log : OperationLog) (op : Operation) :
    Except String (Option Nat × OperationLog) :=
  -- Already processed
  if alistContains op.id log.id_to_index then .ok (none, log)
  -- Orphan entry, the dependencies are not available yet
  else if log.is_orphan op then
    match op.parent with
    | some opParent =>
        .ok (none, { log with orphans := alistInsert opParent op log.orphans })
    | none => .error "orphan should have a parent"
  else
    let index := log.operations.length
    let log1 := { log with id_to_index := alistInsert op.id index log.id_to_index }
    let log2 :=
      if op.parent.isNone then { log1 with roots := log1.roots ++ [index] } else log1
    -- Update client sequences (a non-monotonic sequence is a panic)
    match (match alistLookup op.id.client_id log2.client_sequences with
           | some sequence =>
               if op.id.sequence ≤ sequence then
                 Except.error "sequence is not monotonically increasing"
               else Except.ok ()
           | none => Except.ok () : Except String Unit) with
    | .error e => .error e
    | .ok () =>
        let log3 := { log2 with
          client_sequences := alistInsert op.id.client_id op.id.sequence log2.client_sequences }
        if log3.is_concurrent op then
          match OperationLog.recalculate_last { log3 with operations := log3.operations ++ [op] } with
          | .error e => .error e
          | .ok log4 => .ok (some index, log4)
        else
          .ok (some index, { log3 with operations := log3.operations ++ [op], last := some index })

/-- The orphan-draining loop of `OperationLog::apply_operation`.  Each round
removes the orphan waiting on the last inserted id and re-inserts it; the
fuel `orphans.length + 1` covers every possible chain since each round
shrinks the orphan map. -/
def OperationLog.drainOrphans :
    Nat → OperationId → OperationLog → List Nat → Except String (OperationLog × List Nat)
  | 0, _, _, _ => Except.error "orphan drain fuel exhausted"
  | fuel + 1, operationId, log, applied =>
      match alistLookup operationId log.orphans with
      | none => Except.ok (log, applied)
      | some orphan =>
          match OperationLog.insert_operation
              { log with orphans := alistRemove operationId log.orphans } orphan with
          | .error e => .error e
          | .ok (r, log) =>
              OperationLog.drainOrphans fuel orphan.id log
                (match r with
                 | some i => applied ++ [i]
                 | none => applied)

/-- `OperationLog::apply_operation`: idempotent insert plus chained orphan
resolution; returns the applied operations (by index) and the new log. -/
def OperationLog.apply_operation (log : OperationLog) (op : Operation) :
    Except String (List Operation × OperationLog) :=
  match log.insert_operation op with
  | .error e => .error e
  | .ok (r, log1) =>
      match OperationLog.drainOrphans (log1.orphans.length + 1) op.id log1
          (match r with
           | some i => [i]
           | none => []) with
      | .error e => .error e
      | .ok (log2, applied) =>
          .ok (applied.map (fun i => log2.operations.getD i default), log2)

/-- `OperationLog::load` (used by `from_buffer`): apply the deserialized
operations in order onto a fresh log. -/
def OperationLog.load (local_client : Nat) (operations : List Operation) :
    Except String OperationLog :=
  operations.foldlM (fun log op => do
    let (_, log) ← log.apply_operation op
    return log) (OperationLog.new local_client)

/-- The comparator of `serialize_operations` (`operation_log/serde.rs`):
by client id, then by sequence. -/
def compare_operations_serde (a b : Operation) : Ordering :=
  if a.id.client_id = b.id.client_id then cmpNat a.id.sequence b.id.sequence
  else cmpNat a.id.client_id b.id.client_id

/-- The operation sequence `serialize_operations` writes for a log:
`operations.iter().chain(orphans.values())`, sorted with
`compare_operations` of the serde module.  The byte buffer starts with this
list's length as a varint and then encodes exactly this list column-wise, so
two logs serializing different lists here produce different buffers. -/
def OperationLog.serializedOperationOrder (log : OperationLog) : List Operation :=
  sortBy compare_operations_serde (log.operations ++ log.orphans.map (·.2))

/-- `OperationLog::remap_client_ids`: the local client id, every stored
operation, the client-sequence keys, the id-to-index keys and the orphan
keys are rewritten; a client id missing from the mappings is a panic. -/
def OperationLog.remap_client_ids (log : OperationLog) (mappings : List (Nat × Nat)) :
    Except String OperationLog :=
  match alistLookup log.local_client mappings with
  | none => Except.error "local client ID not found"
  | some local_client => do
      let operations ← log.operations.mapM (Operation.remap mappings)
      let newSequences ← log.client_sequences.mapM (fun cs => do
        let c ← remapClient mappings cs.1
        return (c, cs.2))
      let client_sequences := newSequences.foldl (fun acc cs => alistInsert cs.1 cs.2 acc) []
      let newIdToIndex ← log.id_to_index.mapM (fun e => do
        let c ← remapClient mappings e.1.client_id
        return ((⟨c, e.1.sequence⟩ : OperationId), e.2))
      let id_to_index := newIdToIndex.foldl (fun acc e => alistInsert e.1 e.2 acc) []
      let newOrphans ← log.orphans.mapM (fun e => do
        let c ← remapClient mappings e.1.client_id
        return ((⟨c, e.1.sequence⟩ : OperationId), e.2))
      let orphans := newOrphans.foldl (fun acc e => alistInsert e.1 e.2 acc) []
      return { local_client := local_client, operations := operations,
               client_sequences := client_sequences, id_to_index := id_to_index,
               roots := log.roots, last := log.last, orphans := orphans }

/-- The client ids a log records (and `remap_client_ids` consults): the ids
referenced by each stored operation (its own id, its parent, and its
action's object/block/parent/left/right ids), the keys of the per-client
sequence map, the keys of the id-to-index map, and the orphan keys.  The
orphan operations themselves are only cloned, so their contents are not
consulted. -/
def OperationAction.referencedClientIds : OperationAction → List Nat
  | .createMap a =>
      (match a.object with | .object id => [id.client_id] | .root => []) ++
        [a.id.client_id] ++ a.parents.map (·.client_id)
  | .setMapValue a =>
      (match a.object with | .object id => [id.client_id] | .root => []) ++
        [a.id.client_id] ++ a.parents.map (·.client_id)
  | .deleteMapValue a =>
      (match a.object with | .object id => [id.client_id] | .root => []) ++
        a.parents.map (·.client_id)
  | .createText a =>
      (match a.object with | .object id => [id.client_id] | .root => []) ++
        [a.id.client_id] ++ a.parents.map (·.client_id)
  | .insertText a =>
      (match a.object with | .object id => [id.client_id] | .root => []) ++
        [a.id.client_id] ++ (match a.left with | some l => [l.client_id] | none => [])
  | .deleteText a =>
      (match a.object with | .object id => [id.client_id] | .root => []) ++
        [a.left.client_id, a.right.client_id]

/-- The client ids one operation makes `remap_client_ids` look up. -/
def Operation.referencedClientIds (op : Operation) : List Nat :=
  op.id.client_id :: ((match op.parent with | some p => [p.client_id] | none => []) ++
    op.action.referencedClientIds)

/-- All client ids recorded in the log that `remap_client_ids` looks up
(besides the log's own `local_client`). -/
def OperationLog.recordedClientIds (log : OperationLog) : List Nat :=
  log.operations.flatMap Operation.referencedClientIds ++
    log.client_sequences.map (·.1) ++
    log.id_to_index.map (·.1.client_id) ++
    log.orphans.map (·.1.client_id)

/-! ## Sequence tree (`src/crdt/shared/tree.rs`)

The tree is instantiated at `Items = String` as `TextCRDT` does
(`src/crdt/text.rs`), with `BRANCH_SIZE = 32` and `LEAF_SIZE = 32`.
String lengths and split offsets are modelled at character granularity; the
source uses byte offsets, and the two agree on the ASCII payloads used in
the theorems below.  The `u32` size metrics are `Nat`; the subtraction in
`subtract_size_metrics_recursively` is truncated subtraction, which agrees
with the source whenever the stored metrics are consistent. -/

def BRANCH_SIZE : Nat := 32

def LEAF_SIZE : Nat := 32

/-- `BranchItem` from `tree.rs`. -/
structure BranchItem where
  node : Nat
  total_size : Nat
  item_count : Nat
deriving DecidableEq, Repr, Inhabited

/-- `BranchNode` from `tree.rs` (`items` capped at `BRANCH_SIZE`). -/
structure BranchNode where
  id : Nat
  parent : Option Nat
  items : List BranchItem
deriving DecidableEq, Repr, Inhabited

/-- `LeafNode` from `tree.rs` (`items` holds block indices, capped at
`LEAF_SIZE`). -/
structure LeafNode where
  id : Nat
  parent : Option Nat
  items : List Nat
  next_block : Option Nat
  previous_block : Option Nat
deriving DecidableEq, Repr, Inhabited

/-- `Node` from `tree.rs`. -/
inductive Node where
  | branch (b : BranchNode)
  | leaf (l : LeafNode)
deriving DecidableEq, Repr, Inhabited

/-- `Node::is_full`. -/
def Node.is_full : Node → Bool
  | .branch b => BRANCH_SIZE ≤ b.items.length
  | .leaf l => LEAF_SIZE ≤ l.items.length

/-- `Node::set_parent`. -/
def Node.set_parent : Node → Nat → Node
  | .branch b, p => .branch { b with parent := some p }
  | .leaf l, p => .leaf { l with parent := some p }

/-- `Node::as_leaf` (panics in the callers on mismatch). -/
def Node.asLeaf : Node → Except String LeafNode
  | .leaf l => Except.ok l
  | .branch _ => Except.error "not a leaf"

/-- `Node::as_branch`. -/
def Node.asBranch : Node → Except String BranchNode
  | .branch b => Except.ok b
  | .leaf _ => Except.error "not a branch"

/-- `SequenceBlock<String>` from `tree.rs`. -/
structure SequenceBlock where
  id : SequenceBlockId
  items : String
  left : Option SequenceBlockId
  deleted : Bool
deriving DecidableEq, Repr, Inhabited

/-- `SequenceBlock::new`. -/
def SequenceBlock.new (id : SequenceBlockId) (items : String) (left : Option SequenceBlockId) :
    SequenceBlock :=
  ⟨id, items, left, false⟩

/-- `SequenceTree<String, 32, 32>` from `tree.rs` (`end` is a Lean keyword,
rendered `endNode`). -/
structure SequenceTree where
  blocks : List SequenceBlock
  nodes : List Node
  root : Nat
  start : Nat
  endNode : Nat
  block_children : List (SequenceBlockId × List SequenceBlockId)
  root_blocks : List SequenceBlockId
  sequence_id_to_node : List (SequenceBlockId × Nat)
deriving DecidableEq, Repr, Inhabited

/-- `SequenceTree::new`: a single empty leaf is the root, start and end. -/
def SequenceTree.new : SequenceTree :=
  { blocks := [], nodes := [Node.leaf ⟨0, none, [], none, none⟩], root := 0, start := 0,
    endNode := 0, block_children := [], root_blocks := [], sequence_id_to_node := [] }

/-- `entry(k).or_insert_with(Vec::new).push(v)` on a hash map of vectors. -/
def alistPushValue {κ ν : Type} [DecidableEq κ] (k : κ) (v : ν) (l : List (κ × List ν)) :
    List (κ × List ν) :=
  match alistLookup k l with
  | some vs => alistInsert k (vs ++ [v]) l
  | none => alistInsert k [v] l

/-- Indexing `self.nodes[i]` (out of bounds panics). -/
def SequenceTree.getNode (t : SequenceTree) (i : Nat) : Except String Node :=
  match t.nodes.get? i with
  | some n => Except.ok n
  | none => Except.error "node index out of bounds"

/-- Writing `self.nodes[i]`. -/
def SequenceTree.setNode (t : SequenceTree) (i : Nat) (n : Node) : SequenceTree :=
  { t with nodes := listModify t.nodes i (fun _ => n) }

/-- Indexing `self.blocks[i]`. -/
def SequenceTree.getBlock (t : SequenceTree) (i : Nat) : Except String SequenceBlock :=
  match t.blocks.get? i with
  | some b => Except.ok b
  | none => Except.error "block index out of bounds"

/-- Writing `self.blocks[i]`. -/
def SequenceTree.setBlock (t : SequenceTree) (i : Nat) (b : SequenceBlock) : SequenceTree :=
  { t with blocks := listModify t.blocks i (fun _ => b) }

/-- The scan shared by `find_block`, `find_block_mut` and
`find_block_index`: the first block in the leaf's item list whose id is
`block_id`, as `(blocks index, block)`. -/
def SequenceTree.findBlockInList (t : SequenceTree) (block_id : SequenceBlockId) :
    List Nat → Except String (Nat × SequenceBlock)
  | [] => Except.error "unable to find the block"
  | bi :: rest => do
      let b ← t.getBlock bi
      if b.id = block_id then return (bi, b) else t.findBlockInList block_id rest

/-- `SequenceTree::find_block` (also `find_block_index` through `.1`). -/
def SequenceTree.find_block (t : SequenceTree) (containing_node : Nat)
    (block_id : SequenceBlockId) : Except String (Nat × SequenceBlock) := do
  let leaf ← (← t.getNode containing_node).asLeaf
  t.findBlockInList block_id leaf.items

/-- Position of the block with id `block_id` inside a leaf's item list
(`items.iter().position(..)` over `self.blocks`). -/
def SequenceTree.positionOfBlockId (t : SequenceTree) (block_id : SequenceBlockId) :
    List Nat → Except String (Option Nat)
  | [] => Except.ok none
  | bi :: rest => do
      let b ← t.getBlock bi
      if b.id = block_id then return (some 0)
      else do
        let r ← t.positionOfBlockId block_id rest
        return r.map (· + 1)

/-- Update (in place) the first branch item pointing at `target`, mirroring
the `for .. { if item.node == target { ..; break } }` loops. -/
def updateFirstBranchItem (target : Nat) (f : BranchItem → BranchItem) :
    List BranchItem → List BranchItem
  | [] => []
  | it :: rest =>
      if it.node = target then f it :: rest
      else it :: updateFirstBranchItem target f rest

/-- The parent-chain walk shared by `subtract_size_metrics_recursively`,
`merge_block` and the metrics update of `insert_block_in_node`: climb from
`target` through `current_parent`, applying `f` to the first branch item of
each parent that points at the child just visited. -/
def SequenceTree.updateParentChain (t : SequenceTree) (f : BranchItem → BranchItem) :
    Nat → Nat → Option Nat → Except String SequenceTree
  | 0, _, _ => Except.error "parent chain fuel exhausted"
  | _, _, none => Except.ok t
  | fuel + 1, target, some parent => do
      let bn ← (← t.getNode parent).asBranch
      let t := t.setNode parent (.branch { bn with items := updateFirstBranchItem target f bn.items })
      t.updateParentChain f fuel parent bn.parent

/-- `SequenceTree::subtract_size_metrics_recursively`. -/
def SequenceTree.subtract_size_metrics_recursively (t : SequenceTree)
    (leaf_node_index : Nat) (reduction : Nat) : Except String SequenceTree := do
  let leaf ← (← t.getNode leaf_node_index).asLeaf
  t.updateParentChain (fun it => { it with total_size := it.total_size - reduction })
    (t.nodes.length + 1) leaf_node_index leaf.parent

/-- `SequenceTree::get_total_size_for_node` (reads the stored metrics of a
branch; sums live block sizes of a leaf). -/
def SequenceTree.get_total_size_for_node (t : SequenceTree) (node_index : Nat) :
    Except String Nat := do
  match ← t.getNode node_index with
  | .branch b => return b.items.foldl (fun s it => s + it.total_size) 0
  | .leaf l =>
      l.items.foldlM (fun s bi => do
        let b ← t.getBlock bi
        return s + (if b.deleted then 0 else b.items.length)) 0

/-- `SequenceTree::get_items_count_for_node`. -/
def SequenceTree.get_items_count_for_node (t : SequenceTree) (node_index : Nat) :
    Except String Nat := do
  match ← t.getNode node_index with
  | .branch b => return b.items.foldl (fun s it => s + it.item_count) 0
  | .leaf l => return l.items.length

/-- `SequenceTree::create_upper_root`. -/
def SequenceTree.create_upper_root (t : SequenceTree) (left right : Nat) :
    Except String SequenceTree := do
  let new_root_id := t.nodes.length
  let t := { t with nodes := t.nodes ++ [Node.branch ⟨new_root_id, none, []⟩], root := new_root_id }
  let leftNode ← t.getNode left
  let t := t.setNode left (leftNode.set_parent new_root_id)
  let left_total_size ← t.get_total_size_for_node left
  let left_items_count ← t.get_items_count_for_node left
  let rightNode ← t.getNode right
  let t := t.setNode right (rightNode.set_parent new_root_id)
  let right_total_size ← t.get_total_size_for_node right
  let right_items_count ← t.get_items_count_for_node right
  let rootNode ← (← t.getNode t.root).asBranch
  let newItems := rootNode.items ++
    [⟨left, left_total_size, left_items_count⟩, ⟨right, right_total_size, right_items_count⟩]
  if BRANCH_SIZE < newItems.length then Except.error "insertion failed"
  return t.setNode t.root (.branch { rootNode with items := newItems })

mutual

/-- `SequenceTree::insert_branch_item`: place the item for the freshly
split-off `right_item` just after `left_item`, splitting the branch itself
when full, then recompute the metrics of every explored branch. -/
def SequenceTree.insert_branch_item (t : SequenceTree) :
    Nat → Nat → Nat → Nat → Except String SequenceTree
  | 0, _, _, _ => Except.error "branch split fuel exhausted"
  | fuel + 1, branch, left_item, right_item => do
      let branchNode ← t.getNode branch
      let (t, branches_to_explore) ←
        if branchNode.is_full then do
          let (t, nb) ← t.split_branch fuel branch
          pure (t, [branch, nb])
        else pure (t, [branch])
      let t ← SequenceTree.insertIntoBranches t branches_to_explore left_item right_item
      let t ← branches_to_explore.foldlM (fun t br => do
        let bn ← (← t.getNode br).asBranch
        let metrics ← bn.items.mapM (fun it => do
          let items_count ← t.get_items_count_for_node it.node
          let total_size ← t.get_total_size_for_node it.node
          pure (items_count, total_size))
        let newItems := (bn.items.zip metrics).map
          (fun p => { p.1 with item_count := p.2.1, total_size := p.2.2 })
        pure (t.setNode br (.branch { bn with items := newItems }))) t
      return t

/-- The insertion loop of `insert_branch_item`: the first explored branch
containing `left_item` receives the new item right after it (the right
node's parent pointer is updated); finding none is a panic. -/
def SequenceTree.insertIntoBranches (t : SequenceTree) :
    List Nat → Nat → Nat → Except String SequenceTree
  | [], _, _ => Except.error "unable to find the left item in the branch"
  | branch :: rest, left_item, right_item => do
      let bn ← (← t.getNode branch).asBranch
      match bn.items.findIdx? (fun it => it.node = left_item) with
      | some left_item_index => do
          let newItems := bn.items.take (left_item_index + 1) ++
            [⟨right_item, 0, 0⟩] ++ bn.items.drop (left_item_index + 1)
          if BRANCH_SIZE < newItems.length then Except.error "insertion failed"
          let t := t.setNode branch (.branch { bn with items := newItems })
          let rightNode ← t.getNode right_item
          return t.setNode right_item (rightNode.set_parent branch)
      | none => SequenceTree.insertIntoBranches t rest left_item right_item

/-- `SequenceTree::split_branch`: drain the back half of a full branch into
a new right-hand branch, reparent the moved children, and register the new
branch with the parent (or grow a new root). -/
def SequenceTree.split_branch (t : SequenceTree) :
    Nat → Nat → Except String (SequenceTree × Nat)
  | 0, _ => Except.error "branch split fuel exhausted"
  | fuel + 1, node_index => do
      let right_node_id := t.nodes.length
      let leftNode ← (← t.getNode node_index).asBranch
      let moved := min (BRANCH_SIZE / 2) leftNode.items.length
      let leftItems := leftNode.items.take (leftNode.items.length - moved)
      let rightItems := leftNode.items.drop (leftNode.items.length - moved)
      let t := t.setNode node_index (.branch { leftNode with items := leftItems })
      let t ← rightItems.foldlM (fun t it => do
        let child ← t.getNode it.node
        pure (t.setNode it.node (child.set_parent right_node_id))) t
      let t := { t with nodes := t.nodes ++
        [Node.branch ⟨right_node_id, leftNode.parent, rightItems⟩] }
      match leftNode.parent with
      | some parent => do
          let t ← t.insert_branch_item fuel parent node_index right_node_id
          return (t, right_node_id)
      | none => do
          let t ← t.create_upper_root node_index right_node_id
          return (t, right_node_id)

end

/-- `SequenceTree::split_leaf`: drain the back half of a full leaf into a
new right-hand leaf, relink the sibling chain and the id cache, then
register the new leaf with the parent (or grow a new root). -/
def SequenceTree.split_leaf (t : SequenceTree) (node_index : Nat) :
    Except String (SequenceTree × Nat) := do
  let right_node_id := t.nodes.length
  let leftNode ← (← t.getNode node_index).asLeaf
  let moved := min (LEAF_SIZE / 2) leftNode.items.length
  let leftItems := leftNode.items.take (leftNode.items.length - moved)
  let rightItems := leftNode.items.drop (leftNode.items.length - moved)
  let rightLeaf : LeafNode :=
    { id := right_node_id, parent := leftNode.parent, items := rightItems,
      next_block := leftNode.next_block, previous_block := some leftNode.id }
  let t := t.setNode node_index
    (.leaf { leftNode with items := leftItems, next_block := some rightLeaf.id })
  let t ← rightItems.foldlM (fun t bi => do
    let b ← t.getBlock bi
    pure { t with sequence_id_to_node := alistInsert b.id right_node_id t.sequence_id_to_node }) t
  let t := { t with nodes := t.nodes ++ [Node.leaf rightLeaf] }
  let t := if node_index = t.endNode then { t with endNode := right_node_id } else t
  match leftNode.parent with
  | some parent => do
      let t ← t.insert_branch_item (t.nodes.length + 1) parent node_index right_node_id
      return (t, right_node_id)
  | none => do
      let t ← t.create_upper_root node_index right_node_id
      return (t, right_node_id)

/-- The leaf-probing loop of `insert_block_in_node`: the first explored leaf
containing `actual_left_id` receives the block index right after it. -/
def SequenceTree.insertIntoLeaves (t : SequenceTree) :
    List Nat → SequenceBlockId → Nat → Except String (SequenceTree × Nat)
  | [], _, _ => Except.error "unable to find the left item in the leaf"
  | leafIdx :: rest, left_id, block_index => do
      let leaf ← (← t.getNode leafIdx).asLeaf
      match ← t.positionOfBlockId left_id leaf.items with
      | some pos => do
          let newItems := leaf.items.take (pos + 1) ++ [block_index] ++ leaf.items.drop (pos + 1)
          if LEAF_SIZE < newItems.length then Except.error "insertion failed"
          return (t.setNode leafIdx (.leaf { leaf with items := newItems }), leafIdx)
      | none => SequenceTree.insertIntoLeaves t rest left_id block_index

/-- `SequenceTree::insert_block_in_node`: insert (the index of) a block into
a leaf right after `actual_left_id` (or at the very front when there is no
left), splitting the leaf when full, then update the metrics on the path to
the root and the id cache. -/
def SequenceTree.insert_block_in_node (t : SequenceTree) (block_index : Nat)
    (actual_left_id : Option SequenceBlockId) (node_index : Nat) :
    Except String SequenceTree := do
  let node ← t.getNode node_index
  let (t, leaves_to_explore) ←
    if node.is_full then do
      let (t, nl) ← t.split_leaf node_index
      pure (t, [node_index, nl])
    else pure (t, [node_index])
  let (t, insertion_leaf) ←
    match actual_left_id with
    | some left_id => SequenceTree.insertIntoLeaves t leaves_to_explore left_id block_index
    | none => do
        if leaves_to_explore.headD 0 ≠ t.start then
          Except.error "only the start node should be explored"
        let leaf ← (← t.getNode t.start).asLeaf
        let newItems := block_index :: leaf.items
        if LEAF_SIZE < newItems.length then Except.error "insertion failed"
        pure (t.setNode t.start (.leaf { leaf with items := newItems }), t.start)
  let block ← t.getBlock block_index
  let block_size := block.items.length
  let leaf ← (← t.getNode insertion_leaf).asLeaf
  let t ← t.updateParentChain
    (fun it => { it with total_size := it.total_size + block_size, item_count := it.item_count + 1 })
    (t.nodes.length + 1) insertion_leaf leaf.parent
  return { t with sequence_id_to_node := alistInsert block.id insertion_leaf t.sequence_id_to_node }

/-- `SequenceTree::split_block`: split one stored block at `offset`, the
right half becoming a new block whose `left` is the left half, and insert
the right half just after the left one. -/
def SequenceTree.split_block (t : SequenceTree) (containing_node : Nat)
    (block : SequenceBlockId) (offset : Nat) : Except String SequenceTree := do
  let (block_index, left_block) ← t.find_block containing_node block
  let right_content := left_block.items.drop offset
  let right_content_size := right_content.length
  let right_block : SequenceBlock :=
    { id := ⟨left_block.id.client_id, left_block.id.sequence + offset⟩,
      deleted := left_block.deleted, items := right_content, left := some left_block.id }
  let t := t.setBlock block_index { left_block with items := left_block.items.take offset }
  let right_block_index := t.blocks.length
  let t := { t with blocks := t.blocks ++ [right_block] }
  let t ← t.subtract_size_metrics_recursively containing_node right_content_size
  t.insert_block_in_node right_block_index (some block) containing_node

/-- The backwards scan of `get_or_split_block_ending_at` over
`(0..position.sequence).rev()`: the argument is the number of candidate
sequence numbers left, the candidate being one less. -/
def SequenceTree.scanLeftEndingAt (t : SequenceTree) (client_id : Nat)
    (positionSeq : Nat) : Nat → Except String (SequenceTree × SequenceBlockId)
  | 0 => Except.error "unable to find the ending block"
  | k + 1 => do
      let id : SequenceBlockId := ⟨client_id, k⟩
      match alistLookup id t.sequence_id_to_node with
      | some node_index => do
          let (_, block) ← t.find_block node_index id
          let offset := positionSeq - block.id.sequence
          if offset = block.items.length - 1 then return (t, id)
          else do
            let t ← t.split_block node_index id (offset + 1)
            return (t, id)
      | none => t.scanLeftEndingAt client_id positionSeq k

/-- `SequenceTree::get_or_split_block_ending_at`: resolve `position` to the
id of a block that ends exactly there, splitting a longer block when
needed. -/
def SequenceTree.get_or_split_block_ending_at (t : SequenceTree)
    (position : SequenceBlockId) : Except String (SequenceTree × SequenceBlockId) := do
  match alistLookup position t.sequence_id_to_node with
  | some node_index => do
      let (_, block) ← t.find_block node_index position
      let block_id := block.id
      if block.items.length = 1 then return (t, position)
      else do
        let t ← t.split_block node_index block_id 1
        return (t, block_id)
  | none => t.scanLeftEndingAt position.client_id position.sequence position.sequence

/-- `SequenceTree::is_block_mergeable`: same client as the virtual left,
consecutive sequence number, and the resolved left block is live. -/
def SequenceTree.is_block_mergeable (t : SequenceTree) (virtual_left real_left current :
    SequenceBlockId) : Except String Bool := do
  if virtual_left.client_id ≠ current.client_id then return false
  if virtual_left.sequence + 1 ≠ current.sequence then return false
  match alistLookup real_left t.sequence_id_to_node with
  | none => Except.error "node should exist"
  | some containing_node => do
      let (_, left_block) ← t.find_block containing_node real_left
      if left_block.deleted then return false
      return true

/-- `SequenceTree::merge_block`: append the incoming items onto the resolved
left block and propagate the size delta up the tree. -/
def SequenceTree.merge_block (t : SequenceTree) (block : SequenceBlock)
    (left_block_id : SequenceBlockId) : Except String SequenceTree := do
  match alistLookup left_block_id t.sequence_id_to_node with
  | none => Except.error "node should exist"
  | some left_node_index => do
      let (bidx, left_block) ← t.find_block left_node_index left_block_id
      if left_block.deleted then Except.error "left block should not be deleted"
      let new_items_count := block.items.length
      let t := t.setBlock bidx { left_block with items := left_block.items ++ block.items }
      let leaf ← (← t.getNode left_node_index).asLeaf
      t.updateParentChain (fun it => { it with total_size := it.total_size + new_items_count })
        (t.nodes.length + 1) left_node_index leaf.parent

/-- `SequenceTree::find_latest_descendent`: LIFO walk of the block-children
map; the first visited block with no children is the answer (the list head
is the top of the `VecDeque`'s back). -/
def SequenceTree.findLatestDescendentAux (t : SequenceTree) :
    Nat → List SequenceBlockId → Except String SequenceBlockId
  | 0, _ => Except.error "descendant search fuel exhausted"
  | _, [] => Except.error "unable to find the latest descendent"
  | fuel + 1, current :: rest =>
      match alistLookup current t.block_children with
      | none => Except.ok current
      | some [] => Except.ok current
      | some children => t.findLatestDescendentAux fuel (children.reverse ++ rest)

/-- `SequenceTree::find_latest_descendent`. -/
def SequenceTree.find_latest_descendent (t : SequenceTree) (parent : SequenceBlockId) :
    Except String SequenceBlockId :=
  t.findLatestDescendentAux (t.blocks.length + 1) [parent]

/-- The comparator of `SequenceTree::deterministic_id_sort`: client id
ascending; within one client, sequence descending (the more recent item
precedes). -/
def cmpDeterministicIds (a b : SequenceBlockId) : Ordering :=
  if a.client_id = b.client_id then cmpNat b.sequence a.sequence
  else cmpNat a.client_id b.client_id

/-- `SequenceTree::deterministic_id_sort`. -/
def SequenceTree.deterministic_id_sort (_t : SequenceTree) (ids : List SequenceBlockId) :
    List SequenceBlockId :=
  sortBy cmpDeterministicIds ids

/-- `SequenceTree::insert_block` (the non-merging insertion path): register
the block in the children map (or as a root), determine the interleaving
target by the deterministic sibling sort, and insert into the target leaf. -/
def SequenceTree.insert_block (t : SequenceTree) (block : SequenceBlock)
    (left_block_id : Option SequenceBlockId) : Except String SequenceTree := do
  let block_id := block.id
  let t := match left_block_id with
    | some left => { t with block_children := alistPushValue left block_id t.block_children }
    | none => { t with root_blocks := t.root_blocks ++ [block_id] }
  let block_index := t.blocks.length
  let t := { t with blocks := t.blocks ++ [block] }
  let actual_left_id ← (match left_block_id with
    | none =>
        if t.root_blocks.length = 1 then Except.ok none
        else if 1 < t.root_blocks.length then do
          let sorted_roots := t.deterministic_id_sort t.root_blocks
          match sorted_roots.findIdx? (· = block_id) with
          | none => Except.error "current element should exist"
          | some 0 => Except.ok none
          | some (i + 1) => do
              let previous_root := sorted_roots.getD i default
              let latest_descendent ← t.find_latest_descendent previous_root
              Except.ok (some latest_descendent)
        else Except.error "unreachable"
    | some left => do
        match alistLookup left t.block_children with
        | none => Except.error "parent children should exist"
        | some parent_children => do
            if parent_children.isEmpty then Except.error "parent should have children"
            if parent_children.length = 1 then Except.ok (some left)
            else
              let sorted_parent_children := t.deterministic_id_sort parent_children
              match sorted_parent_children.findIdx? (· = block_id) with
              | none => Except.error "current element should exist"
              | some 0 => Except.ok (some left)
              | some (i + 1) => do
                  let previous_child := sorted_parent_children.getD i default
                  let latest_descendent ← t.find_latest_descendent previous_child
                  Except.ok (some latest_descendent) :
    Except String (Option SequenceBlockId))
  let target_node_index ←
    match actual_left_id with
    | some id =>
        match alistLookup id t.sequence_id_to_node with
        | some n => Except.ok n
        | none => Except.error "actual left containing node should exist in cache"
    | none => Except.ok t.start
  t.insert_block_in_node block_index actual_left_id target_node_index

/-- `SequenceTree::insert`: resolve the virtual left to a real block
(splitting as needed), take the run-length merge path when
`is_block_mergeable` allows it, and fall back to `insert_block`. -/
def SequenceTree.insert (t : SequenceTree) (block : SequenceBlock) :
    Except String SequenceTree := do
  let block_id := block.id
  let virtual_left_block_id := block.left
  let (t, left_block_id) ← match virtual_left_block_id with
    | some left => do
        let (t, r) ← t.get_or_split_block_ending_at left
        pure (t, some r)
    | none => pure (t, none)
  let should_merge ← match virtual_left_block_id, left_block_id with
    | some virtual_left, some real_left => t.is_block_mergeable virtual_left real_left block_id
    | _, _ => pure false
  if should_merge then
    match left_block_id with
    | some real_left => t.merge_block block real_left
    | none => Except.error "left block should exist"
  else
    t.insert_block block left_block_id

/-- `SequenceTree::iter`: walk the leaf chain from `start`, skipping deleted
blocks (fuel covers any leaf chain of a well-formed tree). -/
def SequenceTree.iterFrom (t : SequenceTree) : Nat → Nat → Except String (List String)
  | 0, _ => Except.error "iteration fuel exhausted"
  | fuel + 1, nodeIdx => do
      let leaf ← (← t.getNode nodeIdx).asLeaf
      let items ← leaf.items.foldlM (fun acc bi => do
        let block ← t.getBlock bi
        return if block.deleted then acc else acc ++ [block.items]) []
      match leaf.next_block with
      | some nxt => do
          let rest ← t.iterFrom fuel nxt
          return items ++ rest
      | none => return items

/-- `SequenceTree::iter` (the visible item runs, in order). -/
def SequenceTree.iter (t : SequenceTree) : Except String (List String) :=
  t.iterFrom (t.nodes.length + 1) t.start

/-- `TextCRDT::to_string` on the underlying tree: concatenate the live
runs. -/
def SequenceTree.asString (t : SequenceTree) : Except String String := do
  let runs ← t.iter
  return runs.foldl (fun acc s => acc ++ s) ""

/-! ## Client registry (`src/client_registry.rs`) -/

/-- `GlobalClient` from `types.rs`. -/
structure GlobalClient where
  created_at : Nat
  global_id : String
deriving DecidableEq, Repr, Inhabited

/-- Three-way comparison on strings (`str::cmp`), spelled with the
decidable lexicographic order. -/
def cmpString (a b : String) : Ordering :=
  if a = b then .eq else if a < b then .lt else .gt

/-- The comparator of `ClientRegistry::merge_clients`: by `created_at`,
ties broken by `global_id`. -/
def cmpGlobalClients (a b : GlobalClient) : Ordering :=
  if a.created_at = b.created_at then cmpString a.global_id b.global_id
  else cmpNat a.created_at b.created_at

/-- `ClientRegistry` from `client_registry.rs`.  The two caches are derived
data (rebuilt from `clients` by `rebuild_caches`), modelled by
`globalToLocal` below. -/
structure ClientRegistry where
  clients : List GlobalClient
  current_global : String
  current_local : Nat
deriving DecidableEq, Repr, Inhabited

/-- The `global_to_local_cache` as rebuilt by `rebuild_caches`: positions
are inserted in index order, so the last occurrence of a global id wins. -/
def globalToLocal (clients : List GlobalClient) (g : String) : Option Nat :=
  clients.enum.foldl (fun acc e => if e.2.global_id = g then some e.1 else acc) none

/-- `ClientRegistry::new`. -/
def ClientRegistry.new (global_client_id : String) (timestamp : Nat) : ClientRegistry :=
  ⟨[⟨timestamp, global_client_id⟩], global_client_id, 0⟩

/-- `ClientRegistry::has_unknown_clients`. -/
def ClientRegistry.has_unknown_clients (reg : ClientRegistry) (clients : List GlobalClient) :
    Bool :=
  clients.any (fun c => (globalToLocal reg.clients c.global_id).isNone)

/-- The dedup loop of `merge_clients`: keep the first occurrence of each
global id (`visited_clients` accumulates the seen ids). -/
def dedupClients : List GlobalClient → List String → List GlobalClient
  | [], _ => []
  | c :: t, visited =>
      if c.global_id ∈ visited then dedupClients t visited
      else c :: dedupClients t (c.global_id :: visited)

/-- `ClientRegistry::merge_clients`: sort the concatenation by
`(created_at, global_id)` and drop later duplicates keyed on `global_id`. -/
def ClientRegistry.merge_clients (clients_a clients_b : List GlobalClient) :
    List GlobalClient :=
  dedupClients (sortBy cmpGlobalClients (clients_a ++ clients_b)) []

/-- `ClientRegistry::requires_remapping`. -/
def ClientRegistry.requires_remapping (reg : ClientRegistry)
    (new_clients : List GlobalClient) : Bool :=
  reg.clients.enum.any (fun e =>
    match new_clients.get? e.1 with
    | some c => !(c.global_id == e.2.global_id)
    | none => true)

/-- `ClientRegistry::build_remappings`: every client whose local id moved is
mapped from its old to its new position.  The `none` branch stands for the
source's panicking map index; it cannot fire in `register_clients` because
`merge_clients` keeps every client of `clients`. -/
def ClientRegistry.build_remappings (clients new_clients : List GlobalClient) :
    List (Nat × Nat) :=
  clients.enum.foldl (fun remappings e =>
    match globalToLocal new_clients e.2.global_id with
    | some newLocal =>
        if e.1 = newLocal then remappings else alistInsert e.1 newLocal remappings
    | none => remappings) []

/-- `ClientRegistry::register_clients`: no-op when every incoming global id
is already known; otherwise install the merged list, compute remappings if
any local id moved, and refresh the replica's own local id (the `getD 0`
stands for the source's panicking cache index; the current global id is
always in the merged list). -/
def ClientRegistry.register_clients (reg : ClientRegistry) (clients : List GlobalClient) :
    ClientRegistry × Option (List (Nat × Nat)) :=
  if !(reg.has_unknown_clients clients) then (reg, none)
  else
    let new_clients := ClientRegistry.merge_clients reg.clients clients
    let remappings :=
      if reg.requires_remapping new_clients then
        some (ClientRegistry.build_remappings reg.clients new_clients)
      else none
    let current_local := (globalToLocal new_clients reg.current_global).getD 0
    ({ clients := new_clients, current_global := reg.current_global,
       current_local := current_local }, remappings)

/-- `ClientRegistry::get_current_id`. -/
def ClientRegistry.get_current_id (reg : ClientRegistry) : Nat :=
  reg.current_local

/-! ## Text CRDT (`src/crdt/text.rs`) and view (`src/view/view.rs`) -/

/-- `TextCRDT` from `text.rs` (tree sizes 32/32). -/
structure TextCRDT where
  client : Nat
  next_available_sequence : Nat
  tree : SequenceTree
deriving DecidableEq, Repr, Inhabited

/-- `TextCRDT::new`. -/
def TextCRDT.new (client : Nat) : TextCRDT :=
  ⟨client, 0, SequenceTree.new⟩

/-- `TextCRDT::insert`. -/
def TextCRDT.insert (tc : TextCRDT) (action : InsertTextAction) : Except String TextCRDT := do
  let tree ← tc.tree.insert (SequenceBlock.new action.id action.value action.left)
  return { tc with tree := tree }

/-- `SequenceTree::get_or_split_block_starting_at`: resolve `position` to
the id of a block starting exactly there, splitting the containing block
when the position falls inside it. -/
def SequenceTree.scanLeftStartingAt (t : SequenceTree) (client_id : Nat)
    (positionSeq : Nat) : Nat → Except String (SequenceTree × SequenceBlockId)
  | 0 => Except.error "unable to find the starting block"
  | k + 1 => do
      let id : SequenceBlockId := ⟨client_id, k⟩
      match alistLookup id t.sequence_id_to_node with
      | some node_index => do
          let (_, block) ← t.find_block node_index id
          let offset := positionSeq - block.id.sequence
          let t ← t.split_block node_index id offset
          return (t, ⟨client_id, positionSeq⟩)
      | none => t.scanLeftStartingAt client_id positionSeq k

/-- `SequenceTree::get_or_split_block_starting_at`. -/
def SequenceTree.get_or_split_block_starting_at (t : SequenceTree)
    (position : SequenceBlockId) : Except String (SequenceTree × SequenceBlockId) :=
  match alistLookup position t.sequence_id_to_node with
  | some _ => Except.ok (t, position)
  | none => t.scanLeftStartingAt position.client_id position.sequence position.sequence

/-- The inner item loop of `SequenceTree::delete`: mark blocks deleted from
`start_block_id` through `end_block_id`, accumulating per-leaf size
reductions; returns the updated tree, reductions, the `inside` flag and
whether the outer loop broke. -/
def SequenceTree.deleteMarkItems (t : SequenceTree) (node_index : Nat)
    (start_block_id end_block_id : SequenceBlockId) :
    List Nat → Bool → List (Nat × Nat) →
    Except String (SequenceTree × List (Nat × Nat) × Bool × Bool)
  | [], inside, reductions => Except.ok (t, reductions, inside, false)
  | bi :: rest, inside, reductions => do
      let block ← t.getBlock bi
      let inside := if block.id = start_block_id then true else inside
      let (t, reductions) :=
        if inside then
          let t := t.setBlock bi { block with deleted := true }
          let reductions :=
            match alistLookup node_index reductions with
            | some r => alistInsert node_index (r + block.items.length) reductions
            | none => alistInsert node_index block.items.length reductions
          (t, reductions)
        else (t, reductions)
      if block.id = end_block_id then return (t, reductions, false, true)
      t.deleteMarkItems node_index start_block_id end_block_id rest inside reductions

/-- The leaf-chain loop of `SequenceTree::delete`. -/
def SequenceTree.deleteWalk (t : SequenceTree) (start_block_id end_block_id : SequenceBlockId) :
    Nat → Nat → Bool → List (Nat × Nat) → Except String (SequenceTree × List (Nat × Nat))
  | 0, _, _, _ => Except.error "delete walk fuel exhausted"
  | fuel + 1, node_index, inside, reductions => do
      let leaf ← (← t.getNode node_index).asLeaf
      let (t, reductions, inside, finished) ←
        t.deleteMarkItems node_index start_block_id end_block_id leaf.items inside reductions
      if finished then return (t, reductions)
      match leaf.next_block with
      | some nxt => t.deleteWalk start_block_id end_block_id fuel nxt inside reductions
      | none => Except.error "next block should exist"

/-- `SequenceTree::delete` over the block-id-inclusive range. -/
def SequenceTree.delete (t : SequenceTree) (fromId toId : SequenceBlockId) :
    Except String SequenceTree := do
  let (t, start_block_id) ← t.get_or_split_block_starting_at fromId
  let (t, end_block_id) ← t.get_or_split_block_ending_at toId
  let current_node_index ←
    match alistLookup start_block_id t.sequence_id_to_node with
    | some n => Except.ok n
    | none => Except.error "start block not in cache"
  let (t, reductions) ← t.deleteWalk start_block_id end_block_id
    (t.nodes.length + 1) current_node_index false []
  reductions.foldlM (fun t e => t.subtract_size_metrics_recursively e.1 e.2) t

/-- `TextCRDT::delete`. -/
def TextCRDT.delete (tc : TextCRDT) (action : DeleteTextAction) : Except String TextCRDT := do
  let tree ← tc.tree.delete action.left action.right
  return { tc with tree := tree }

/-- `TextCRDT::to_string`. -/
def TextCRDT.asString (tc : TextCRDT) : Except String String :=
  tc.tree.asString

/-- `ObjectValue` from `types.rs`. -/
inductive ObjectValue where
  | map (m : MapCRDT)
  | text (t : TextCRDT)
deriving DecidableEq, Repr, Inhabited

/-- `ViewError` from `view.rs` (the detail strings are abbreviated; only
the variant matters to the claims). -/
inductive ViewError where
  | inconsistentHierarchy (detail : String)
  | incompatibleTypes (detail : String)
  | badOperation (detail : String)
deriving DecidableEq, Repr, Inhabited

/-- The outcome type of view execution: a surfaced `ViewError`, or a panic
bubbling out of the CRDT structures. -/
inductive ViewExecError where
  | viewError (e : ViewError)
  | panic (detail : String)
deriving DecidableEq, Repr, Inhabited

/-- `View` from `view.rs`. -/
structure View where
  objects : List (ObjRef × ObjectValue)
deriving DecidableEq, Repr, Inhabited

/-- `View::new`: the root map always exists. -/
def View.new (client_id : Nat) : View :=
  ⟨[(ObjRef.root, ObjectValue.map (MapCRDT.new client_id))]⟩

/-- `View::get_map_mut`: the named object as a map, `IncompatibleTypes`
when it is a text, `InconsistentHierarchy` when absent. -/
def View.get_map_mut (v : View) (object : ObjRef) : Except ViewError MapCRDT :=
  match alistLookup object v.objects with
  | some (.map m) => Except.ok m
  | some _ => Except.error (.incompatibleTypes "expected map")
  | none => Except.error (.inconsistentHierarchy "object not found")

/-- Lift a `ViewError` computation into the execution outcome. -/
def liftView {α : Type} : Except ViewError α → Except ViewExecError α :=
  Except.mapError ViewExecError.viewError

/-- Lift a CRDT panic into the execution outcome. -/
def liftPanic {α : Type} : Except String α → Except ViewExecError α :=
  Except.mapError ViewExecError.panic

/-- `View::execute_operation`.  Note the `InsertText`/`DeleteText` arms: a
named object that is missing or is not a text falls into the source's
`_ => {}` arm (marked `TODO: handle better!`) and the call returns `Ok(())`
with the view unchanged. -/
def View.execute_operation (v : View) (operation : Operation) (currentId : Nat) :
    Except ViewExecError View := do
  match operation.action with
  | .createMap action => do
      let obj_ref := ObjRef.object operation.id
      let v : View := ⟨alistInsert obj_ref (ObjectValue.map (MapCRDT.new currentId)) v.objects⟩
      let m ← liftView (v.get_map_mut action.object)
      let params : SetParams :=
        { selector := action.selector, id := action.id, parents := action.parents,
          timestamp := operation.timestamp, value := Value.object obj_ref }
      let m ← liftPanic (m.set params)
      return ⟨alistInsert action.object (ObjectValue.map m) v.objects⟩
  | .setMapValue action => do
      let m ← liftView (v.get_map_mut action.object)
      let params : SetParams :=
        { selector := action.selector, id := action.id, parents := action.parents,
          timestamp := operation.timestamp, value := action.value }
      let m ← liftPanic (m.set params)
      return ⟨alistInsert action.object (ObjectValue.map m) v.objects⟩
  | .deleteMapValue action => do
      let m ← liftView (v.get_map_mut action.object)
      let m ← liftPanic (m.delete { selector := action.selector, parents := action.parents })
      return ⟨alistInsert action.object (ObjectValue.map m) v.objects⟩
  | .createText action => do
      let obj_ref := ObjRef.object operation.id
      let v : View := ⟨alistInsert obj_ref (ObjectValue.text (TextCRDT.new currentId)) v.objects⟩
      let m ← liftView (v.get_map_mut action.object)
      let params : SetParams :=
        { selector := action.selector, id := action.id, parents := action.parents,
          timestamp := operation.timestamp, value := Value.object obj_ref }
      let m ← liftPanic (m.set params)
      return ⟨alistInsert action.object (ObjectValue.map m) v.objects⟩
  | .insertText action => do
      match alistLookup action.object v.objects with
      | some (.text tc) => do
          let tc ← liftPanic (tc.insert action)
          return ⟨alistInsert action.object (ObjectValue.text tc) v.objects⟩
      | _ => return v
  | .deleteText action => do
      match alistLookup action.object v.objects with
      | some (.text tc) => do
          let tc ← liftPanic (tc.delete action)
          return ⟨alistInsert action.object (ObjectValue.text tc) v.objects⟩
      | _ => return v

/-- `View::repopulate`: clear, recreate the root, and replay the log in
insertion order (`log.iter()`). -/
def View.repopulate (log : OperationLog) (client_registry : ClientRegistry) :
    Except ViewExecError View :=
  log.operations.foldlM
    (fun v op => v.execute_operation op client_registry.get_current_id)
    (View.new client_registry.get_current_id)

/-! ## Claim C1: merge convergence -/

/-- The C1 scenario pipeline: apply the given operations to a fresh log in
order (this is the insertion order the replica's log holds after the
described merges) and read the text object created by operation `(0,1)`
from the repopulated view. -/
def c1ReadText (ops : List Operation) (reg : ClientRegistry) (localClient : Nat) :
    Except ViewExecError String := do
  let log ← liftPanic (OperationLog.load localClient ops)
  let v ← View.repopulate log reg
  match alistLookup (ObjRef.object ⟨0, 1⟩) v.objects with
  | some (.text tc) => liftPanic tc.asString
  | _ => Except.error (.panic "text object missing")

/-! ## Depth-first walks over the operation DAG (for claim C2)

`specDfsAsc`/`OperationLog.specSortedDfs` are SPEC-MODELLED: they follow the
specification's words — a depth-first walk from the sorted roots, expanding
children in sorted (ascending) order.  `dfsDesc` is the recursive
formulation of what the code's LIFO loop actually computes: the greatest
sibling is visited first.  The per-node fuel `N - i` is enough whenever
every child index exceeds its parent's (which `insert_operation`
guarantees, parents being inserted before their children). -/

/-- Spec-modelled ascending depth-first walk: visit a node, then its
children in sorted order, smallest first. -/
def specDfsAsc (operations : List Operation) (children : List (Nat × List Nat)) :
    Nat → Nat → List Nat
  | 0, _ => []
  | fuel + 1, i =>
      i :: (sortBy (compare_operations operations)
        ((alistLookup i children).getD [])).flatMap (specDfsAsc operations children fuel)

/-- Spec-modelled `iter_sorted`: ascending DFS from the ascending-sorted
roots. -/
def OperationLog.specSortedDfs (log : OperationLog) : Except String (List Operation) :=
  match buildChildren log.operations log.id_to_index with
  | .error e => .error e
  | .ok children =>
      .ok (((sortBy (compare_operations log.operations) log.roots).flatMap
        (specDfsAsc log.operations children log.operations.length)).map
          (fun i => log.operations.getD i default))

/-- The descending depth-first walk the code's stack loop computes: visit a
node, then its children in sorted order, GREATEST first. -/
def dfsDesc (operations : List Operation) (children : List (Nat × List Nat)) :
    Nat → Nat → List Nat
  | 0, _ => []
  | fuel + 1, i =>
      i :: ((sortBy (compare_operations operations)
        ((alistLookup i children).getD [])).reverse).flatMap
          (dfsDesc operations children fuel)

/-- The four operations of the C1 scenario, shared by both replicas after
the mutual merge (client 0 is replica "a", client 1 is replica "b"):
"a" creates a text at Root.t, types "A", and concurrently with "b" types
"B" after the "A"; "b", having merged the first two operations, types "X"
after the "A". -/
def c1Ops : (Operation × Operation × Operation × Operation) :=
  (⟨⟨0, 1⟩, none,
      .createText { object := .root, selector := .key "t", id := ⟨0, 0⟩, parents := [] }, 1⟩,
   ⟨⟨0, 2⟩, some ⟨0, 1⟩,
      .insertText { object := .object ⟨0, 1⟩, id := ⟨0, 0⟩, value := "A", left := none }, 2⟩,
   ⟨⟨0, 3⟩, some ⟨0, 2⟩,
      .insertText { object := .object ⟨0, 1⟩, id := ⟨0, 1⟩, value := "B", left := some ⟨0, 0⟩ }, 3⟩,
   ⟨⟨1, 1⟩, some ⟨0, 2⟩,
      .insertText { object := .object ⟨0, 1⟩, id := ⟨1, 0⟩, value := "X", left := some ⟨0, 0⟩ }, 4⟩)

/-- **C1.** The claim states that after `A.merge(B)` and `B.merge(A)` the
two materialized views are equal.  The code violates it: both replicas end
up with the same four operations, but replica "a" holds them in insertion
order `[create, A, B, X]` while replica "b" (which received `B` after its
own concurrent `X`) holds `[create, A, X, B]`; `View::repopulate` replays
insertion order, and the run-length merge path of `SequenceTree::insert`
makes the replay order observable: "a" reads "AXB" while "b" reads "ABX"
(when `B` arrives last it is appended onto the "A" block by `merge_block`,
jumping ahead of the concurrent "X" instead of being interleaved by the
deterministic sibling sort).  So the two views differ. -/
theorem c1_mutual_merge_views_diverge :
    c1ReadText [c1Ops.1, c1Ops.2.1, c1Ops.2.2.1, c1Ops.2.2.2]
        ⟨[⟨10, "a"⟩, ⟨20, "b"⟩], "a", 0⟩ 0 = .ok "AXB" ∧
    c1ReadText [c1Ops.1, c1Ops.2.1, c1Ops.2.2.2, c1Ops.2.2.1]
        ⟨[⟨10, "a"⟩, ⟨20, "b"⟩], "b", 1⟩ 1 = .ok "ABX" ∧
    ("AXB" : String) ≠ "ABX" := by
  refine ⟨by rfl, by rfl, by decide⟩

/-! ## Claim C4: serialization round-trip -/

/-- **C4.** The claim states `Doc::load(D.serialize()).serialize() ==
D.serialize()`.  The code violates it: take the reachable document `D` of
replica 2 holding a root operation `(2,1)` and two operations `(0,1)` and
`(1,1)` from two peers, both parented on `(2,1)` (each peer merged `(2,1)`
and then wrote concurrently).  `serialize_operations` sorts the operations
by `(client_id, sequence)`, so the buffer lists `(0,1), (1,1), (2,1)`.
Reloading applies them in that order: `(0,1)` and `(1,1)` are both
orphaned on the missing parent `(2,1)`, the orphan map keyed by parent id
keeps only the second, and after `(2,1)` arrives only `(1,1)` is
resurrected — operation `(0,1)` is lost.  The reloaded document serializes
2 operations where `D.serialize()` wrote 3, so the buffers differ from
their leading varint on. -/
theorem c4_serialize_roundtrip_loses_operation :
    ((OperationLog.load 2
        [⟨⟨2, 1⟩, none, .createMap { object := .root, selector := .key "k", id := ⟨2, 0⟩, parents := [] }, 1⟩,
         ⟨⟨0, 1⟩, some ⟨2, 1⟩, .setMapValue { object := .root, selector := .key "k", id := ⟨0, 0⟩, parents := [], value := .scalar (.bool true) }, 2⟩,
         ⟨⟨1, 1⟩, some ⟨2, 1⟩, .setMapValue { object := .root, selector := .key "k", id := ⟨1, 0⟩, parents := [], value := .scalar (.bool false) }, 3⟩]).bind
      (fun d => (OperationLog.load 2 d.serializedOperationOrder).map
        (fun l2 => (d.serializedOperationOrder.map (·.id),
                    l2.serializedOperationOrder.map (·.id)))))
      = .ok ([⟨0, 1⟩, ⟨1, 1⟩, ⟨2, 1⟩], [⟨1, 1⟩, ⟨2, 1⟩]) ∧
    (⟨0, 1⟩ : OperationId) ∈ [(⟨0, 1⟩ : OperationId), ⟨1, 1⟩, ⟨2, 1⟩] ∧
    (⟨0, 1⟩ : OperationId) ∉ [(⟨1, 1⟩ : OperationId), ⟨2, 1⟩] ∧
    ([(⟨0, 1⟩ : OperationId), ⟨1, 1⟩, ⟨2, 1⟩].length : Nat) ≠ [(⟨1, 1⟩ : OperationId), ⟨2, 1⟩].length := by
  refine ⟨by rfl, by decide, by decide, by decide⟩

/-! ## Claim C7: run-length block merging -/

/-- **C7.** The claim states that when the merge condition holds, inserting
via the merge path yields the same observed sequence as the non-merging
insert path.  The code violates it: with block "A" = `(1,0)` and a
concurrent block "X" = `(0,0)` whose origin is `(1,0)` already integrated
(sequence "AX"), the incoming block "B" = `(1,1)` with origin `(1,0)`
satisfies `is_block_mergeable` (same client as the origin, consecutive
sequence, live left block), and `SequenceTree::insert` takes the merge
path, appending "B" onto the "A" block: the observed sequence becomes
"ABX".  The non-merging `insert_block` path sorts the origin's children
`[X, B]` by client id and places "B" after the subtree of "X": "AXB".  The
merge is therefore not a pure size optimization on this input. -/
theorem c7_merge_path_changes_observed_sequence :
    ((do
        let t ← SequenceTree.new.insert (SequenceBlock.new ⟨1, 0⟩ "A" none)
        let t ← t.insert (SequenceBlock.new ⟨0, 0⟩ "X" (some ⟨1, 0⟩))
        let mergeable ← t.is_block_mergeable ⟨1, 0⟩ ⟨1, 0⟩ ⟨1, 1⟩
        let merged ← t.insert (SequenceBlock.new ⟨1, 1⟩ "B" (some ⟨1, 0⟩))
        let unmerged ← t.insert_block (SequenceBlock.new ⟨1, 1⟩ "B" (some ⟨1, 0⟩)) (some ⟨1, 0⟩)
        let mergedSeq ← merged.asString
        let unmergedSeq ← unmerged.asString
        return (mergeable, mergedSeq, unmergedSeq) : Except String (Bool × String × String))
      = .ok (true, "ABX", "AXB")) ∧
    ("ABX" : String) ≠ "AXB" := by
  refine ⟨by rfl, by decide⟩

/-! ## Claim C8: silent error swallowing in the view -/

/-- **C8.** The claim states that applying an `InsertText` or `DeleteText`
operation whose named object does not exist or is not a text surfaces a
`ViewError`.  The code violates it: `View::execute_operation` matches those
cases with a silent `_ => {}` arm (marked `TODO: handle better!`), so the
call returns `Ok(())` and the view is unchanged — on a fresh view (root
map only), an `InsertText` on the nonexistent object `(0,9)`, a
`DeleteText` on the same missing object, and an `InsertText` aimed at the
root map all complete without any error and without effect. -/
theorem c8_insert_text_on_missing_object_is_silently_ignored :
    (View.new 0).execute_operation
        ⟨⟨0, 1⟩, none,
          .insertText { object := .object ⟨0, 9⟩, id := ⟨0, 0⟩, value := "hi", left := none }, 7⟩ 0
      = .ok (View.new 0) ∧
    (View.new 0).execute_operation
        ⟨⟨0, 2⟩, none,
          .deleteText { object := .object ⟨0, 9⟩, left := ⟨0, 0⟩, right := ⟨0, 1⟩ }, 8⟩ 0
      = .ok (View.new 0) ∧
    (View.new 0).execute_operation
        ⟨⟨0, 3⟩, none,
          .insertText { object := .root, id := ⟨0, 0⟩, value := "hi", left := none }, 9⟩ 0
      = .ok (View.new 0) := by
  refine ⟨by rfl, by rfl, by rfl⟩

/-! ## Helper lemmas on stable sorting -/

theorem orderedInsert_getLast?_of_rel {α : Type} {r : α → α → Prop} [DecidableRel r] {b : α}
    (a : α) : ∀ l : List α, l.getLast? = some b → r a b →
    (List.orderedInsert r a l).getLast? = some b := by
  intro l
  induction l with
  | nil => intro h _; simp at h
  | cons y S ih =>
      intro h hab
      by_cases hay : r a y
      · simp only [List.orderedInsert, if_pos hay]
        rw [List.getLast?_cons_cons]
        exact h
      · simp only [List.orderedInsert, if_neg hay]
        cases S with
        | nil =>
            simp at h
            subst h
            exact absurd hab hay
        | cons z S' =>
            rw [List.getLast?_cons_cons] at h
            have := ih h hab
            cases hoi : List.orderedInsert r a (z :: S') with
            | nil => simp [List.orderedInsert] at hoi; split at hoi <;> simp_all
            | cons w W =>
                rw [hoi] at this
                rw [List.getLast?_cons_cons]
                exact this

theorem orderedInsert_of_not_rel {α : Type} {r : α → α → Prop} [DecidableRel r] (a : α) :
    ∀ l : List α, (∀ y ∈ l, ¬r a y) → List.orderedInsert r a l = l ++ [a] := by
  intro l
  induction l with
  | nil => intro _; rfl
  | cons y S ih =>
      intro h
      have hay : ¬r a y := h y (List.mem_cons_self y S)
      simp only [List.orderedInsert, if_neg hay, List.cons_append]
      rw [ih (fun z hz => h z (List.mem_cons_of_mem y hz))]

theorem getLast?_insertionSort_of_max {α : Type} {r : α → α → Prop} [DecidableRel r] {b : α} :
    ∀ l : List α, b ∈ l → (∀ x ∈ l, r x b) → (∀ x ∈ l, x = b ∨ ¬r b x) →
    (List.insertionSort r l).getLast? = some b := by
  intro l
  induction l with
  | nil => intro h; simp at h
  | cons c t ih =>
      intro hmem hrel hmax
      show (List.orderedInsert r c (List.insertionSort r t)).getLast? = some b
      by_cases hbt : b ∈ t
      · have hlast := ih hbt (fun x hx => hrel x (List.mem_cons_of_mem c hx))
          (fun x hx => hmax x (List.mem_cons_of_mem c hx))
        exact orderedInsert_getLast?_of_rel c _ hlast (hrel c (List.mem_cons_self c t))
      · have hcb : c = b := by
          rcases List.mem_cons.mp hmem with h | h
          · exact h.symm
          · exact absurd h hbt
        subst hcb
        have hnone : ∀ y ∈ List.insertionSort r t, ¬r c y := by
          intro y hy
          have hyt : y ∈ t := (List.perm_insertionSort r t).mem_iff.mp hy
          rcases hmax y (List.mem_cons_of_mem c hyt) with h | h
          · exact absurd (h ▸ hyt) hbt
          · exact h
        rw [orderedInsert_of_not_rel c _ hnone, List.getLast?_concat]

/-- The first satisfying element of a list all of whose satisfying members
are one fixed element. -/
theorem find?_eq_of_unique_sat {α : Type} {p : α → Bool} {b : α} :
    ∀ l : List α, b ∈ l → p b = true → (∀ x ∈ l, p x = true → x = b) →
    l.find? p = some b := by
  intro l
  induction l with
  | nil => intro h; simp at h
  | cons c t ih =>
      intro hmem hpb huniq
      by_cases hpc : p c = true
      · have : c = b := huniq c (List.mem_cons_self c t) hpc
        subst this
        exact List.find?_cons_of_pos t hpc
      · rw [List.find?_cons_of_neg t hpc]
        have hbt : b ∈ t := by
          rcases List.mem_cons.mp hmem with h | h
          · exact absurd (h ▸ hpb) hpc
          · exact h
        exact ih hbt hpb (fun x hx => huniq x (List.mem_cons_of_mem c hx))

theorem cmpNat_total (x y : Nat) : cmpNat x y ≠ Ordering.gt ∨ cmpNat y x ≠ Ordering.gt := by
  unfold cmpNat
  split_ifs <;> first | (left; decide) | (right; decide) | omega

/-- The map-block comparator never answers `gt` in both directions.  (It is
NOT transitive in general: same-client pairs compare by sequence ignoring
timestamps while cross-client pairs compare by timestamp, which can form
cycles.) -/
theorem cmpMB_total (a b : MapBlock) :
    cmpMapBlocks a b ≠ Ordering.gt ∨ cmpMapBlocks b a ≠ Ordering.gt := by
  unfold cmpMapBlocks
  by_cases h1 : a.id.client_id = b.id.client_id
  · rw [if_pos h1, if_pos h1.symm]
    exact cmpNat_total _ _
  · have h1s : ¬b.id.client_id = a.id.client_id := fun hh => h1 hh.symm
    rw [if_neg h1, if_neg h1s]
    by_cases h2 : a.timestamp = b.timestamp
    · rw [if_pos h2, if_pos h2.symm]
      exact cmpNat_total _ _
    · have h2s : ¬b.timestamp = a.timestamp := fun hh => h2 hh.symm
      rw [if_neg h2, if_neg h2s]
      exact cmpNat_total _ _

/-- `orderedInsert` preserves pairwise sortedness when the relation is
total and transitive on the elements involved (hypotheses restricted to
the list, since the comparator need not be transitive globally). -/
theorem pairwise_orderedInsert {α : Type} (r : α → α → Prop) [DecidableRel r] (a : α) :
    ∀ s : List α, s.Pairwise r →
    (∀ y ∈ s, r a y ∨ r y a) →
    (∀ y ∈ s, ∀ z ∈ s, r a y → r y z → r a z) →
    (List.orderedInsert r a s).Pairwise r := by
  intro s
  induction s with
  | nil =>
      intro _ _ _
      exact List.pairwise_singleton r a
  | cons y t ih =>
      intro hs htot htr
      obtain ⟨hy_t, ht⟩ := List.pairwise_cons.mp hs
      by_cases hay : r a y
      · simp only [List.orderedInsert, if_pos hay]
        refine List.Pairwise.cons ?_ hs
        intro z hz
        rcases List.mem_cons.mp hz with hz | hz
        · exact hz ▸ hay
        · exact htr y (List.mem_cons_self _ _) z (List.mem_cons_of_mem _ hz) hay (hy_t z hz)
      · simp only [List.orderedInsert, if_neg hay]
        refine List.Pairwise.cons ?_
          (ih ht (fun z hz => htot z (List.mem_cons_of_mem _ hz))
            (fun z hz w hw => htr z (List.mem_cons_of_mem _ hz) w (List.mem_cons_of_mem _ hw)))
        intro z hz
        rcases (List.mem_orderedInsert r).mp hz with hz | hz
        · subst hz
          rcases htot y (List.mem_cons_self _ _) with h | h
          · exact absurd h hay
          · exact h
        · exact hy_t z hz

/-- `insertionSort` output is pairwise sorted when the relation is total
and transitive on the input's elements. -/
theorem pairwise_insertionSort_of_trans {α : Type} (r : α → α → Prop) [DecidableRel r] :
    ∀ l : List α,
    (∀ x ∈ l, ∀ y ∈ l, r x y ∨ r y x) →
    (∀ x ∈ l, ∀ y ∈ l, ∀ z ∈ l, r x y → r y z → r x z) →
    (List.insertionSort r l).Pairwise r := by
  intro l
  induction l with
  | nil =>
      intro _ _
      exact List.Pairwise.nil
  | cons c t ih =>
      intro htot htr
      show (List.orderedInsert r c (List.insertionSort r t)).Pairwise r
      have hmem : ∀ z ∈ List.insertionSort r t, z ∈ t :=
        fun z hz => (List.perm_insertionSort r t).mem_iff.mp hz
      refine pairwise_orderedInsert r c _
        (ih (fun x hx y hy => htot x (List.mem_cons_of_mem _ hx) y (List.mem_cons_of_mem _ hy))
          (fun x hx y hy z hz => htr x (List.mem_cons_of_mem _ hx) y (List.mem_cons_of_mem _ hy)
            z (List.mem_cons_of_mem _ hz)))
        ?_ ?_
      · intro y hy
        exact htot c (List.mem_cons_self _ _) y (List.mem_cons_of_mem _ (hmem y hy))
      · intro y hy z hz
        exact htr c (List.mem_cons_self _ _) y (List.mem_cons_of_mem _ (hmem y hy))
          z (List.mem_cons_of_mem _ (hmem z hz))

/-- The downward scan: in a list sorted descending by the comparator, if
`b` is live and every other element is either tombstoned or strictly below
`b`, the first non-deleted element found is `b` — deleted higher-priority
candidates are skipped. -/
theorem find?_first_live (b : MapBlock) :
    ∀ l : List MapBlock, l.Pairwise (fun x y => cmpMapBlocks y x ≠ Ordering.gt) →
    b ∈ l → b.deleted = false →
    (∀ x ∈ l, x = b ∨ x.deleted = true ∨ cmpMapBlocks b x = Ordering.gt) →
    l.find? (fun x => !x.deleted) = some b := by
  intro l
  induction l with
  | nil =>
      intro _ h
      exact absurd h (List.not_mem_nil b)
  | cons c t ih =>
      intro hpw hmem hlive hmax
      obtain ⟨hc_t, ht⟩ := List.pairwise_cons.mp hpw
      by_cases hcb : c = b
      · subst hcb
        exact List.find?_cons_of_pos t (by simp [hlive])
      · have hbt : b ∈ t := by
          rcases List.mem_cons.mp hmem with h | h
          · exact absurd h.symm hcb
          · exact h
        have hrbc : cmpMapBlocks b c ≠ Ordering.gt := hc_t b hbt
        have hcdel : c.deleted = true := by
          rcases hmax c (List.mem_cons_self _ _) with h | h | h
          · exact absurd h hcb
          · exact h
          · exact absurd h hrbc
        rw [List.find?_cons_of_neg t (by simp [hcdel])]
        exact ih ht hbt hlive (fun x hx => hmax x (List.mem_cons_of_mem _ hx))

/-! ## Claim C3: map register tie-breaking -/

/-- **C3 counterexample.** The claim orders the tie-break as: larger
timestamp first, then client id, then sequence.  The code checks client
equality first: two latest blocks of the same client are ordered by
sequence alone, ignoring timestamps.  Concretely, with latest blocks
`(client 0, seq 0, ts 10, "x")` and `(client 0, seq 1, ts 3, "y")`, both
live, the claim selects the ts-10 block "x", but `get_latest` returns the
ts-3 block "y". -/
theorem c3_counterexample :
    ((do
        let s ← BlockSet.new.insert ⟨⟨0, 0⟩, [], .scalar (.string "x"), 10, false⟩
        let s ← s.insert ⟨⟨0, 1⟩, [], .scalar (.string "y"), 3, false⟩
        return (s.get_latest_with_conflicts, s.get_latest) :
      Except String (Option (List MapBlock) × Option MapBlock))
      = .ok (some [⟨⟨0, 0⟩, [], .scalar (.string "x"), 10, false⟩,
                   ⟨⟨0, 1⟩, [], .scalar (.string "y"), 3, false⟩],
             some ⟨⟨0, 1⟩, [], .scalar (.string "y"), 3, false⟩)) ∧
    (10 : Nat) > 3 ∧
    (Value.scalar (.string "y")) ≠ (Value.scalar (.string "x")) := by
  refine ⟨by rfl, by decide, by decide⟩

/-- **C3 (amended).** The observed value of a map field is selected among
the latest (childless) blocks by the code's comparator: blocks of the same
client are ordered by sequence (larger wins), and otherwise a larger
timestamp wins with equal timestamps broken by larger client id.  Part 1:
a live latest block that strictly beats every other latest block under
that comparator is the value `get` returns (no transitivity needed).
Part 2, the downward scan: when the comparator is transitive on the
candidate set (it is not in general — same-client pairs compare by
sequence ignoring timestamps, cross-client pairs by timestamp, which can
form cycles on which the "winning candidate" is not well-defined), the
candidates are examined from the winning candidate downward and the first
non-deleted candidate is returned: a live block that every other candidate
is either strictly below or TOMBSTONED is the value `get` returns — deleted
higher-priority candidates are skipped.  Part 3: if every latest block is
deleted, the field is absent. -/
theorem c3_get_latest_selection :
    (∀ (s : BlockSet) (latest : List MapBlock) (b : MapBlock) (m : MapCRDT) (key : Selector),
        s.get_latest_with_conflicts = some latest →
        b ∈ latest → b.deleted = false →
        (∀ x ∈ latest, x = b ∨ cmpMapBlocks b x = .gt) →
        (∀ x ∈ latest, x = b ∨ cmpMapBlocks x b ≠ .gt) →
        s.get_latest = some b ∧
          (alistLookup key m.fields = some s → m.get key = some b.value)) ∧
    (∀ (s : BlockSet) (latest : List MapBlock) (b : MapBlock) (m : MapCRDT) (key : Selector),
        s.get_latest_with_conflicts = some latest →
        b ∈ latest → b.deleted = false →
        (∀ x ∈ latest, ∀ y ∈ latest, ∀ z ∈ latest,
          cmpMapBlocks x y ≠ .gt → cmpMapBlocks y z ≠ .gt → cmpMapBlocks x z ≠ .gt) →
        (∀ x ∈ latest, x = b ∨ x.deleted = true ∨ cmpMapBlocks b x = .gt) →
        s.get_latest = some b ∧
          (alistLookup key m.fields = some s → m.get key = some b.value)) ∧
    (∀ (s : BlockSet) (latest : List MapBlock),
        s.get_latest_with_conflicts = some latest →
        (∀ x ∈ latest, x.deleted = true) → s.get_latest = none) := by
  refine ⟨?_, ?_, ?_⟩
  · intro s latest b m key hl hmem hlive hgt hle
    have hrel : ∀ x ∈ latest, (fun a c => cmpMapBlocks a c ≠ Ordering.gt) x b := by
      intro x hx
      rcases hle x hx with h | h
      · subst h
        simp [cmpMapBlocks, cmpNat]
      · exact h
    have hmax : ∀ x ∈ latest, x = b ∨
        ¬(fun a c => cmpMapBlocks a c ≠ Ordering.gt) b x := by
      intro x hx
      rcases hgt x hx with h | h
      · exact Or.inl h
      · exact Or.inr (by simp [h])
    have hlast : (sortBy cmpMapBlocks latest).getLast? = some b :=
      getLast?_insertionSort_of_max latest hmem hrel hmax
    have hget : s.get_latest = some b := by
      unfold BlockSet.get_latest
      rw [hl]
      show (sortBy cmpMapBlocks latest).reverse.find? (fun blk => !blk.deleted) = some b
      cases hrev : (sortBy cmpMapBlocks latest).reverse with
      | nil =>
          rw [← List.head?_reverse, hrev] at hlast
          simp at hlast
      | cons h0 tl =>
          have : some h0 = some b := by
            rw [← List.head?_reverse, hrev] at hlast
            simpa using hlast
          cases this
          exact List.find?_cons_of_pos tl (by simp [hlive])
    refine ⟨hget, ?_⟩
    intro hfield
    unfold MapCRDT.get
    rw [hfield]
    simp [hget]
  · intro s latest b m key hl hmem hlive htr hmax
    have hperm := List.perm_insertionSort
      (fun x y => cmpMapBlocks x y ≠ Ordering.gt) latest
    have hsorted : (sortBy cmpMapBlocks latest).Pairwise
        (fun x y => cmpMapBlocks x y ≠ Ordering.gt) :=
      pairwise_insertionSort_of_trans _ latest
        (fun x _ y _ => cmpMB_total x y)
        (fun x hx y hy z hz => htr x hx y hy z hz)
    have hrev : ((sortBy cmpMapBlocks latest).reverse).Pairwise
        (fun x y => cmpMapBlocks y x ≠ Ordering.gt) :=
      List.pairwise_reverse.mpr hsorted
    have hmem2 : b ∈ (sortBy cmpMapBlocks latest).reverse :=
      List.mem_reverse.mpr (hperm.mem_iff.mpr hmem)
    have hmax2 : ∀ x ∈ (sortBy cmpMapBlocks latest).reverse,
        x = b ∨ x.deleted = true ∨ cmpMapBlocks b x = Ordering.gt :=
      fun x hx => hmax x (hperm.mem_iff.mp (List.mem_reverse.mp hx))
    have hget : s.get_latest = some b := by
      unfold BlockSet.get_latest
      rw [hl]
      exact find?_first_live b _ hrev hmem2 hlive hmax2
    refine ⟨hget, ?_⟩
    intro hfield
    unfold MapCRDT.get
    rw [hfield]
    simp [hget]
  · intro s latest hl hdel
    unfold BlockSet.get_latest
    rw [hl]
    show (sortBy cmpMapBlocks latest).reverse.find? (fun blk => !blk.deleted) = none
    apply List.find?_eq_none.mpr
    intro x hx
    have hxl : x ∈ latest :=
      (List.perm_insertionSort (fun a c => cmpMapBlocks a c ≠ Ordering.gt) latest).mem_iff.mp
        (List.mem_reverse.mp hx)
    simp [hdel x hxl]

/-- **C3 witness.** The amended selection theorem applied concretely.
Part 1: the live block `(client 1, seq 0, ts 5, "hi")` strictly beats
`(client 0, seq 0, ts 3, "lo")`.  Part 2, the downward scan: the
highest-priority candidate `(client 1, ts 9, "dead")` is tombstoned, so the
scan skips it and returns the live `(client 0, ts 5, "live")` over the
lower `(client 2, ts 1, "low")`.  Part 3: a fully tombstoned singleton
field is absent. -/
theorem c3_get_latest_selection_witness :
    (⟨[⟨⟨0, 0⟩, [], .scalar (.string "lo"), 3, false⟩,
        ⟨⟨1, 0⟩, [], .scalar (.string "hi"), 5, false⟩],
      [(⟨0, 0⟩, 0), (⟨1, 0⟩, 1)], [(0, []), (1, [])]⟩ : BlockSet).get_latest
      = some ⟨⟨1, 0⟩, [], .scalar (.string "hi"), 5, false⟩ ∧
    (⟨[⟨⟨1, 0⟩, [], .scalar (.string "dead"), 9, true⟩,
        ⟨⟨0, 0⟩, [], .scalar (.string "live"), 5, false⟩,
        ⟨⟨2, 0⟩, [], .scalar (.string "low"), 1, false⟩],
      [(⟨1, 0⟩, 0), (⟨0, 0⟩, 1), (⟨2, 0⟩, 2)],
      [(0, []), (1, []), (2, [])]⟩ : BlockSet).get_latest
      = some ⟨⟨0, 0⟩, [], .scalar (.string "live"), 5, false⟩ ∧
    (⟨[⟨⟨0, 0⟩, [], .scalar (.string "lo"), 3, true⟩],
      [(⟨0, 0⟩, 0)], [(0, [])]⟩ : BlockSet).get_latest = none := by
  refine ⟨?_, ?_, ?_⟩
  · exact (c3_get_latest_selection.1
      ⟨[⟨⟨0, 0⟩, [], .scalar (.string "lo"), 3, false⟩,
        ⟨⟨1, 0⟩, [], .scalar (.string "hi"), 5, false⟩],
       [(⟨0, 0⟩, 0), (⟨1, 0⟩, 1)], [(0, []), (1, [])]⟩
      [⟨⟨0, 0⟩, [], .scalar (.string "lo"), 3, false⟩,
       ⟨⟨1, 0⟩, [], .scalar (.string "hi"), 5, false⟩]
      ⟨⟨1, 0⟩, [], .scalar (.string "hi"), 5, false⟩
      (MapCRDT.new 0) (.key "f")
      (by rfl) (by decide) (by rfl) (by decide) (by decide)).1
  · exact (c3_get_latest_selection.2.1
      ⟨[⟨⟨1, 0⟩, [], .scalar (.string "dead"), 9, true⟩,
        ⟨⟨0, 0⟩, [], .scalar (.string "live"), 5, false⟩,
        ⟨⟨2, 0⟩, [], .scalar (.string "low"), 1, false⟩],
       [(⟨1, 0⟩, 0), (⟨0, 0⟩, 1), (⟨2, 0⟩, 2)],
       [(0, []), (1, []), (2, [])]⟩
      [⟨⟨1, 0⟩, [], .scalar (.string "dead"), 9, true⟩,
       ⟨⟨0, 0⟩, [], .scalar (.string "live"), 5, false⟩,
       ⟨⟨2, 0⟩, [], .scalar (.string "low"), 1, false⟩]
      ⟨⟨0, 0⟩, [], .scalar (.string "live"), 5, false⟩
      (MapCRDT.new 0) (.key "f")
      (by rfl) (by decide) (by rfl) (by decide) (by decide)).1
  · exact c3_get_latest_selection.2.2
      ⟨[⟨⟨0, 0⟩, [], .scalar (.string "lo"), 3, true⟩], [(⟨0, 0⟩, 0)], [(0, [])]⟩
      [⟨⟨0, 0⟩, [], .scalar (.string "lo"), 3, true⟩]
      (by rfl) (by decide)

/-! ## Helper lemmas on association lists and list modification -/

theorem alistLookup_alistInsert_ne {κ ν : Type} [DecidableEq κ] (k k' : κ) (v : ν)
    (l : List (κ × ν)) (h : k' ≠ k) :
    alistLookup k' (alistInsert k v l) = alistLookup k' l := by
  have hne : ¬k = k' := fun hh => h hh.symm
  induction l with
  | nil =>
      show (if k = k' then some v else alistLookup k' ([] : List (κ × ν)))
        = alistLookup k' ([] : List (κ × ν))
      rw [if_neg hne]
  | cons e t ih =>
      show alistLookup k' (if e.1 = k then (k, v) :: t else (e.1, e.2) :: alistInsert k v t)
        = alistLookup k' ((e.1, e.2) :: t)
      by_cases hk : e.1 = k
      · rw [if_pos hk]
        show (if k = k' then some v else alistLookup k' t)
          = if e.1 = k' then some e.2 else alistLookup k' t
        rw [if_neg hne, if_neg (hk ▸ hne)]
      · rw [if_neg hk]
        show (if e.1 = k' then some e.2 else alistLookup k' (alistInsert k v t))
          = if e.1 = k' then some e.2 else alistLookup k' t
        by_cases hk' : e.1 = k'
        · rw [if_pos hk', if_pos hk']
        · rw [if_neg hk', if_neg hk', ih]

theorem listModify_length {α : Type} (f : α → α) :
    ∀ (l : List α) (i : Nat), (listModify l i f).length = l.length := by
  intro l
  induction l with
  | nil => intro i; rfl
  | cons a t ih =>
      intro i
      cases i with
      | zero => rfl
      | succ n => simp [listModify, ih]

theorem listModify_append_lt {α : Type} (f : α → α) (x : α) :
    ∀ (l : List α) (i : Nat), i < l.length →
    listModify (l ++ [x]) i f = listModify l i f ++ [x] := by
  intro l
  induction l with
  | nil => intro i h; simp at h
  | cons a t ih =>
      intro i h
      cases i with
      | zero => rfl
      | succ n =>
          simp only [List.cons_append, listModify, List.cons.injEq, true_and]
          exact ih n (by simpa using h)

/-! ## Claim C6: concurrent set + delete on a map field -/

/-- The blocks-vector transformation `BlockSet::delete` performs, with the
id-to-index map fixed (the fold never changes it). -/
def applyDeleteMarks (idx : List (MapBlockId × Nat)) (ds : List MapBlockId)
    (bl : List MapBlock) : List MapBlock :=
  ds.foldl (fun bl d =>
    listModify bl ((alistLookup d idx).getD 0) (fun b => { b with deleted := true })) bl

theorem applyDeleteMarks_length (idx : List (MapBlockId × Nat)) :
    ∀ (ds : List MapBlockId) (bl : List MapBlock),
    (applyDeleteMarks idx ds bl).length = bl.length := by
  intro ds
  induction ds with
  | nil => intro bl; rfl
  | cons d t ih =>
      intro bl
      show (applyDeleteMarks idx t
        (listModify bl ((alistLookup d idx).getD 0) (fun b => { b with deleted := true }))).length
        = bl.length
      rw [ih, listModify_length]

theorem BlockSet.delete_spec : ∀ (ds : List MapBlockId) (s s' : BlockSet),
    s.delete ds = .ok s' →
    s'.id_to_index = s.id_to_index ∧ s'.block_children = s.block_children ∧
    (∀ d ∈ ds, (alistLookup d s.id_to_index).isSome = true) ∧
    s'.blocks = applyDeleteMarks s.id_to_index ds s.blocks := by
  intro ds
  induction ds with
  | nil =>
      intro s s' h
      injection h with h
      subst h
      exact ⟨rfl, rfl, fun d hd => absurd hd (List.not_mem_nil d), rfl⟩
  | cons d ds ih =>
      intro s s' h
      unfold BlockSet.delete at h
      cases hd : alistLookup d s.id_to_index with
      | none =>
          rw [hd] at h
          exact Except.noConfusion h
      | some i =>
          rw [hd] at h
          have := ih _ s' h
          refine ⟨this.1, this.2.1, ?_, ?_⟩
          · intro e he
            rcases List.mem_cons.mp he with rfl | he
            · simp [hd]
            · have h5 := this.2.2.1 e he
              exact h5
          · have h4 := this.2.2.2
            simp only [applyDeleteMarks, List.foldl_cons, hd, Option.getD_some]
            exact h4

theorem BlockSet.insert_spec (bs : BlockSet) (SB : MapBlock) (bs1 : BlockSet)
    (hins : bs.insert SB = .ok bs1) :
    bs1.blocks = bs.blocks ++ [SB] ∧
    bs1.id_to_index = alistInsert SB.id bs.blocks.length bs.id_to_index ∧
    ∀ bs' : BlockSet, bs'.id_to_index = bs.id_to_index →
      bs'.block_children = bs.block_children → bs'.blocks.length = bs.blocks.length →
      bs'.insert SB = .ok ⟨bs'.blocks ++ [SB], bs1.id_to_index, bs1.block_children⟩ := by
  unfold BlockSet.insert at hins
  cases hfold : SB.parents.foldlM
      (fun ch parent =>
        match alistLookup parent (alistInsert SB.id bs.blocks.length bs.id_to_index) with
        | some parentIndex => pure (BlockSet.pushChild ch parentIndex bs.blocks.length)
        | none => Except.error "parent block id not found")
      (match alistLookup bs.blocks.length bs.block_children with
       | some _ => bs.block_children
       | none => alistInsert bs.blocks.length ([] : List Nat) bs.block_children) with
  | error e =>
      rw [hfold] at hins
      exact Except.noConfusion hins
  | ok C =>
      rw [hfold] at hins
      have hins2 : Except.ok (BlockSet.mk (bs.blocks ++ [SB])
          (alistInsert SB.id bs.blocks.length bs.id_to_index) C) = Except.ok bs1 := hins
      cases hins2
      refine ⟨rfl, rfl, ?_⟩
      intro bs' hidx hch hlen
      unfold BlockSet.insert
      rw [hidx, hch, hlen, hfold]
      rfl

theorem applyDeleteMarks_append (SB : MapBlock) (n : Nat) (idx : List (MapBlockId × Nat)) :
    ∀ (ds : List MapBlockId) (bl : List MapBlock), bl.length = n →
    (∀ d ∈ ds, d ≠ SB.id) →
    (∀ d ∈ ds, ∀ i, alistLookup d idx = some i → i < n) →
    (∀ d ∈ ds, (alistLookup d idx).isSome = true) →
    applyDeleteMarks (alistInsert SB.id n idx) ds (bl ++ [SB]) =
      applyDeleteMarks idx ds bl ++ [SB] := by
  intro ds
  induction ds with
  | nil => intro bl _ _ _ _; rfl
  | cons d ds ih =>
      intro bl hlen hne hb hsome
      have hd : alistLookup d (alistInsert SB.id n idx) = alistLookup d idx :=
        alistLookup_alistInsert_ne SB.id d n idx (hne d (List.mem_cons_self d ds))
      cases hdi : alistLookup d idx with
      | none =>
          have := hsome d (List.mem_cons_self d ds)
          rw [hdi] at this
          simp at this
      | some i =>
          have hin : i < bl.length := by
            rw [hlen]
            exact hb d (List.mem_cons_self d ds) i hdi
          simp only [applyDeleteMarks, List.foldl_cons, hd, hdi, Option.getD_some]
          rw [listModify_append_lt _ SB bl i hin]
          exact ih (listModify bl i _) (by rw [listModify_length]; exact hlen)
            (fun e he => hne e (List.mem_cons_of_mem d he))
            (fun e he => hb e (List.mem_cons_of_mem d he))
            (fun e he => hsome e (List.mem_cons_of_mem d he))

/-- **C6 counterexample.** The claim concludes that after a concurrent set
`S` and a delete (whose observed parents do not include `S`), the field's
observed value is `S`'s value.  That fails when a third concurrent write is
also latest and live: with live parentless blocks `x = (1,0,ts 100)` and
`y = (2,0,ts 50)`, a delete that observed only `y`, and the concurrent set
`S = (0,0,ts 1,"s")`, block `S` stays live but the observed value is "x"
(the live highest-priority latest block), not "s" — in either application
order. -/
theorem c6_counterexample :
    ((do
        let s ← BlockSet.new.insert ⟨⟨1, 0⟩, [], .scalar (.string "x"), 100, false⟩
        let s ← s.insert ⟨⟨2, 0⟩, [], .scalar (.string "y"), 50, false⟩
        let s ← s.insert ⟨⟨0, 0⟩, [], .scalar (.string "s"), 1, false⟩
        let s ← s.delete [⟨2, 0⟩]
        return (s.get_latest).map (·.value) : Except String (Option Value))
      = .ok (some (.scalar (.string "x")))) ∧
    ((do
        let s ← BlockSet.new.insert ⟨⟨1, 0⟩, [], .scalar (.string "x"), 100, false⟩
        let s ← s.insert ⟨⟨2, 0⟩, [], .scalar (.string "y"), 50, false⟩
        let s ← s.delete [⟨2, 0⟩]
        let s ← s.insert ⟨⟨0, 0⟩, [], .scalar (.string "s"), 1, false⟩
        return (s.get_latest).map (·.value) : Except String (Option Value))
      = .ok (some (.scalar (.string "x")))) ∧
    (Value.scalar (.string "x")) ≠ (.scalar (.string "s")) := by
  refine ⟨by rfl, by rfl, by decide⟩

/-- **C6 (amended).** A concurrent set `S` and a delete whose parent list
does not name `S.id` commute, and the set stays live: applying them in
either order yields the same block set, in which `S`'s block is present
and not tombstoned.  If moreover the delete left no other live latest
block (it observed every other latest candidate), the field's observed
value is `S`'s value. -/
theorem c6_concurrent_set_delete_keeps_set_live
    (bs bs1 bs2 F F' : BlockSet) (SB : MapBlock) (ds : List MapBlockId)
    (hSdel : SB.deleted = false)
    (hne : ∀ d ∈ ds, d ≠ SB.id)
    (hbound : ∀ d ∈ ds, ∀ i, alistLookup d bs.id_to_index = some i → i < bs.blocks.length)
    (hins : bs.insert SB = .ok bs1)
    (hdelins : bs1.delete ds = .ok F)
    (hdel : bs.delete ds = .ok bs2)
    (hins2 : bs2.insert SB = .ok F') :
    F = F' ∧
    F.blocks[bs.blocks.length]? = some SB ∧
    (∀ latest, F.get_latest_with_conflicts = some latest → SB ∈ latest →
      (∀ x ∈ latest, x.deleted = false → x = SB) →
      F.get_latest = some SB) := by
  obtain ⟨hb1, hi1, hgen⟩ := BlockSet.insert_spec bs SB bs1 hins
  obtain ⟨hFi, hFc, hFsome, hFb⟩ := BlockSet.delete_spec ds bs1 F hdelins
  obtain ⟨h2i, h2c, h2some, h2b⟩ := BlockSet.delete_spec ds bs bs2 hdel
  have hlen2 : bs2.blocks.length = bs.blocks.length := by
    rw [h2b, applyDeleteMarks_length]
  have hFblocks : F.blocks = applyDeleteMarks bs.id_to_index ds bs.blocks ++ [SB] := by
    rw [hFb, hb1, hi1]
    exact applyDeleteMarks_append SB bs.blocks.length bs.id_to_index ds bs.blocks rfl
      hne hbound h2some
  have hF' : F' = ⟨bs2.blocks ++ [SB], bs1.id_to_index, bs1.block_children⟩ := by
    have := hgen bs2 h2i h2c hlen2
    rw [this] at hins2
    cases hins2
    rfl
  have hFeq : F = F' := by
    have heta : F = ⟨F.blocks, F.id_to_index, F.block_children⟩ := rfl
    rw [hF', heta, hFblocks, hFi, hFc, h2b]
  refine ⟨hFeq, ?_, ?_⟩
  · rw [hFblocks]
    have : (applyDeleteMarks bs.id_to_index ds bs.blocks).length = bs.blocks.length :=
      applyDeleteMarks_length _ _ _
    rw [← this]
    exact List.getElem?_concat_length _ _
  · intro latest hlatest hmem huniq
    unfold BlockSet.get_latest
    rw [hlatest]
    show (sortBy cmpMapBlocks latest).reverse.find? (fun blk => !blk.deleted) = some SB
    apply find?_eq_of_unique_sat
    · rw [List.mem_reverse]
      exact ((List.perm_insertionSort (fun a c => cmpMapBlocks a c ≠ Ordering.gt)
        latest).mem_iff).mpr hmem
    · simp [hSdel]
    · intro x hx hpx
      have hxl : x ∈ latest :=
        ((List.perm_insertionSort (fun a c => cmpMapBlocks a c ≠ Ordering.gt)
          latest).mem_iff).mp (List.mem_reverse.mp hx)
      exact huniq x hxl (by simpa using hpx)

/-- **C6 witness.** The amended theorem applied to a concrete field: one
observed block `(1,0,"old")`, a delete that observed it, and a concurrent
set `(0,0,"new")`; in the resulting block set the new block is untouched
and is the observed value. -/
theorem c6_concurrent_set_delete_witness :
    (⟨[⟨⟨1, 0⟩, [], .scalar (.string "old"), 50, true⟩,
        ⟨⟨0, 0⟩, [], .scalar (.string "new"), 1, false⟩],
      [(⟨1, 0⟩, 0), (⟨0, 0⟩, 1)], [(0, []), (1, [])]⟩ : BlockSet).blocks[1]? =
      some ⟨⟨0, 0⟩, [], .scalar (.string "new"), 1, false⟩ ∧
    (⟨[⟨⟨1, 0⟩, [], .scalar (.string "old"), 50, true⟩,
        ⟨⟨0, 0⟩, [], .scalar (.string "new"), 1, false⟩],
      [(⟨1, 0⟩, 0), (⟨0, 0⟩, 1)], [(0, []), (1, [])]⟩ : BlockSet).get_latest =
      some ⟨⟨0, 0⟩, [], .scalar (.string "new"), 1, false⟩ := by
  have h := c6_concurrent_set_delete_keeps_set_live
    ⟨[⟨⟨1, 0⟩, [], .scalar (.string "old"), 50, false⟩], [(⟨1, 0⟩, 0)], [(0, [])]⟩
    ⟨[⟨⟨1, 0⟩, [], .scalar (.string "old"), 50, false⟩,
       ⟨⟨0, 0⟩, [], .scalar (.string "new"), 1, false⟩],
     [(⟨1, 0⟩, 0), (⟨0, 0⟩, 1)], [(0, []), (1, [])]⟩
    ⟨[⟨⟨1, 0⟩, [], .scalar (.string "old"), 50, true⟩], [(⟨1, 0⟩, 0)], [(0, [])]⟩
    ⟨[⟨⟨1, 0⟩, [], .scalar (.string "old"), 50, true⟩,
       ⟨⟨0, 0⟩, [], .scalar (.string "new"), 1, false⟩],
     [(⟨1, 0⟩, 0), (⟨0, 0⟩, 1)], [(0, []), (1, [])]⟩
    ⟨[⟨⟨1, 0⟩, [], .scalar (.string "old"), 50, true⟩,
       ⟨⟨0, 0⟩, [], .scalar (.string "new"), 1, false⟩],
     [(⟨1, 0⟩, 0), (⟨0, 0⟩, 1)], [(0, []), (1, [])]⟩
    ⟨⟨0, 0⟩, [], .scalar (.string "new"), 1, false⟩
    [⟨1, 0⟩]
    (by rfl)
    (by decide)
    (by
      intro d hd i hi
      have hd2 : d = ⟨1, 0⟩ := List.mem_singleton.mp hd
      subst hd2
      have : some 0 = some i := by
        rw [← hi]
        rfl
      injection this with h2
      subst h2
      decide)
    (by rfl) (by rfl) (by rfl) (by rfl)
  refine ⟨h.2.1, ?_⟩
  exact h.2.2
    [⟨⟨1, 0⟩, [], .scalar (.string "old"), 50, true⟩,
     ⟨⟨0, 0⟩, [], .scalar (.string "new"), 1, false⟩]
    (by rfl) (by decide) (by decide)

/-! ## Association-list facts and operation-log shape lemmas -/

/-- Inserting a binding makes it the one `alistLookup` finds. -/
theorem alistLookup_alistInsert_self {κ ν : Type} [DecidableEq κ] (k : κ) (v : ν)
    (l : List (κ × ν)) : alistLookup k (alistInsert k v l) = some v := by
  induction l with
  | nil => simp [alistInsert, alistLookup]
  | cons e t ih =>
      show alistLookup k (if e.1 = k then (k, v) :: t else (e.1, e.2) :: alistInsert k v t) = some v
      by_cases hk : e.1 = k
      · rw [if_pos hk]
        show (if k = k then some v else alistLookup k t) = some v
        rw [if_pos rfl]
      · rw [if_neg hk]
        show (if e.1 = k then some e.2 else alistLookup k (alistInsert k v t)) = some v
        rw [if_neg hk, ih]

theorem alistInsert_alistInsert_same {κ ν : Type} [DecidableEq κ] (k : κ) (v1 v2 : ν)
    (l : List (κ × ν)) : alistInsert k v2 (alistInsert k v1 l) = alistInsert k v2 l := by
  induction l with
  | nil => simp [alistInsert]
  | cons e t ih =>
      by_cases hk : e.1 = k
      · rw [show alistInsert k v1 (e :: t) = (k, v1) :: t from by
          show (if e.1 = k then (k, v1) :: t else (e.1, e.2) :: alistInsert k v1 t) = _
          rw [if_pos hk]]
        show (if k = k then (k, v2) :: t else (k, v1) :: alistInsert k v2 t)
          = if e.1 = k then (k, v2) :: t else (e.1, e.2) :: alistInsert k v2 t
        rw [if_pos rfl, if_pos hk]
      · rw [show alistInsert k v1 (e :: t) = (e.1, e.2) :: alistInsert k v1 t from by
          show (if e.1 = k then (k, v1) :: t else (e.1, e.2) :: alistInsert k v1 t) = _
          rw [if_neg hk]]
        show (if e.1 = k then (k, v2) :: alistInsert k v1 t
            else (e.1, e.2) :: alistInsert k v2 (alistInsert k v1 t))
          = if e.1 = k then (k, v2) :: t else (e.1, e.2) :: alistInsert k v2 t
        rw [if_neg hk, if_neg hk, ih]

theorem mem_alistInsert {κ ν : Type} [DecidableEq κ] (k : κ) (v : ν) (l : List (κ × ν))
    (e : κ × ν) (h : e ∈ alistInsert k v l) : e = (k, v) ∨ e ∈ l := by
  induction l with
  | nil => simp [alistInsert] at h; exact Or.inl h
  | cons f t ih =>
      by_cases hk : f.1 = k
      · rw [show alistInsert k v (f :: t) = (k, v) :: t from by
          show (if f.1 = k then (k, v) :: t else (f.1, f.2) :: alistInsert k v t) = (k, v) :: t
          rw [if_pos hk]] at h
        rcases List.mem_cons.mp h with h | h
        · exact Or.inl h
        · exact Or.inr (List.mem_cons_of_mem f h)
      · rw [show alistInsert k v (f :: t) = (f.1, f.2) :: alistInsert k v t from by
          show (if f.1 = k then (k, v) :: t else (f.1, f.2) :: alistInsert k v t) = _
          rw [if_neg hk]] at h
        rcases List.mem_cons.mp h with h | h
        · exact Or.inr (by rw [h]; exact List.mem_cons_self f t)
        · rcases ih h with h | h
          · exact Or.inl h
          · exact Or.inr (List.mem_cons_of_mem f h)

theorem mem_alistRemove {κ ν : Type} [DecidableEq κ] (k : κ) (l : List (κ × ν))
    (e : κ × ν) (h : e ∈ alistRemove k l) : e ∈ l := by
  induction l with
  | nil => simp [alistRemove] at h
  | cons f t ih =>
      by_cases hk : f.1 = k
      · rw [show alistRemove k (f :: t) = t from by
          show (if f.1 = k then t else (f.1, f.2) :: alistRemove k t) = t
          rw [if_pos hk]] at h
        exact List.mem_cons_of_mem f h
      · rw [show alistRemove k (f :: t) = (f.1, f.2) :: alistRemove k t from by
          show (if f.1 = k then t else (f.1, f.2) :: alistRemove k t) = _
          rw [if_neg hk]] at h
        rcases List.mem_cons.mp h with h | h
        · rw [h]; exact List.mem_cons_self f t
        · exact List.mem_cons_of_mem f (ih h)

theorem alistLookup_mem {κ ν : Type} [DecidableEq κ] (k : κ) (v : ν) (l : List (κ × ν))
    (h : alistLookup k l = some v) : (k, v) ∈ l := by
  induction l with
  | nil => simp [alistLookup] at h
  | cons e t ih =>
      by_cases hk : e.1 = k
      · rw [show alistLookup k (e :: t) = some e.2 from by
          show (if e.1 = k then some e.2 else alistLookup k t) = _
          rw [if_pos hk]] at h
        injection h with h
        rw [← h, ← hk]
        exact List.mem_cons_self e t
      · rw [show alistLookup k (e :: t) = alistLookup k t from by
          show (if e.1 = k then some e.2 else alistLookup k t) = _
          rw [if_neg hk]] at h
        exact List.mem_cons_of_mem e (ih h)

theorem recalculate_last_shape (l l' : OperationLog)
    (h : l.recalculate_last = Except.ok l') :
    l'.operations = l.operations ∧ l'.orphans = l.orphans ∧
      l'.id_to_index = l.id_to_index := by
  unfold OperationLog.recalculate_last at h
  split at h
  · exact Except.noConfusion h
  · split at h
    · split at h
      · injection h with h
        subst h
        exact ⟨rfl, rfl, rfl⟩
      · exact Except.noConfusion h
    · injection h with h
      subst h
      exact ⟨rfl, rfl, rfl⟩

theorem insert_operation_shape (l : OperationLog) (op : Operation) (r : Option Nat)
    (l' : OperationLog) (h : l.insert_operation op = Except.ok (r, l')) :
    (l'.operations = l.operations ∨ l'.operations = l.operations ++ [op]) ∧
      (∀ e ∈ l'.orphans, e ∈ l.orphans ∨ e.2 = op) := by
  unfold OperationLog.insert_operation at h
  split at h
  · injection h with h
    injection h with h1 h2
    subst h2
    exact ⟨Or.inl rfl, fun e he => Or.inl he⟩
  · split at h
    · split at h
      · injection h with h
        injection h with h1 h2
        subst h2
        refine ⟨Or.inl rfl, fun e he => ?_⟩
        rcases mem_alistInsert _ _ _ _ he with h | h
        · exact Or.inr (by rw [h])
        · exact Or.inl h
      · exact Except.noConfusion h
    · simp only [] at h
      split at h
      · exact Except.noConfusion h
      · split at h
        · split at h
          · split at h
            · exact Except.noConfusion h
            · rename_i log4 heq
              injection h with h
              injection h with h1 h2
              subst h2
              obtain ⟨hops, horph, _⟩ := recalculate_last_shape _ _ heq
              refine ⟨Or.inr (hops.trans rfl), fun e he => Or.inl ?_⟩
              rw [horph] at he
              exact he
          · injection h with h
            injection h with h1 h2
            subst h2
            exact ⟨Or.inr rfl, fun e he => Or.inl he⟩
        · split at h
          · split at h
            · exact Except.noConfusion h
            · rename_i log4 heq
              injection h with h
              injection h with h1 h2
              subst h2
              obtain ⟨hops, horph, _⟩ := recalculate_last_shape _ _ heq
              refine ⟨Or.inr (hops.trans rfl), fun e he => Or.inl ?_⟩
              rw [horph] at he
              exact he
          · injection h with h
            injection h with h1 h2
            subst h2
            exact ⟨Or.inr rfl, fun e he => Or.inl he⟩

theorem drainOrphans_shape (fuel : Nat) :
    ∀ (oid : OperationId) (l : OperationLog) (applied : List Nat)
      (l' : OperationLog) (applied' : List Nat),
      OperationLog.drainOrphans fuel oid l applied = Except.ok (l', applied') →
      (∀ q ∈ l'.operations, q ∈ l.operations ∨ ∃ e ∈ l.orphans, e.2 = q) ∧
        (∀ e ∈ l'.orphans, ∃ x ∈ l.orphans, x.2 = e.2) := by
  induction fuel with
  | zero =>
      intro oid l applied l' applied' h
      exact Except.noConfusion h
  | succ fuel ih =>
      intro oid l applied l' applied' h
      rw [OperationLog.drainOrphans] at h
      split at h
      · injection h with h
        injection h with h1 h2
        subst h1
        exact ⟨fun q hq => Or.inl hq, fun e he => ⟨e, he, rfl⟩⟩
      · rename_i orphan hlook
        split at h
        · exact Except.noConfusion h
        · rename_i r lm heq
          have hmem : (oid, orphan) ∈ l.orphans := alistLookup_mem _ _ _ hlook
          obtain ⟨hops, horph⟩ := insert_operation_shape _ _ _ _ heq
          obtain ⟨ihops, ihorph⟩ := ih _ _ _ _ _ h
          constructor
          · intro q hq
            rcases ihops q hq with hq | ⟨e, he, hev⟩
            · rcases hops with h1 | h1
              · rw [h1] at hq
                exact Or.inl hq
              · rw [h1] at hq
                rcases List.mem_append.mp hq with hq | hq
                · exact Or.inl hq
                · have : q = orphan := List.mem_singleton.mp hq
                  exact Or.inr ⟨(oid, orphan), hmem, this.symm⟩
            · rcases horph e he with h1 | h1
              · exact Or.inr ⟨e, mem_alistRemove _ _ _ h1, hev⟩
              · rw [h1] at hev
                exact Or.inr ⟨(oid, orphan), hmem, hev⟩
          · intro e he
            obtain ⟨x, hx, hxv⟩ := ihorph e he
            rcases horph x hx with h1 | h1
            · exact ⟨x, mem_alistRemove _ _ _ h1, hxv⟩
            · rw [h1] at hxv
              exact ⟨(oid, orphan), hmem, hxv⟩

theorem apply_operation_shape (l : OperationLog) (op : Operation)
    (applied : List Operation) (l' : OperationLog)
    (h : l.apply_operation op = Except.ok (applied, l')) :
    (∀ q ∈ l'.operations, q ∈ l.operations ∨ q = op ∨ ∃ e ∈ l.orphans, e.2 = q) ∧
      (∀ e ∈ l'.orphans, e.2 = op ∨ ∃ x ∈ l.orphans, x.2 = e.2) := by
  unfold OperationLog.apply_operation at h
  split at h
  · exact Except.noConfusion h
  · rename_i r l1 heq
    split at h
    · exact Except.noConfusion h
    · rename_i l2 applied2 hdrain
      injection h with h
      injection h with h1 h2
      subst h2
      obtain ⟨hops1, horph1⟩ := insert_operation_shape _ _ _ _ heq
      obtain ⟨hops2, horph2⟩ := drainOrphans_shape _ _ _ _ _ _ hdrain
      constructor
      · intro q hq
        rcases hops2 q hq with hq | ⟨e, he, hev⟩
        · rcases hops1 with h1 | h1
          · rw [h1] at hq
            exact Or.inl hq
          · rw [h1] at hq
            rcases List.mem_append.mp hq with hq | hq
            · exact Or.inl hq
            · exact Or.inr (Or.inl (List.mem_singleton.mp hq))
        · rcases horph1 e he with h1 | h1
          · exact Or.inr (Or.inr ⟨e, h1, hev⟩)
          · rw [h1] at hev
            exact Or.inr (Or.inl hev.symm)
      · intro e he
        obtain ⟨x, hx, hxv⟩ := horph2 e he
        rcases horph1 x hx with h1 | h1
        · exact Or.inr ⟨x, h1, hxv⟩
        · rw [h1] at hxv
          exact Or.inl hxv.symm

theorem insert_operation_buffers_orphan (l : OperationLog) (op : Operation)
    (pid : OperationId) (hpar : op.parent = some pid)
    (hc : alistContains op.id l.id_to_index = false)
    (hp : alistContains pid l.id_to_index = false) :
    l.insert_operation op =
      Except.ok (none, { l with orphans := alistInsert pid op l.orphans }) := by
  have ho : l.is_orphan op = true := by
    unfold OperationLog.is_orphan
    rw [hpar]
    show (!alistContains pid l.id_to_index) = true
    rw [hp]
    rfl
  unfold OperationLog.insert_operation
  rw [hc, ho, hpar]
  rfl

theorem drainOrphans_noop (oid : OperationId) (l : OperationLog) (applied : List Nat)
    (fuel : Nat) (h : alistLookup oid l.orphans = none) :
    OperationLog.drainOrphans (fuel + 1) oid l applied = Except.ok (l, applied) := by
  rw [OperationLog.drainOrphans, h]

theorem apply_operation_buffers_orphan (l : OperationLog) (op : Operation)
    (pid : OperationId) (hpar : op.parent = some pid)
    (hc : alistContains op.id l.id_to_index = false)
    (hp : alistContains pid l.id_to_index = false)
    (hne : op.id ≠ pid)
    (hk : alistLookup op.id l.orphans = none) :
    l.apply_operation op =
      Except.ok ([], { l with orphans := alistInsert pid op l.orphans }) := by
  unfold OperationLog.apply_operation
  rw [insert_operation_buffers_orphan l op pid hpar hc hp]
  have hk1 : alistLookup op.id
      ({ l with orphans := alistInsert pid op l.orphans } : OperationLog).orphans = none := by
    show alistLookup op.id (alistInsert pid op l.orphans) = none
    rw [alistLookup_alistInsert_ne pid op.id op l.orphans hne, hk]
  dsimp only []
  rw [drainOrphans_noop op.id _ _ _ hk1]
  rfl

/-! ## Claim C10: the orphan buffer keeps one operation per missing parent -/

/-- **C10.** The orphan map of `OperationLog` is keyed by the missing parent
id, and `insert_operation` buffers an orphan with `orphans.insert(parent,
op)`: when two distinct operations naming the same not-yet-applied parent
are applied, the second overwrites the first in the buffer, the first is no
longer reachable from the log, and after any successful application of the
missing parent the overwritten operation's id appears neither among the
stored operations nor among the remaining orphans — it is lost for good. -/
theorem c10_orphan_overwrite (L : OperationLog) (o1 o2 : Operation) (pid : OperationId)
    (hp1 : o1.parent = some pid) (hp2 : o2.parent = some pid)
    (hne : o1.id ≠ o2.id) (hne1 : o1.id ≠ pid) (hne2 : o2.id ≠ pid)
    (hpid : alistContains pid L.id_to_index = false)
    (h1 : alistContains o1.id L.id_to_index = false)
    (h2 : alistContains o2.id L.id_to_index = false)
    (hk1 : alistLookup o1.id L.orphans = none)
    (hk2 : alistLookup o2.id L.orphans = none)
    (hnov : ∀ e ∈ L.orphans, e.2.id ≠ o1.id)
    (hnop : ∀ q ∈ L.operations, q.id ≠ o1.id) :
    L.apply_operation o1
        = Except.ok ([], { L with orphans := alistInsert pid o1 L.orphans }) ∧
    ({ L with orphans := alistInsert pid o1 L.orphans } : OperationLog).apply_operation o2
        = Except.ok ([], { L with orphans := alistInsert pid o2 L.orphans }) ∧
    alistLookup pid (alistInsert pid o2 L.orphans) = some o2 ∧
    (∀ e ∈ alistInsert pid o2 L.orphans, e.2.id ≠ o1.id) ∧
    (∀ (p : Operation) (applied : List Operation) (L3 : OperationLog), p.id = pid →
      ({ L with orphans := alistInsert pid o2 L.orphans } : OperationLog).apply_operation p
          = Except.ok (applied, L3) →
      (∀ q ∈ L3.operations, q.id ≠ o1.id) ∧ (∀ e ∈ L3.orphans, e.2.id ≠ o1.id)) := by
  have hA : L.apply_operation o1
      = Except.ok ([], { L with orphans := alistInsert pid o1 L.orphans }) :=
    apply_operation_buffers_orphan L o1 pid hp1 h1 hpid hne1 hk1
  have hk2' : alistLookup o2.id (alistInsert pid o1 L.orphans) = none := by
    rw [alistLookup_alistInsert_ne pid o2.id o1 L.orphans hne2, hk2]
  have hB0 := apply_operation_buffers_orphan
    { L with orphans := alistInsert pid o1 L.orphans } o2 pid hp2 h2 hpid hne2 hk2'
  have hB : ({ L with orphans := alistInsert pid o1 L.orphans } : OperationLog).apply_operation o2
      = Except.ok ([], { L with orphans := alistInsert pid o2 L.orphans }) := by
    rw [hB0]
    rw [show alistInsert pid o2 (alistInsert pid o1 L.orphans) = alistInsert pid o2 L.orphans from
      alistInsert_alistInsert_same pid o1 o2 L.orphans]
  have h4 : ∀ e ∈ alistInsert pid o2 L.orphans, e.2.id ≠ o1.id := by
    intro e he
    rcases mem_alistInsert _ _ _ _ he with h | h
    · rw [h]
      exact fun hh => hne hh.symm
    · exact hnov e h
  refine ⟨hA, hB, alistLookup_alistInsert_self pid o2 L.orphans, h4, ?_⟩
  intro p applied L3 hpe happ
  obtain ⟨hops, horph⟩ := apply_operation_shape _ _ _ _ happ
  constructor
  · intro q hq
    rcases hops q hq with hq | hq | ⟨e, he, hev⟩
    · exact hnop q hq
    · rw [hq, hpe]
      exact fun hh => hne1 hh.symm
    · rw [← hev]
      exact h4 e he
  · intro e he
    rcases horph e he with h | ⟨x, hx, hxv⟩
    · rw [h, hpe]
      exact fun hh => hne1 hh.symm
    · rw [← hxv]
      exact h4 x hx

theorem c10_orphan_overwrite_witness :
    (OperationLog.new 0).apply_operation
        ⟨⟨0, 1⟩, some ⟨2, 1⟩, .setMapValue { object := .root, selector := .key "k", id := ⟨0, 0⟩, parents := [], value := .scalar (.bool true) }, 2⟩
      = Except.ok ([], { OperationLog.new 0 with
          orphans := alistInsert ⟨2, 1⟩
            ⟨⟨0, 1⟩, some ⟨2, 1⟩, .setMapValue { object := .root, selector := .key "k", id := ⟨0, 0⟩, parents := [], value := .scalar (.bool true) }, 2⟩ [] }) ∧
    alistLookup (⟨2, 1⟩ : OperationId)
        (alistInsert ⟨2, 1⟩
          (⟨⟨1, 1⟩, some ⟨2, 1⟩, .setMapValue { object := .root, selector := .key "k", id := ⟨1, 0⟩, parents := [], value := .scalar (.bool false) }, 3⟩ : Operation)
          ([] : List (OperationId × Operation)))
      = some ⟨⟨1, 1⟩, some ⟨2, 1⟩, .setMapValue { object := .root, selector := .key "k", id := ⟨1, 0⟩, parents := [], value := .scalar (.bool false) }, 3⟩ := by
  have h := c10_orphan_overwrite (OperationLog.new 0)
    ⟨⟨0, 1⟩, some ⟨2, 1⟩, .setMapValue { object := .root, selector := .key "k", id := ⟨0, 0⟩, parents := [], value := .scalar (.bool true) }, 2⟩
    ⟨⟨1, 1⟩, some ⟨2, 1⟩, .setMapValue { object := .root, selector := .key "k", id := ⟨1, 0⟩, parents := [], value := .scalar (.bool false) }, 3⟩
    ⟨2, 1⟩ rfl rfl (by decide) (by decide) (by decide) (by rfl) (by rfl) (by rfl)
    (by rfl) (by rfl) (by decide) (by decide)
  exact ⟨h.1, h.2.2.1⟩

/-! ## Claim C9 support: success characterization of `remap_client_ids` -/

theorem exists_ok_bind {α β : Type} (x : Except String α) (f : α → Except String β) :
    (∃ y, (x >>= f) = Except.ok y) ↔ ∃ a, x = Except.ok a ∧ ∃ y, f a = Except.ok y := by
  cases x with
  | error e =>
      constructor
      · rintro ⟨y, hy⟩
        exact absurd hy (by simp [Bind.bind, Except.bind])
      · rintro ⟨a, ha, _⟩
        exact absurd ha (by simp)
  | ok a =>
      constructor
      · rintro ⟨y, hy⟩
        exact ⟨a, rfl, y, hy⟩
      · rintro ⟨a', ha, y, hy⟩
        injection ha with ha
        subst ha
        exact ⟨y, hy⟩

theorem remapClient_ok (m : List (Nat × Nat)) (c : Nat) :
    (∃ y, remapClient m c = Except.ok y) ↔ alistContains c m = true := by
  unfold remapClient alistContains
  cases h : alistLookup c m with
  | none => simp [h]
  | some v => simp [h]

theorem operationId_remap_ok (m : List (Nat × Nat)) (id : OperationId) :
    (∃ y, OperationId.remap m id = Except.ok y) ↔
      alistContains id.client_id m = true := by
  unfold OperationId.remap
  rw [exists_ok_bind]
  rw [← remapClient_ok m id.client_id]
  constructor
  · rintro ⟨a, ha, _⟩
    exact ⟨a, ha⟩
  · rintro ⟨a, ha⟩
    exact ⟨a, ha, _, rfl⟩

theorem mapBlockId_remap_ok (m : List (Nat × Nat)) (id : MapBlockId) :
    (∃ y, MapBlockId.remap m id = Except.ok y) ↔
      alistContains id.client_id m = true := by
  unfold MapBlockId.remap
  rw [exists_ok_bind]
  rw [← remapClient_ok m id.client_id]
  constructor
  · rintro ⟨a, ha, _⟩
    exact ⟨a, ha⟩
  · rintro ⟨a, ha⟩
    exact ⟨a, ha, _, rfl⟩

theorem sequenceBlockId_remap_ok (m : List (Nat × Nat)) (id : SequenceBlockId) :
    (∃ y, SequenceBlockId.remap m id = Except.ok y) ↔
      alistContains id.client_id m = true := by
  unfold SequenceBlockId.remap
  rw [exists_ok_bind]
  rw [← remapClient_ok m id.client_id]
  constructor
  · rintro ⟨a, ha, _⟩
    exact ⟨a, ha⟩
  · rintro ⟨a, ha⟩
    exact ⟨a, ha, _, rfl⟩

theorem objRef_remap_ok (m : List (Nat × Nat)) (o : ObjRef) :
    (∃ y, ObjRef.remap m o = Except.ok y) ↔
      ∀ c ∈ (match o with | .object id => [id.client_id] | .root => ([] : List Nat)),
        alistContains c m = true := by
  cases o with
  | root =>
      simp only [ObjRef.remap]
      constructor
      · intro _ c hc
        exact absurd hc (List.not_mem_nil c)
      · intro _
        exact ⟨.root, rfl⟩
  | object id =>
      show (∃ y, (OperationId.remap m id >>= fun id => pure (ObjRef.object id))
          = Except.ok y) ↔ _
      rw [exists_ok_bind]
      simp only [List.mem_singleton]
      constructor
      · rintro ⟨a, ha, _⟩
        intro c hc
        subst hc
        exact (operationId_remap_ok m id).mp ⟨a, ha⟩
      · rintro h
        obtain ⟨a, ha⟩ := (operationId_remap_ok m id).mpr (h id.client_id rfl)
        exact ⟨a, ha, _, rfl⟩

theorem mapM_ok {α β : Type} (f : α → Except String β) (l : List α) :
    (∃ y, l.mapM f = Except.ok y) ↔ ∀ a ∈ l, ∃ y, f a = Except.ok y := by
  induction l with
  | nil =>
      constructor
      · intro _ a ha
        exact absurd ha (List.not_mem_nil a)
      · intro _
        exact ⟨[], rfl⟩
  | cons a t ih =>
      rw [List.mapM_cons]
      constructor
      · intro h
        rw [exists_ok_bind] at h
        obtain ⟨b, hb, h⟩ := h
        rw [exists_ok_bind] at h
        obtain ⟨bs, hbs, _⟩ := h
        intro x hx
        rcases List.mem_cons.mp hx with hx | hx
        · exact ⟨b, hx ▸ hb⟩
        · exact (ih.mp ⟨bs, hbs⟩) x hx
      · intro h
        obtain ⟨b, hb⟩ := h a (List.mem_cons_self a t)
        obtain ⟨bs, hbs⟩ := ih.mpr (fun x hx => h x (List.mem_cons_of_mem a hx))
        refine ⟨b :: bs, ?_⟩
        simp only [hb, hbs]
        rfl

theorem action_remap_ok (m : List (Nat × Nat)) (a : OperationAction) :
    (∃ y, a.remap m = Except.ok y) ↔
      ∀ c ∈ a.referencedClientIds, alistContains c m = true := by
  cases a with
  | createMap a =>
      simp only [OperationAction.remap, OperationAction.referencedClientIds]
      rw [exists_ok_bind]
      constructor
      · rintro ⟨o, ho, h⟩
        rw [exists_ok_bind] at h
        obtain ⟨i, hi, h⟩ := h
        rw [exists_ok_bind] at h
        obtain ⟨ps, hps, _⟩ := h
        intro c hc
        rcases List.mem_append.mp hc with hc | hc
        · rcases List.mem_append.mp hc with hc | hc
          · exact (objRef_remap_ok m a.object).mp ⟨o, ho⟩ c hc
          · have hid := (mapBlockId_remap_ok m a.id).mp ⟨i, hi⟩
            rwa [List.mem_singleton.mp hc]
        · obtain ⟨p, hp, hpc⟩ := List.mem_map.mp hc
          have h1 := (mapM_ok (MapBlockId.remap m) a.parents).mp ⟨ps, hps⟩ p hp
          have h2 := (mapBlockId_remap_ok m p).mp h1
          rwa [← hpc]
      · intro h
        obtain ⟨o, ho⟩ := (objRef_remap_ok m a.object).mpr (fun c hc =>
          h c (List.mem_append.mpr (Or.inl (List.mem_append.mpr (Or.inl hc)))))
        obtain ⟨i, hi⟩ := (mapBlockId_remap_ok m a.id).mpr
          (h a.id.client_id (List.mem_append.mpr (Or.inl (List.mem_append.mpr
            (Or.inr (List.mem_singleton.mpr rfl))))))
        obtain ⟨ps, hps⟩ := (mapM_ok (MapBlockId.remap m) a.parents).mpr (fun p hp =>
          (mapBlockId_remap_ok m p).mpr
            (h p.client_id (List.mem_append.mpr (Or.inr (List.mem_map.mpr ⟨p, hp, rfl⟩)))))
        refine ⟨o, ho, OperationAction.createMap { a with object := o, id := i, parents := ps }, ?_⟩
        simp only [ho, hi, hps]
        rfl
  | setMapValue a =>
      simp only [OperationAction.remap, OperationAction.referencedClientIds]
      rw [exists_ok_bind]
      constructor
      · rintro ⟨o, ho, h⟩
        rw [exists_ok_bind] at h
        obtain ⟨i, hi, h⟩ := h
        rw [exists_ok_bind] at h
        obtain ⟨ps, hps, _⟩ := h
        intro c hc
        rcases List.mem_append.mp hc with hc | hc
        · rcases List.mem_append.mp hc with hc | hc
          · exact (objRef_remap_ok m a.object).mp ⟨o, ho⟩ c hc
          · have hid := (mapBlockId_remap_ok m a.id).mp ⟨i, hi⟩
            rwa [List.mem_singleton.mp hc]
        · obtain ⟨p, hp, hpc⟩ := List.mem_map.mp hc
          have h1 := (mapM_ok (MapBlockId.remap m) a.parents).mp ⟨ps, hps⟩ p hp
          have h2 := (mapBlockId_remap_ok m p).mp h1
          rwa [← hpc]
      · intro h
        obtain ⟨o, ho⟩ := (objRef_remap_ok m a.object).mpr (fun c hc =>
          h c (List.mem_append.mpr (Or.inl (List.mem_append.mpr (Or.inl hc)))))
        obtain ⟨i, hi⟩ := (mapBlockId_remap_ok m a.id).mpr
          (h a.id.client_id (List.mem_append.mpr (Or.inl (List.mem_append.mpr
            (Or.inr (List.mem_singleton.mpr rfl))))))
        obtain ⟨ps, hps⟩ := (mapM_ok (MapBlockId.remap m) a.parents).mpr (fun p hp =>
          (mapBlockId_remap_ok m p).mpr
            (h p.client_id (List.mem_append.mpr (Or.inr (List.mem_map.mpr ⟨p, hp, rfl⟩)))))
        refine ⟨o, ho, OperationAction.setMapValue { a with object := o, id := i, parents := ps }, ?_⟩
        simp only [ho, hi, hps]
        rfl
  | deleteMapValue a =>
      simp only [OperationAction.remap, OperationAction.referencedClientIds]
      rw [exists_ok_bind]
      constructor
      · rintro ⟨o, ho, h⟩
        rw [exists_ok_bind] at h
        obtain ⟨ps, hps, _⟩ := h
        intro c hc
        rcases List.mem_append.mp hc with hc | hc
        · exact (objRef_remap_ok m a.object).mp ⟨o, ho⟩ c hc
        · obtain ⟨p, hp, hpc⟩ := List.mem_map.mp hc
          have h1 := (mapM_ok (MapBlockId.remap m) a.parents).mp ⟨ps, hps⟩ p hp
          have h2 := (mapBlockId_remap_ok m p).mp h1
          rwa [← hpc]
      · intro h
        obtain ⟨o, ho⟩ := (objRef_remap_ok m a.object).mpr (fun c hc =>
          h c (List.mem_append.mpr (Or.inl hc)))
        obtain ⟨ps, hps⟩ := (mapM_ok (MapBlockId.remap m) a.parents).mpr (fun p hp =>
          (mapBlockId_remap_ok m p).mpr
            (h p.client_id (List.mem_append.mpr (Or.inr (List.mem_map.mpr ⟨p, hp, rfl⟩)))))
        refine ⟨o, ho, OperationAction.deleteMapValue { a with object := o, parents := ps }, ?_⟩
        simp only [ho, hps]
        rfl
  | createText a =>
      simp only [OperationAction.remap, OperationAction.referencedClientIds]
      rw [exists_ok_bind]
      constructor
      · rintro ⟨o, ho, h⟩
        rw [exists_ok_bind] at h
        obtain ⟨i, hi, h⟩ := h
        rw [exists_ok_bind] at h
        obtain ⟨ps, hps, _⟩ := h
        intro c hc
        rcases List.mem_append.mp hc with hc | hc
        · rcases List.mem_append.mp hc with hc | hc
          · exact (objRef_remap_ok m a.object).mp ⟨o, ho⟩ c hc
          · have hid := (mapBlockId_remap_ok m a.id).mp ⟨i, hi⟩
            rwa [List.mem_singleton.mp hc]
        · obtain ⟨p, hp, hpc⟩ := List.mem_map.mp hc
          have h1 := (mapM_ok (MapBlockId.remap m) a.parents).mp ⟨ps, hps⟩ p hp
          have h2 := (mapBlockId_remap_ok m p).mp h1
          rwa [← hpc]
      · intro h
        obtain ⟨o, ho⟩ := (objRef_remap_ok m a.object).mpr (fun c hc =>
          h c (List.mem_append.mpr (Or.inl (List.mem_append.mpr (Or.inl hc)))))
        obtain ⟨i, hi⟩ := (mapBlockId_remap_ok m a.id).mpr
          (h a.id.client_id (List.mem_append.mpr (Or.inl (List.mem_append.mpr
            (Or.inr (List.mem_singleton.mpr rfl))))))
        obtain ⟨ps, hps⟩ := (mapM_ok (MapBlockId.remap m) a.parents).mpr (fun p hp =>
          (mapBlockId_remap_ok m p).mpr
            (h p.client_id (List.mem_append.mpr (Or.inr (List.mem_map.mpr ⟨p, hp, rfl⟩)))))
        refine ⟨o, ho, OperationAction.createText { a with object := o, id := i, parents := ps }, ?_⟩
        simp only [ho, hi, hps]
        rfl
  | insertText a =>
      obtain ⟨obj, bid, val, left⟩ := a
      cases left with
      | none =>
          simp only [OperationAction.remap, OperationAction.referencedClientIds]
          rw [exists_ok_bind]
          constructor
          · rintro ⟨o, ho, h⟩
            rw [exists_ok_bind] at h
            obtain ⟨i, hi, _⟩ := h
            intro c hc
            rcases List.mem_append.mp hc with hc | hc
            · rcases List.mem_append.mp hc with hc | hc
              · exact (objRef_remap_ok m obj).mp ⟨o, ho⟩ c hc
              · have hid := (sequenceBlockId_remap_ok m bid).mp ⟨i, hi⟩
                rwa [List.mem_singleton.mp hc]
            · exact absurd hc (List.not_mem_nil c)
          · intro h
            obtain ⟨o, ho⟩ := (objRef_remap_ok m obj).mpr (fun c hc =>
              h c (List.mem_append.mpr (Or.inl (List.mem_append.mpr (Or.inl hc)))))
            obtain ⟨i, hi⟩ := (sequenceBlockId_remap_ok m bid).mpr
              (h bid.client_id (List.mem_append.mpr (Or.inl (List.mem_append.mpr
                (Or.inr (List.mem_singleton.mpr rfl))))))
            refine ⟨o, ho, OperationAction.insertText { object := o, id := i, value := val, left := none }, ?_⟩
            simp only [ho, hi]
            rfl
      | some l =>
          simp only [OperationAction.remap, OperationAction.referencedClientIds]
          rw [exists_ok_bind]
          constructor
          · rintro ⟨o, ho, h⟩
            rw [exists_ok_bind] at h
            obtain ⟨i, hi, h⟩ := h
            rw [exists_ok_bind] at h
            obtain ⟨lf, hlf, _⟩ := h
            intro c hc
            rcases List.mem_append.mp hc with hc | hc
            · rcases List.mem_append.mp hc with hc | hc
              · exact (objRef_remap_ok m obj).mp ⟨o, ho⟩ c hc
              · have hid := (sequenceBlockId_remap_ok m bid).mp ⟨i, hi⟩
                rwa [List.mem_singleton.mp hc]
            · rw [List.mem_singleton.mp hc]
              exact (sequenceBlockId_remap_ok m l).mp ⟨lf, hlf⟩
          · intro h
            obtain ⟨o, ho⟩ := (objRef_remap_ok m obj).mpr (fun c hc =>
              h c (List.mem_append.mpr (Or.inl (List.mem_append.mpr (Or.inl hc)))))
            obtain ⟨i, hi⟩ := (sequenceBlockId_remap_ok m bid).mpr
              (h bid.client_id (List.mem_append.mpr (Or.inl (List.mem_append.mpr
                (Or.inr (List.mem_singleton.mpr rfl))))))
            obtain ⟨lc, hlc⟩ := (sequenceBlockId_remap_ok m l).mpr
              (h l.client_id (List.mem_append.mpr (Or.inr (List.mem_singleton.mpr rfl))))
            refine ⟨o, ho, OperationAction.insertText { object := o, id := i, value := val, left := some lc }, ?_⟩
            simp only [ho, hi, hlc]
            rfl
  | deleteText a =>
      simp only [OperationAction.remap, OperationAction.referencedClientIds]
      rw [exists_ok_bind]
      constructor
      · rintro ⟨o, ho, h⟩
        rw [exists_ok_bind] at h
        obtain ⟨lf, hlf, h⟩ := h
        rw [exists_ok_bind] at h
        obtain ⟨rt, hrt, _⟩ := h
        intro c hc
        rcases List.mem_append.mp hc with hc | hc
        · exact (objRef_remap_ok m a.object).mp ⟨o, ho⟩ c hc
        · rcases List.mem_cons.mp hc with hc | hc
          · rw [hc]
            exact (sequenceBlockId_remap_ok m a.left).mp ⟨lf, hlf⟩
          · rw [List.mem_singleton.mp hc]
            exact (sequenceBlockId_remap_ok m a.right).mp ⟨rt, hrt⟩
      · intro h
        obtain ⟨o, ho⟩ := (objRef_remap_ok m a.object).mpr (fun c hc =>
          h c (List.mem_append.mpr (Or.inl hc)))
        obtain ⟨lf, hlf⟩ := (sequenceBlockId_remap_ok m a.left).mpr
          (h a.left.client_id (List.mem_append.mpr (Or.inr (List.mem_cons_self _ _))))
        obtain ⟨rt, hrt⟩ := (sequenceBlockId_remap_ok m a.right).mpr
          (h a.right.client_id (List.mem_append.mpr (Or.inr
            (List.mem_cons_of_mem _ (List.mem_singleton.mpr rfl)))))
        refine ⟨o, ho, OperationAction.deleteText { a with object := o, left := lf, right := rt }, ?_⟩
        simp only [ho, hlf, hrt]
        rfl

theorem operation_remap_ok (m : List (Nat × Nat)) (op : Operation) :
    (∃ y, Operation.remap m op = Except.ok y) ↔
      ∀ c ∈ op.referencedClientIds, alistContains c m = true := by
  obtain ⟨id, parent, action, ts⟩ := op
  cases parent with
  | none =>
      simp only [Operation.remap, Operation.referencedClientIds]
      rw [exists_ok_bind]
      constructor
      · rintro ⟨c0, hc0, h⟩
        rw [exists_ok_bind] at h
        obtain ⟨pr, hpr, h⟩ := h
        rw [exists_ok_bind] at h
        obtain ⟨act, hact, _⟩ := h
        intro c hc
        rcases List.mem_cons.mp hc with hc | hc
        · rw [hc]
          exact (remapClient_ok m id.client_id).mp ⟨c0, hc0⟩
        · rcases List.mem_append.mp hc with hc | hc
          · exact absurd hc (List.not_mem_nil c)
          · exact (action_remap_ok m action).mp ⟨act, hact⟩ c hc
      · intro h
        obtain ⟨c0, hc0⟩ := (remapClient_ok m id.client_id).mpr
          (h id.client_id (List.mem_cons_self _ _))
        obtain ⟨act, hact⟩ := (action_remap_ok m action).mpr (fun c hc =>
          h c (List.mem_cons_of_mem _ (List.mem_append.mpr (Or.inr hc))))
        refine ⟨c0, hc0, ⟨{ id with client_id := c0 }, none, act, ts⟩, ?_⟩
        simp only [hact]
        rfl
  | some p =>
      simp only [Operation.remap, Operation.referencedClientIds]
      rw [exists_ok_bind]
      constructor
      · rintro ⟨c0, hc0, h⟩
        rw [exists_ok_bind] at h
        obtain ⟨pc, hpc, h⟩ := h
        rw [exists_ok_bind] at h
        obtain ⟨pr, hpr, h⟩ := h
        rw [exists_ok_bind] at h
        obtain ⟨act, hact, _⟩ := h
        intro c hc
        rcases List.mem_cons.mp hc with hc | hc
        · rw [hc]
          exact (remapClient_ok m id.client_id).mp ⟨c0, hc0⟩
        · rcases List.mem_append.mp hc with hc | hc
          · rw [List.mem_singleton.mp hc]
            exact (remapClient_ok m p.client_id).mp ⟨pc, hpc⟩
          · exact (action_remap_ok m action).mp ⟨act, hact⟩ c hc
      · intro h
        obtain ⟨c0, hc0⟩ := (remapClient_ok m id.client_id).mpr
          (h id.client_id (List.mem_cons_self _ _))
        obtain ⟨pc, hpc⟩ := (remapClient_ok m p.client_id).mpr
          (h p.client_id (List.mem_cons_of_mem _ (List.mem_append.mpr
            (Or.inl (List.mem_singleton.mpr rfl)))))
        obtain ⟨act, hact⟩ := (action_remap_ok m action).mpr (fun c hc =>
          h c (List.mem_cons_of_mem _ (List.mem_append.mpr (Or.inr hc))))
        refine ⟨c0, hc0, ⟨{ id with client_id := c0 }, some { p with client_id := pc }, act, ts⟩, ?_⟩
        simp only [hpc, hact]
        rfl

theorem remapClient_bind_pure_ok {γ : Type} (m : List (Nat × Nat)) (c : Nat) (f : Nat → γ) :
    (∃ y, (remapClient m c >>= fun n => pure (f n)) = Except.ok y) ↔
      alistContains c m = true := by
  unfold remapClient alistContains
  cases h : alistLookup c m with
  | none => simp [h, Bind.bind, Except.bind]
  | some v =>
      simp only [h, Bind.bind, Except.bind]
      exact ⟨fun _ => rfl, fun _ => ⟨f v, rfl⟩⟩

theorem remap_client_ids_ok (log : OperationLog) (m : List (Nat × Nat)) :
    (∃ L', log.remap_client_ids m = Except.ok L') ↔
      (alistContains log.local_client m = true ∧
        ∀ c ∈ log.recordedClientIds, alistContains c m = true) := by
  have hsub1 : ∀ c, c ∈ log.operations.flatMap Operation.referencedClientIds →
      c ∈ log.recordedClientIds := fun c hc =>
    List.mem_append.mpr (Or.inl (List.mem_append.mpr (Or.inl (List.mem_append.mpr (Or.inl hc)))))
  have hsub2 : ∀ c, c ∈ log.client_sequences.map (·.1) → c ∈ log.recordedClientIds :=
    fun c hc =>
    List.mem_append.mpr (Or.inl (List.mem_append.mpr (Or.inl (List.mem_append.mpr (Or.inr hc)))))
  have hsub3 : ∀ c, c ∈ log.id_to_index.map (·.1.client_id) → c ∈ log.recordedClientIds :=
    fun c hc => List.mem_append.mpr (Or.inl (List.mem_append.mpr (Or.inr hc)))
  have hsub4 : ∀ c, c ∈ log.orphans.map (·.1.client_id) → c ∈ log.recordedClientIds :=
    fun c hc => List.mem_append.mpr (Or.inr hc)
  unfold OperationLog.remap_client_ids
  constructor
  · intro h
    cases hq : alistLookup log.local_client m with
    | none =>
        simp only [hq] at h
        obtain ⟨L', hL⟩ := h
        exact absurd hL (by simp)
    | some lc =>
    simp only [hq] at h
    have hl : alistContains log.local_client m = true := by
      unfold alistContains
      rw [hq]
      rfl
    rw [exists_ok_bind] at h
    obtain ⟨ops', hops, h⟩ := h
    try simp only [] at h
    rw [exists_ok_bind] at h
    obtain ⟨seqs', hseqs, h⟩ := h
    try simp only [] at h
    rw [exists_ok_bind] at h
    obtain ⟨idxs', hidx, h⟩ := h
    try simp only [] at h
    rw [exists_ok_bind] at h
    obtain ⟨orphs', horph, _⟩ := h
    refine ⟨hl, ?_⟩
    intro c hc
    rcases List.mem_append.mp hc with hc | hc4
    · rcases List.mem_append.mp hc with hc | hc3
      · rcases List.mem_append.mp hc with hc1 | hc2
        · obtain ⟨op, hop, hcin⟩ := List.mem_flatMap.mp hc1
          exact (operation_remap_ok m op).mp
            ((mapM_ok (Operation.remap m) log.operations).mp ⟨ops', hops⟩ op hop) c hcin
        · obtain ⟨cs, hcs, hceq⟩ := List.mem_map.mp hc2
          have h1 := (mapM_ok _ log.client_sequences).mp ⟨seqs', hseqs⟩ cs hcs
          have h2 := (remapClient_bind_pure_ok m cs.1 (fun n => (n, cs.2))).mp h1
          rw [← hceq]
          exact h2
      · obtain ⟨e, he, heq⟩ := List.mem_map.mp hc3
        have h1 := (mapM_ok _ log.id_to_index).mp ⟨idxs', hidx⟩ e he
        have h2 := (remapClient_bind_pure_ok m e.1.client_id
          (fun n => ((⟨n, e.1.sequence⟩ : OperationId), e.2))).mp h1
        rw [← heq]
        exact h2
    · obtain ⟨e, he, heq⟩ := List.mem_map.mp hc4
      have h1 := (mapM_ok _ log.orphans).mp ⟨orphs', horph⟩ e he
      have h2 := (remapClient_bind_pure_ok m e.1.client_id
        (fun n => ((⟨n, e.1.sequence⟩ : OperationId), e.2))).mp h1
      rw [← heq]
      exact h2
  · rintro ⟨hl, hrec⟩
    obtain ⟨lcv, hlcv⟩ : ∃ v, alistLookup log.local_client m = some v :=
      Option.isSome_iff_exists.mp hl
    obtain ⟨ops', hops⟩ := (mapM_ok (Operation.remap m) log.operations).mpr (fun op hop =>
      (operation_remap_ok m op).mpr (fun c hc =>
        hrec c (hsub1 c (List.mem_flatMap.mpr ⟨op, hop, hc⟩))))
    obtain ⟨seqs', hseqs⟩ :=
      (mapM_ok (fun cs => remapClient m cs.1 >>= fun c => pure (c, cs.2))
        log.client_sequences).mpr (fun cs hcs =>
      (remapClient_bind_pure_ok m cs.1 (fun n => (n, cs.2))).mpr
        (hrec cs.1 (hsub2 cs.1 (List.mem_map.mpr ⟨cs, hcs, rfl⟩))))
    obtain ⟨idxs', hidx⟩ :=
      (mapM_ok (fun e => remapClient m e.1.client_id >>= fun c =>
        pure ((⟨c, e.1.sequence⟩ : OperationId), e.2)) log.id_to_index).mpr (fun e he =>
      (remapClient_bind_pure_ok m e.1.client_id
        (fun n => ((⟨n, e.1.sequence⟩ : OperationId), e.2))).mpr
        (hrec e.1.client_id (hsub3 e.1.client_id (List.mem_map.mpr ⟨e, he, rfl⟩))))
    obtain ⟨orphs', horph⟩ :=
      (mapM_ok (fun e => remapClient m e.1.client_id >>= fun c =>
        pure ((⟨c, e.1.sequence⟩ : OperationId), e.2)) log.orphans).mpr (fun e he =>
      (remapClient_bind_pure_ok m e.1.client_id
        (fun n => ((⟨n, e.1.sequence⟩ : OperationId), e.2))).mpr
        (hrec e.1.client_id (hsub4 e.1.client_id (List.mem_map.mpr ⟨e, he, rfl⟩))))
    refine ⟨⟨lcv, ops', seqs'.foldl (fun acc cs => alistInsert cs.1 cs.2 acc) [],
        idxs'.foldl (fun acc e => alistInsert e.1 e.2 acc) [], log.roots, log.last,
        orphs'.foldl (fun acc e => alistInsert e.1 e.2 acc) []⟩, ?_⟩
    rw [hlcv]
    simp only [hops, hseqs, hidx, horph]
    rfl

theorem build_remappings_foldl_none (new_clients : List GlobalClient) (i : Nat) :
    ∀ (l : List (Nat × GlobalClient)) (acc : List (Nat × Nat)),
      (∀ e ∈ l, e.1 = i → globalToLocal new_clients e.2.global_id = some i) →
      alistLookup i acc = none →
      alistLookup i (l.foldl (fun remappings e =>
        match globalToLocal new_clients e.2.global_id with
        | some newLocal =>
            if e.1 = newLocal then remappings else alistInsert e.1 newLocal remappings
        | none => remappings) acc) = none := by
  intro l
  induction l with
  | nil =>
      intro acc _ hacc
      exact hacc
  | cons e t ih =>
      intro acc hskip hacc
      simp only [List.foldl_cons]
      refine ih _ (fun x hx => hskip x (List.mem_cons_of_mem e hx)) ?_
      cases hgl : globalToLocal new_clients e.2.global_id with
      | none =>
          exact hacc
      | some newLocal =>
          show alistLookup i (if e.1 = newLocal then acc else alistInsert e.1 newLocal acc) = none
          by_cases hen : e.1 = newLocal
          · rw [if_pos hen]
            exact hacc
          · rw [if_neg hen]
            have hei : e.1 ≠ i := by
              intro hei
              have hsome := hskip e (List.mem_cons_self e t) hei
              rw [hgl] at hsome
              injection hsome with hsome
              exact hen (by rw [hei, hsome])
            rw [alistLookup_alistInsert_ne e.1 i newLocal acc (Ne.symm hei)]
            exact hacc

theorem build_remappings_skips_unmoved (clients new_clients : List GlobalClient) (i : Nat)
    (g : GlobalClient) (hg : clients[i]? = some g)
    (hpos : globalToLocal new_clients g.global_id = some i) :
    alistLookup i (ClientRegistry.build_remappings clients new_clients) = none := by
  unfold ClientRegistry.build_remappings
  refine build_remappings_foldl_none new_clients i clients.enum [] ?_ rfl
  intro e he hei
  have hgetq : clients[e.1]? = some e.2 := List.mem_enum_iff_getElem?.mp he
  rw [hei] at hgetq
  rw [hg] at hgetq
  injection hgetq with hgetq
  rw [← hgetq]
  exact hpos

theorem register_clients_some (reg : ClientRegistry) (peers : List GlobalClient)
    (regQ : ClientRegistry) (m : List (Nat × Nat))
    (h : reg.register_clients peers = (regQ, some m)) :
    m = ClientRegistry.build_remappings reg.clients regQ.clients ∧
      regQ.clients = ClientRegistry.merge_clients reg.clients peers := by
  unfold ClientRegistry.register_clients at h
  split at h
  · injection h with h1 h2
    exact Option.noConfusion h2
  · simp only [] at h
    split at h
    · injection h with h1 h2
      injection h2 with h2
      constructor
      · rw [← h2, ← h1]
      · rw [← h1]
    · injection h with h1 h2
      exact Option.noConfusion h2

/-! ## Claim C9: remapping requires complete mappings -/

/-- **C9.** `OperationLog::remap_client_ids(mappings)` succeeds exactly when
`mappings` binds the log's own local client id and every client id the log
records (each stored operation's referenced ids, the client-sequence keys,
the id-to-index keys and the orphan keys); a missing binding is a panic
(`.expect`, rendered as `Except.error`).  Consequently, when registering a
peer's clients yields a remapping (`register_clients` returns `some`) and
the merging replica's own local id kept its position — `build_remappings`
skips unmoved ids, so the replica's id is absent from the mappings — the
merge's `remap_client_ids` call panics with "local client ID not found"
instead of completing. -/
theorem c9_remap_panics_without_complete_mappings (log : OperationLog)
    (m : List (Nat × Nat)) (reg : ClientRegistry) (peers : List GlobalClient) :
    ((∃ L', log.remap_client_ids m = Except.ok L') ↔
      (alistContains log.local_client m = true ∧
        ∀ c ∈ log.recordedClientIds, alistContains c m = true)) ∧
    (∀ (regQ : ClientRegistry) (mQ : List (Nat × Nat)) (g : GlobalClient),
      reg.register_clients peers = (regQ, some mQ) →
      reg.clients[log.local_client]? = some g →
      globalToLocal regQ.clients g.global_id = some log.local_client →
      log.remap_client_ids mQ = Except.error "local client ID not found") := by
  refine ⟨remap_client_ids_ok log m, ?_⟩
  intro regQ mQ g hreg hgq hpos
  obtain ⟨hm, _⟩ := register_clients_some reg peers regQ mQ hreg
  have hnone : alistLookup log.local_client mQ = none := by
    rw [hm]
    exact build_remappings_skips_unmoved reg.clients regQ.clients log.local_client g hgq hpos
  unfold OperationLog.remap_client_ids
  rw [hnone]

theorem c9_witness :
    (OperationLog.new 0).remap_client_ids [(1, 2)]
      = Except.error "local client ID not found" := by
  have h := c9_remap_panics_without_complete_mappings (OperationLog.new 0) [(1, 2)]
    ⟨[⟨0, "a"⟩, ⟨5, "m"⟩], "a", 0⟩ [⟨2, "b"⟩]
  exact h.2 ⟨[⟨0, "a"⟩, ⟨2, "b"⟩, ⟨5, "m"⟩], "a", 0⟩ [(1, 2)] ⟨0, "a"⟩
    (by rfl) (by rfl) (by rfl)

/-! ## Claim C5: commutativity of client registration -/

theorem cmpGC_lt_iff (a b : GlobalClient) :
    cmpGlobalClients a b = Ordering.lt ↔
      (a.created_at < b.created_at ∨
        (a.created_at = b.created_at ∧ a.global_id < b.global_id)) := by
  unfold cmpGlobalClients cmpString cmpNat
  split_ifs with h1 h2 h3 h4
  · constructor
    · intro h
      exact absurd h (by decide)
    · rintro (h | ⟨-, h⟩)
      · exact absurd h (by omega)
      · rw [h2] at h
        exact absurd h (lt_irrefl _)
  · constructor
    · intro _
      exact Or.inr ⟨h1, h3⟩
    · intro _
      rfl
  · constructor
    · intro h
      exact absurd h (by decide)
    · rintro (h | ⟨-, h⟩)
      · exact absurd h (by omega)
      · exact absurd h h3
  · constructor
    · intro _
      exact Or.inl h4
    · intro _
      rfl
  · constructor
    · intro h
      exact absurd h (by decide)
    · rintro (h | ⟨h, -⟩)
      · exact absurd h h4
      · exact absurd h h1

theorem cmpGC_gt_iff (a b : GlobalClient) :
    cmpGlobalClients a b = Ordering.gt ↔
      (b.created_at < a.created_at ∨
        (a.created_at = b.created_at ∧ b.global_id < a.global_id)) := by
  unfold cmpGlobalClients cmpString cmpNat
  split_ifs with h1 h2 h3 h4
  · constructor
    · intro h
      exact absurd h (by decide)
    · rintro (h | ⟨-, h⟩)
      · exact absurd h (by omega)
      · rw [h2] at h
        exact absurd h (lt_irrefl _)
  · constructor
    · intro h
      exact absurd h (by decide)
    · rintro (h | ⟨-, h⟩)
      · exact absurd h (by omega)
      · exact absurd (lt_trans h h3) (lt_irrefl _)
  · constructor
    · intro _
      rcases lt_trichotomy a.global_id b.global_id with h | h | h
      · exact absurd h h3
      · exact absurd h h2
      · exact Or.inr ⟨h1, h⟩
    · intro _
      rfl
  · constructor
    · intro h
      exact absurd h (by decide)
    · rintro (h | ⟨h, -⟩)
      · exact absurd h (by omega)
      · exact absurd h h1
  · constructor
    · intro _
      have : b.created_at < a.created_at := by omega
      exact Or.inl this
    · intro _
      rfl

theorem cmpGC_eq_iff (a b : GlobalClient) :
    cmpGlobalClients a b = Ordering.eq ↔ a = b := by
  unfold cmpGlobalClients cmpString cmpNat
  split_ifs with h1 h2 h3 h4
  · constructor
    · intro _
      cases a
      cases b
      simp only [] at h1 h2
      rw [h1, h2]
    · intro _
      rfl
  · constructor
    · intro h
      exact absurd h (by decide)
    · intro h
      rw [h] at h2
      exact absurd rfl h2
  · constructor
    · intro h
      exact absurd h (by decide)
    · intro h
      rw [h] at h2
      exact absurd rfl h2
  · constructor
    · intro h
      exact absurd h (by decide)
    · intro h
      rw [h] at h1
      exact absurd rfl h1
  · constructor
    · intro h
      exact absurd h (by decide)
    · intro h
      rw [h] at h1
      exact absurd rfl h1

theorem cmpGC_le_total (a b : GlobalClient) :
    cmpGlobalClients a b ≠ Ordering.gt ∨ cmpGlobalClients b a ≠ Ordering.gt := by
  by_cases h : cmpGlobalClients a b = Ordering.gt
  · refine Or.inr ?_
    intro h2
    rcases (cmpGC_gt_iff a b).mp h with h | ⟨he, hs⟩
    · rcases (cmpGC_gt_iff b a).mp h2 with h2 | ⟨h2e, -⟩
      · omega
      · omega
    · rcases (cmpGC_gt_iff b a).mp h2 with h2 | ⟨-, h2s⟩
      · omega
      · exact absurd h2s (not_lt.mpr (le_of_lt hs))
  · exact Or.inl h

theorem cmpGC_le_trans (a b c : GlobalClient)
    (hab : cmpGlobalClients a b ≠ Ordering.gt)
    (hbc : cmpGlobalClients b c ≠ Ordering.gt) :
    cmpGlobalClients a c ≠ Ordering.gt := by
  intro hac
  rcases (cmpGC_gt_iff a c).mp hac with h | ⟨he, hs⟩
  · rcases Nat.lt_or_ge a.created_at b.created_at with h1 | h1
    · rcases Nat.lt_or_ge b.created_at c.created_at with h2 | h2
      · omega
      · exact hbc ((cmpGC_gt_iff b c).mpr (Or.inl (by omega)))
    · rcases Nat.lt_or_ge b.created_at a.created_at with h2 | h2
      · exact hab ((cmpGC_gt_iff a b).mpr (Or.inl h2))
      · exact hbc ((cmpGC_gt_iff b c).mpr (Or.inl (by omega)))
  · rcases Nat.lt_or_ge a.created_at b.created_at with h1 | h1
    · rcases Nat.lt_or_ge b.created_at c.created_at with h2 | h2
      · omega
      · exact hbc ((cmpGC_gt_iff b c).mpr (Or.inl (by omega)))
    · rcases Nat.lt_or_ge b.created_at a.created_at with h2 | h2
      · exact hab ((cmpGC_gt_iff a b).mpr (Or.inl h2))
      · have hbe : b.created_at = a.created_at := by omega
        rcases lt_trichotomy a.global_id b.global_id with h3 | h3 | h3
        · rcases lt_trichotomy b.global_id c.global_id with h4 | h4 | h4
          · exact absurd (lt_trans h3 h4) (not_lt.mpr (le_of_lt hs))
          · rw [h4] at h3
            exact absurd h3 (not_lt.mpr (le_of_lt hs))
          · exact hbc ((cmpGC_gt_iff b c).mpr (Or.inr ⟨by omega, h4⟩))
        · rcases lt_trichotomy b.global_id c.global_id with h4 | h4 | h4
          · rw [← h3] at h4
            exact absurd h4 (not_lt.mpr (le_of_lt hs))
          · rw [h3, h4] at hs
            exact absurd hs (lt_irrefl _)
          · exact hbc ((cmpGC_gt_iff b c).mpr (Or.inr ⟨by omega, h4⟩))
        · exact hab ((cmpGC_gt_iff a b).mpr (Or.inr ⟨by omega, h3⟩))

theorem cmpGC_lt_antisymm (a b : GlobalClient)
    (h1 : cmpGlobalClients a b = Ordering.lt)
    (h2 : cmpGlobalClients b a = Ordering.lt) : a = b := by
  exfalso
  rcases (cmpGC_lt_iff a b).mp h1 with h | ⟨he, hs⟩
  · rcases (cmpGC_lt_iff b a).mp h2 with h2 | ⟨h2e, -⟩
    · omega
    · omega
  · rcases (cmpGC_lt_iff b a).mp h2 with h2 | ⟨-, h2s⟩
    · omega
    · exact absurd h2s (not_lt.mpr (le_of_lt hs))

theorem cmpGC_lt_of_le_of_ne (a b : GlobalClient)
    (hle : cmpGlobalClients a b ≠ Ordering.gt) (hne : a ≠ b) :
    cmpGlobalClients a b = Ordering.lt := by
  cases h : cmpGlobalClients a b with
  | lt => rfl
  | eq => exact absurd ((cmpGC_eq_iff a b).mp h) hne
  | gt => exact absurd h hle

theorem dedupClients_sublist : ∀ (l : List GlobalClient) (visited : List String),
    (dedupClients l visited).Sublist l := by
  intro l
  induction l with
  | nil =>
      intro visited
      exact List.Sublist.refl []
  | cons c t ih =>
      intro visited
      unfold dedupClients
      by_cases hv : c.global_id ∈ visited
      · rw [if_pos hv]
        exact List.Sublist.cons c (ih visited)
      · rw [if_neg hv]
        exact List.Sublist.cons₂ c (ih (c.global_id :: visited))

theorem dedupClients_mem : ∀ (l : List GlobalClient) (visited : List String),
    (∀ a ∈ l, ∀ b ∈ l, a.global_id = b.global_id → a = b) →
    ∀ x, x ∈ dedupClients l visited ↔ (x ∈ l ∧ x.global_id ∉ visited) := by
  intro l
  induction l with
  | nil =>
      intro visited _ x
      constructor
      · intro h
        exact absurd h (List.not_mem_nil x)
      · rintro ⟨h, -⟩
        exact absurd h (List.not_mem_nil x)
  | cons c t ih =>
      intro visited huniq x
      have huniq' : ∀ a ∈ t, ∀ b ∈ t, a.global_id = b.global_id → a = b :=
        fun a ha b hb => huniq a (List.mem_cons_of_mem c ha) b (List.mem_cons_of_mem c hb)
      unfold dedupClients
      by_cases hv : c.global_id ∈ visited
      · rw [if_pos hv]
        rw [ih visited huniq' x]
        constructor
        · rintro ⟨hx, hnv⟩
          exact ⟨List.mem_cons_of_mem c hx, hnv⟩
        · rintro ⟨hx, hnv⟩
          rcases List.mem_cons.mp hx with hx | hx
          · exact absurd (hx ▸ hv) hnv
          · exact ⟨hx, hnv⟩
      · rw [if_neg hv]
        constructor
        · intro h
          rcases List.mem_cons.mp h with hx | hx
          · exact ⟨hx ▸ List.mem_cons_self c t, hx ▸ hv⟩
          · obtain ⟨hxt, hnv⟩ := (ih _ huniq' x).mp hx
            exact ⟨List.mem_cons_of_mem c hxt,
              fun hh => hnv (List.mem_cons_of_mem _ hh)⟩
        · rintro ⟨hx, hnv⟩
          rcases List.mem_cons.mp hx with hx | hx
          · exact hx ▸ List.mem_cons_self c _
          · by_cases hgc : x.global_id = c.global_id
            · have hxc : x = c := huniq x (List.mem_cons_of_mem c hx) c
                (List.mem_cons_self c t) hgc
              exact hxc ▸ List.mem_cons_self c _
            · refine List.mem_cons_of_mem c ((ih _ huniq' x).mpr ⟨hx, ?_⟩)
              intro hh
              rcases List.mem_cons.mp hh with hh | hh
              · exact hgc hh
              · exact hnv hh

theorem dedupClients_not_visited : ∀ (l : List GlobalClient) (visited : List String),
    ∀ x ∈ dedupClients l visited, x.global_id ∉ visited := by
  intro l
  induction l with
  | nil =>
      intro visited x hx
      exact absurd hx (List.not_mem_nil x)
  | cons c t ih =>
      intro visited x hx
      unfold dedupClients at hx
      by_cases hv : c.global_id ∈ visited
      · rw [if_pos hv] at hx
        exact ih visited x hx
      · rw [if_neg hv] at hx
        rcases List.mem_cons.mp hx with hx | hx
        · rw [hx]
          exact hv
        · intro hh
          exact ih _ x hx (List.mem_cons_of_mem _ hh)

theorem dedupClients_pairwise_ne : ∀ (l : List GlobalClient) (visited : List String),
    (dedupClients l visited).Pairwise (fun a b => a.global_id ≠ b.global_id) := by
  intro l
  induction l with
  | nil =>
      intro visited
      unfold dedupClients
      exact List.Pairwise.nil
  | cons c t ih =>
      intro visited
      unfold dedupClients
      by_cases hv : c.global_id ∈ visited
      · rw [if_pos hv]
        exact ih visited
      · rw [if_neg hv]
        refine List.Pairwise.cons ?_ (ih _)
        intro x hx
        have := dedupClients_not_visited t (c.global_id :: visited) x hx
        intro hh
        exact this (hh ▸ List.mem_cons_self _ _)

theorem merge_clients_sorted (a b : List GlobalClient) :
    (ClientRegistry.merge_clients a b).Pairwise
      (fun x y => cmpGlobalClients x y = Ordering.lt) := by
  unfold ClientRegistry.merge_clients sortBy
  haveI : IsTotal GlobalClient (fun x y => cmpGlobalClients x y ≠ Ordering.gt) :=
    ⟨cmpGC_le_total⟩
  haveI : IsTrans GlobalClient (fun x y => cmpGlobalClients x y ≠ Ordering.gt) :=
    ⟨cmpGC_le_trans⟩
  have hsorted := List.sorted_insertionSort
    (fun x y => cmpGlobalClients x y ≠ Ordering.gt) (a ++ b)
  have hle := List.Pairwise.sublist (dedupClients_sublist _ []) hsorted
  have hne := dedupClients_pairwise_ne
    (List.insertionSort (fun x y => cmpGlobalClients x y ≠ Ordering.gt) (a ++ b)) []
  refine (List.Pairwise.and hle hne).imp ?_
  rintro x y ⟨h1, h2⟩
  refine cmpGC_lt_of_le_of_ne x y h1 ?_
  intro hh
  exact h2 (hh ▸ rfl)

theorem merge_clients_mem (a b : List GlobalClient)
    (huniq : ∀ x ∈ a ++ b, ∀ y ∈ a ++ b, x.global_id = y.global_id → x = y) :
    ∀ x, x ∈ ClientRegistry.merge_clients a b ↔ (x ∈ a ∨ x ∈ b) := by
  intro x
  unfold ClientRegistry.merge_clients sortBy
  have hperm := List.perm_insertionSort
    (fun x y => cmpGlobalClients x y ≠ Ordering.gt) (a ++ b)
  have huniq' : ∀ p ∈ List.insertionSort (fun x y => cmpGlobalClients x y ≠ Ordering.gt)
      (a ++ b), ∀ q ∈ List.insertionSort (fun x y => cmpGlobalClients x y ≠ Ordering.gt)
      (a ++ b), p.global_id = q.global_id → p = q :=
    fun p hp q hq => huniq p (hperm.mem_iff.mp hp) q (hperm.mem_iff.mp hq)
  rw [dedupClients_mem _ [] huniq' x]
  constructor
  · rintro ⟨hx, -⟩
    exact List.mem_append.mp (hperm.mem_iff.mp hx)
  · intro h
    exact ⟨hperm.mem_iff.mpr (List.mem_append.mpr h), List.not_mem_nil _⟩

theorem globalToLocal_foldl_isSome (g : String) :
    ∀ (l : List (Nat × GlobalClient)) (acc : Option Nat),
      ((l.foldl (fun acc e => if e.2.global_id = g then some e.1 else acc) acc).isSome
          = true) ↔
        (acc.isSome = true ∨ ∃ y ∈ l, y.2.global_id = g) := by
  intro l
  induction l with
  | nil =>
      intro acc
      constructor
      · intro h
        exact Or.inl h
      · rintro (h | ⟨y, hy, -⟩)
        · exact h
        · exact absurd hy (List.not_mem_nil y)
  | cons e t ih =>
      intro acc
      rw [List.foldl_cons, ih]
      by_cases hg : e.2.global_id = g
      · rw [if_pos hg]
        constructor
        · intro _
          exact Or.inr ⟨e, List.mem_cons_self e t, hg⟩
        · intro _
          exact Or.inl rfl
      · rw [if_neg hg]
        constructor
        · rintro (h | ⟨y, hy, hyg⟩)
          · exact Or.inl h
          · exact Or.inr ⟨y, List.mem_cons_of_mem e hy, hyg⟩
        · rintro (h | ⟨y, hy, hyg⟩)
          · exact Or.inl h
          · rcases List.mem_cons.mp hy with hy | hy
            · exact absurd (hy ▸ hyg) hg
            · exact Or.inr ⟨y, hy, hyg⟩

theorem globalToLocal_isSome_iff (clients : List GlobalClient) (g : String) :
    (globalToLocal clients g).isSome = true ↔ ∃ y ∈ clients, y.global_id = g := by
  unfold globalToLocal
  rw [globalToLocal_foldl_isSome]
  constructor
  · rintro (h | ⟨y, hy, hyg⟩)
    · exact absurd h (by simp)
    · exact ⟨y.2, List.mem_iff_getElem?.mpr ⟨y.1, List.mem_enum_iff_getElem?.mp hy⟩, hyg⟩
  · rintro ⟨y, hy, hyg⟩
    obtain ⟨i, hi⟩ := List.mem_iff_getElem?.mp hy
    exact Or.inr ⟨(i, y), List.mem_enum_iff_getElem?.mpr hi, hyg⟩

theorem register_clients_mem (reg : ClientRegistry) (X : List GlobalClient)
    (f : String → Nat)
    (hcons : ∀ c ∈ reg.clients ++ X, c.created_at = f c.global_id) :
    ∀ x, x ∈ (reg.register_clients X).1.clients ↔ (x ∈ reg.clients ∨ x ∈ X) := by
  have hu : ∀ p ∈ reg.clients ++ X, ∀ q ∈ reg.clients ++ X,
      p.global_id = q.global_id → p = q := by
    intro p hp q hq hg
    have hpc := hcons p hp
    have hqc := hcons q hq
    cases p
    cases q
    simp only [] at hpc hqc hg ⊢
    rw [hg] at hpc
    rw [hpc, hqc, hg]
  intro x
  unfold ClientRegistry.register_clients
  split
  · rename_i hskip
    show x ∈ reg.clients ↔ _
    constructor
    · exact Or.inl
    · rintro (h | h)
      · exact h
      · have hf : reg.has_unknown_clients X = false := by
          cases hb : reg.has_unknown_clients X
          · rfl
          · rw [hb] at hskip
            exact absurd hskip (by decide)
        have hsome : (globalToLocal reg.clients x.global_id).isSome = true := by
          unfold ClientRegistry.has_unknown_clients at hf
          have hall := List.any_eq_false.mp hf x h
          cases ho : globalToLocal reg.clients x.global_id
          · exact absurd (by rw [ho]; rfl) hall
          · rfl
        obtain ⟨y, hy, hyg⟩ := (globalToLocal_isSome_iff _ _).mp hsome
        have hyx : y = x := hu y (List.mem_append.mpr (Or.inl hy)) x
          (List.mem_append.mpr (Or.inr h)) hyg
        exact hyx ▸ hy
  · show x ∈ ClientRegistry.merge_clients reg.clients X ↔ _
    exact merge_clients_mem reg.clients X hu x

theorem register_clients_sorted (reg : ClientRegistry) (X : List GlobalClient)
    (hsorted : reg.clients.Pairwise (fun x y => cmpGlobalClients x y = Ordering.lt)) :
    (reg.register_clients X).1.clients.Pairwise
      (fun x y => cmpGlobalClients x y = Ordering.lt) := by
  unfold ClientRegistry.register_clients
  split
  · exact hsorted
  · show (ClientRegistry.merge_clients reg.clients X).Pairwise _
    exact merge_clients_sorted reg.clients X

/-- **C5 (amended).** Client registration commutes when the replicas agree
on each global id's creation timestamp (one `created_at` per global id,
here a function `f`) and the starting registry is strictly sorted by the
merge comparator: registering A then B and B then A produce the same
ordered client list, hence the same local id for every global id.  The
unrestricted claim is refuted by `c5_counterexample`. -/
theorem c5_register_clients_commute (reg : ClientRegistry) (A B : List GlobalClient)
    (f : String → Nat)
    (hsorted : reg.clients.Pairwise (fun x y => cmpGlobalClients x y = Ordering.lt))
    (hcons : ∀ c ∈ reg.clients ++ A ++ B, c.created_at = f c.global_id) :
    ((reg.register_clients A).1.register_clients B).1.clients
      = ((reg.register_clients B).1.register_clients A).1.clients ∧
    ∀ g, globalToLocal ((reg.register_clients A).1.register_clients B).1.clients g
      = globalToLocal ((reg.register_clients B).1.register_clients A).1.clients g := by
  have hconsR : ∀ c ∈ reg.clients, c.created_at = f c.global_id := fun c hc =>
    hcons c (List.mem_append.mpr (Or.inl (List.mem_append.mpr (Or.inl hc))))
  have hconsA : ∀ c ∈ A, c.created_at = f c.global_id := fun c hc =>
    hcons c (List.mem_append.mpr (Or.inl (List.mem_append.mpr (Or.inr hc))))
  have hconsB : ∀ c ∈ B, c.created_at = f c.global_id := fun c hc =>
    hcons c (List.mem_append.mpr (Or.inr hc))
  have hconsRA : ∀ c ∈ reg.clients ++ A, c.created_at = f c.global_id :=
    List.forall_mem_append.mpr ⟨hconsR, hconsA⟩
  have hconsRB : ∀ c ∈ reg.clients ++ B, c.created_at = f c.global_id :=
    List.forall_mem_append.mpr ⟨hconsR, hconsB⟩
  have hm1 := register_clients_mem reg A f hconsRA
  have hm2 := register_clients_mem reg B f hconsRB
  have hcons1 : ∀ c ∈ (reg.register_clients A).1.clients ++ B,
      c.created_at = f c.global_id := by
    refine List.forall_mem_append.mpr ⟨?_, hconsB⟩
    intro c hc
    rcases (hm1 c).mp hc with h | h
    · exact hconsR c h
    · exact hconsA c h
  have hcons2 : ∀ c ∈ (reg.register_clients B).1.clients ++ A,
      c.created_at = f c.global_id := by
    refine List.forall_mem_append.mpr ⟨?_, hconsA⟩
    intro c hc
    rcases (hm2 c).mp hc with h | h
    · exact hconsR c h
    · exact hconsB c h
  have hmem1 := register_clients_mem (reg.register_clients A).1 B f hcons1
  have hmem2 := register_clients_mem (reg.register_clients B).1 A f hcons2
  have hs1 := register_clients_sorted (reg.register_clients A).1 B
    (register_clients_sorted reg A hsorted)
  have hs2 := register_clients_sorted (reg.register_clients B).1 A
    (register_clients_sorted reg B hsorted)
  have hmemiff : ∀ x, x ∈ ((reg.register_clients A).1.register_clients B).1.clients ↔
      x ∈ ((reg.register_clients B).1.register_clients A).1.clients := by
    intro x
    rw [hmem1 x, hmem2 x, hm1 x, hm2 x]
    tauto
  have hltne : ∀ {a b : GlobalClient}, cmpGlobalClients a b = Ordering.lt → a ≠ b := by
    intro a b h he
    have heq : cmpGlobalClients a b = Ordering.eq := (cmpGC_eq_iff a b).mpr he
    rw [heq] at h
    exact absurd h (by decide)
  have hnd1 : ((reg.register_clients A).1.register_clients B).1.clients.Nodup :=
    hs1.imp hltne
  have hnd2 : ((reg.register_clients B).1.register_clients A).1.clients.Nodup :=
    hs2.imp hltne
  have hperm := (List.perm_ext_iff_of_nodup hnd1 hnd2).mpr hmemiff
  haveI : IsAntisymm GlobalClient (fun x y => cmpGlobalClients x y = Ordering.lt) :=
    ⟨cmpGC_lt_antisymm⟩
  have heq := List.eq_of_perm_of_sorted hperm hs1 hs2
  exact ⟨heq, fun g => by rw [heq]⟩

/-- **C5 counterexample.** The claim states registration is commutative for
ANY two lists of global clients.  It is not: with a registry created for
"m" at timestamp 2, registering `[(5, "x")]` then `[(0, "x")]` leaves the
second list unabsorbed (its global id is already known, so the call is
skipped) and "x" gets local id 1; in the other order "x" is merged with
`created_at` 0, sorts before "m", and gets local id 0.  The final ordered
client lists differ, and so does the local-id assignment of "x". -/
theorem c5_counterexample :
    ((((ClientRegistry.new "m" 2).register_clients [⟨5, "x"⟩]).1.register_clients
        [⟨0, "x"⟩]).1.clients = [⟨2, "m"⟩, ⟨5, "x"⟩]) ∧
    ((((ClientRegistry.new "m" 2).register_clients [⟨0, "x"⟩]).1.register_clients
        [⟨5, "x"⟩]).1.clients = [⟨0, "x"⟩, ⟨2, "m"⟩]) ∧
    ([(⟨2, "m"⟩ : GlobalClient), ⟨5, "x"⟩] ≠ [(⟨0, "x"⟩ : GlobalClient), ⟨2, "m"⟩]) ∧
    globalToLocal [⟨2, "m"⟩, ⟨5, "x"⟩] "x" = some 1 ∧
    globalToLocal [⟨0, "x"⟩, ⟨2, "m"⟩] "x" = some 0 := by
  exact ⟨by rfl, by rfl, by decide, by rfl, by rfl⟩

/-- **C5 witness.** The amended commutativity theorem applied to a
registry for "m" (timestamp 2) and the singleton peer lists for "x" and
"y" with consistent timestamps. -/
theorem c5_witness :
    ((((ClientRegistry.new "m" 2).register_clients [⟨5, "x"⟩]).1.register_clients
        [⟨7, "y"⟩]).1.clients
      = (((ClientRegistry.new "m" 2).register_clients [⟨7, "y"⟩]).1.register_clients
        [⟨5, "x"⟩]).1.clients) ∧
    globalToLocal ((((ClientRegistry.new "m" 2).register_clients [⟨5, "x"⟩]).1.register_clients
        [⟨7, "y"⟩]).1.clients) "x"
      = globalToLocal ((((ClientRegistry.new "m" 2).register_clients
        [⟨7, "y"⟩]).1.register_clients [⟨5, "x"⟩]).1.clients) "x" := by
  have h := c5_register_clients_commute (ClientRegistry.new "m" 2) [⟨5, "x"⟩] [⟨7, "y"⟩]
    (fun s => if s = "m" then 2 else if s = "x" then 5 else 7)
    (by decide) (by decide)
  exact ⟨h.1, h.2 "x"⟩

/-! ## Claim C2: the order `iter_sorted` enumerates -/

theorem flatMap_congr {α β : Type} (l : List α) (f g : α → List β)
    (h : ∀ x ∈ l, f x = g x) : l.flatMap f = l.flatMap g := by
  induction l with
  | nil => rfl
  | cons a t ih =>
      rw [List.flatMap_cons, List.flatMap_cons, h a (List.mem_cons_self a t),
        ih (fun x hx => h x (List.mem_cons_of_mem a hx))]

theorem sortBy_singleton_reverse {α : Type} (cmp : α → α → Ordering) (l : List α)
    (h : l.length = 1) : (sortBy cmp l).reverse = l := by
  obtain ⟨a, rfl⟩ := List.length_eq_one.mp h
  rfl

theorem dfsDesc_fuel_stable (ops : List Operation) (ch : List (Nat × List Nat)) (N : Nat)
    (hmono : ∀ i j, j ∈ (alistLookup i ch).getD [] → i < j ∧ j < N) :
    ∀ d i, i < N → N - i = d → ∀ fuel, d ≤ fuel →
      dfsDesc ops ch fuel i = dfsDesc ops ch d i := by
  intro d
  induction d using Nat.strong_induction_on with
  | _ d ih =>
      intro i hi hd fuel hf
      obtain ⟨dq, rfl⟩ : ∃ dq, d = dq + 1 := ⟨d - 1, by omega⟩
      obtain ⟨fq, rfl⟩ : ∃ fq, fuel = fq + 1 := ⟨fuel - 1, by omega⟩
      show dfsDesc ops ch (fq + 1) i = dfsDesc ops ch (dq + 1) i
      unfold dfsDesc
      congr 1
      refine flatMap_congr _ _ _ ?_
      intro j hj
      have hjc : j ∈ (alistLookup i ch).getD [] := by
        rw [List.mem_reverse] at hj
        exact (List.perm_insertionSort _ _).mem_iff.mp hj
      obtain ⟨hij, hjN⟩ := hmono i j hjc
      have hdj : N - j < dq + 1 := by omega
      rw [ih (N - j) hdj j hjN rfl fq (by omega),
        ih (N - j) hdj j hjN rfl dq (by omega)]

theorem iterSortedAux_eq_dfsDesc (ops : List Operation) (ch : List (Nat × List Nat))
    (N : Nat)
    (hmono : ∀ i j, j ∈ (alistLookup i ch).getD [] → i < j ∧ j < N) :
    ∀ (fuel : Nat) (stack : List Nat), (∀ i ∈ stack, i < N) →
      (stack.flatMap (fun i => dfsDesc ops ch (N - i) i)).length < fuel →
      iterSortedAux ops ch fuel stack
        = stack.flatMap (fun i => dfsDesc ops ch (N - i) i) := by
  intro fuel
  induction fuel with
  | zero =>
      intro stack _ hlen
      exact absurd hlen (Nat.not_lt_zero _)
  | succ f ih =>
      intro stack hstack hlen
      cases stack with
      | nil => rfl
      | cons i rest =>
          have hiN : i < N := hstack i (List.mem_cons_self i rest)
          have hstep : iterSortedAux ops ch (f + 1) (i :: rest)
              = i :: iterSortedAux ops ch f
                  ((sortBy (compare_operations ops)
                    ((alistLookup i ch).getD [])).reverse ++ rest) := by
            show (i :: iterSortedAux ops ch f (match alistLookup i ch with
              | some cs =>
                  if cs.length = 1 then cs ++ rest
                  else (sortBy (compare_operations ops) cs).reverse ++ rest
              | none => rest)) = _
            cases hlk : alistLookup i ch with
            | none => rfl
            | some cs =>
                show (i :: iterSortedAux ops ch f
                    (if cs.length = 1 then cs ++ rest
                     else (sortBy (compare_operations ops) cs).reverse ++ rest))
                  = i :: iterSortedAux ops ch f
                      ((sortBy (compare_operations ops) cs).reverse ++ rest)
                by_cases hone : cs.length = 1
                · rw [if_pos hone, sortBy_singleton_reverse _ cs hone]
                · rw [if_neg hone]
          have hdfs : dfsDesc ops ch (N - i) i
              = i :: ((sortBy (compare_operations ops)
                  ((alistLookup i ch).getD [])).reverse).flatMap
                    (fun j => dfsDesc ops ch (N - j) j) := by
            obtain ⟨dq, hdq⟩ : ∃ dq, N - i = dq + 1 := ⟨N - i - 1, by omega⟩
            rw [hdq]
            show (i :: ((sortBy (compare_operations ops)
                ((alistLookup i ch).getD [])).reverse).flatMap (dfsDesc ops ch dq))
              = i :: ((sortBy (compare_operations ops)
                ((alistLookup i ch).getD [])).reverse).flatMap
                  (fun j => dfsDesc ops ch (N - j) j)
            congr 1
            refine flatMap_congr _ _ _ ?_
            intro j hj
            have hjc : j ∈ (alistLookup i ch).getD [] := by
              rw [List.mem_reverse] at hj
              exact (List.perm_insertionSort _ _).mem_iff.mp hj
            obtain ⟨hij, hjN⟩ := hmono i j hjc
            exact dfsDesc_fuel_stable ops ch N hmono (N - j) j hjN rfl dq (by omega)
          rw [hstep]
          rw [List.flatMap_cons, hdfs]
          have hmem2 : ∀ j ∈ (sortBy (compare_operations ops)
              ((alistLookup i ch).getD [])).reverse ++ rest, j < N := by
            intro j hj
            rcases List.mem_append.mp hj with hj | hj
            · have hjc : j ∈ (alistLookup i ch).getD [] := by
                rw [List.mem_reverse] at hj
                exact (List.perm_insertionSort _ _).mem_iff.mp hj
              exact (hmono i j hjc).2
            · exact hstack j (List.mem_cons_of_mem i hj)
          have hlen2 : (((sortBy (compare_operations ops)
              ((alistLookup i ch).getD [])).reverse ++ rest).flatMap
                (fun j => dfsDesc ops ch (N - j) j)).length < f := by
            rw [List.flatMap_append]
            rw [List.flatMap_cons, hdfs] at hlen
            simp only [List.length_append, List.length_cons] at hlen ⊢
            omega
          rw [ih _ hmem2 hlen2, List.flatMap_append]
          rfl

/-- **C2 (amended).** `iter_sorted` enumerates the operations as a
depth-first walk that visits the sorted roots GREATEST first and expands
each node's children in sorted order GREATEST first (the comparator itself
is as the claim states: by sequence on equal clients, else by client id on
equal timestamps, else by timestamp).  Formally: on a log whose children
map is monotone (every child index exceeds its parent's, as
`insert_operation` guarantees) the iterator equals the recursive descending
walk `dfsDesc` started from the reverse of the ascending-sorted roots.  The
ascending walk the spec describes is refuted by `c2_counterexample`. -/
theorem c2_iter_sorted_is_descending_dfs (log : OperationLog)
    (children : List (Nat × List Nat))
    (hch : buildChildren log.operations log.id_to_index = Except.ok children)
    (hmono : ∀ i j, j ∈ (alistLookup i children).getD [] →
      i < j ∧ j < log.operations.length)
    (hroots : ∀ i ∈ log.roots, i < log.operations.length)
    (hsize : (((sortBy (compare_operations log.operations) log.roots).reverse).flatMap
        (fun i => dfsDesc log.operations children (log.operations.length - i) i)).length
      ≤ log.operations.length) :
    log.iter_sorted = Except.ok
      ((((sortBy (compare_operations log.operations) log.roots).reverse).flatMap
        (fun i => dfsDesc log.operations children (log.operations.length - i) i)).map
          (fun i => log.operations.getD i default)) := by
  have hmem : ∀ i ∈ (sortBy (compare_operations log.operations) log.roots).reverse,
      i < log.operations.length := by
    intro i hi
    rw [List.mem_reverse] at hi
    exact hroots i ((List.perm_insertionSort _ _).mem_iff.mp hi)
  have hidx : log.iterSortedIndices = Except.ok
      (((sortBy (compare_operations log.operations) log.roots).reverse).flatMap
        (fun i => dfsDesc log.operations children (log.operations.length - i) i)) := by
    unfold OperationLog.iterSortedIndices
    rw [hch]
    show Except.ok (iterSortedAux log.operations children (log.operations.length + 1)
        ((sortBy (compare_operations log.operations) log.roots).reverse)) = _
    rw [iterSortedAux_eq_dfsDesc log.operations children log.operations.length hmono
      (log.operations.length + 1)
      ((sortBy (compare_operations log.operations) log.roots).reverse)
      hmem (by omega)]
  unfold OperationLog.iter_sorted
  rw [hidx]

/-- **C2 counterexample.** The claim describes the walk as expanding from
the SORTED roots in sorted (ascending) order.  The iterator instead pushes
the sorted items onto a LIFO stack and pops from the back, so the GREATEST
element surfaces first.  With two root operations at timestamps 5 and 9,
`iter_sorted` emits the timestamp-9 operation first, while the ascending
walk the spec describes (`specSortedDfs`) emits the timestamp-5 operation
first. -/
theorem c2_counterexample :
    ((OperationLog.load 0
      [⟨⟨0, 1⟩, none, .setMapValue { object := .root, selector := .key "k", id := ⟨0, 0⟩, parents := [], value := .scalar (.bool true) }, 5⟩,
       ⟨⟨1, 1⟩, none, .setMapValue { object := .root, selector := .key "k", id := ⟨1, 0⟩, parents := [], value := .scalar (.bool false) }, 9⟩]).bind
      (fun l => l.iter_sorted.map (fun ops => ops.map (·.id)))
      = Except.ok [⟨1, 1⟩, ⟨0, 1⟩]) ∧
    ((OperationLog.load 0
      [⟨⟨0, 1⟩, none, .setMapValue { object := .root, selector := .key "k", id := ⟨0, 0⟩, parents := [], value := .scalar (.bool true) }, 5⟩,
       ⟨⟨1, 1⟩, none, .setMapValue { object := .root, selector := .key "k", id := ⟨1, 0⟩, parents := [], value := .scalar (.bool false) }, 9⟩]).bind
      (fun l => l.specSortedDfs.map (fun ops => ops.map (·.id)))
      = Except.ok [⟨0, 1⟩, ⟨1, 1⟩]) ∧
    ([(⟨1, 1⟩ : OperationId), ⟨0, 1⟩] ≠ [(⟨0, 1⟩ : OperationId), ⟨1, 1⟩]) := by
  exact ⟨by rfl, by rfl, by decide⟩

/-- **C2 witness.** The amended theorem applied to a concrete three-node
log (one root with two children): the children are emitted greatest first. -/
theorem c2_witness :
    (⟨2,
      [⟨⟨2, 1⟩, none, .createMap { object := .root, selector := .key "k", id := ⟨2, 0⟩, parents := [] }, 1⟩,
       ⟨⟨0, 1⟩, some ⟨2, 1⟩, .setMapValue { object := .root, selector := .key "k", id := ⟨0, 0⟩, parents := [], value := .scalar (.bool true) }, 2⟩,
       ⟨⟨1, 1⟩, some ⟨2, 1⟩, .setMapValue { object := .root, selector := .key "k", id := ⟨1, 0⟩, parents := [], value := .scalar (.bool false) }, 3⟩],
      [(2, 1), (0, 1), (1, 1)],
      [(⟨2, 1⟩, 0), (⟨0, 1⟩, 1), (⟨1, 1⟩, 2)],
      [0], some 1, []⟩ : OperationLog).iter_sorted
      = Except.ok
        [⟨⟨2, 1⟩, none, .createMap { object := .root, selector := .key "k", id := ⟨2, 0⟩, parents := [] }, 1⟩,
         ⟨⟨1, 1⟩, some ⟨2, 1⟩, .setMapValue { object := .root, selector := .key "k", id := ⟨1, 0⟩, parents := [], value := .scalar (.bool false) }, 3⟩,
         ⟨⟨0, 1⟩, some ⟨2, 1⟩, .setMapValue { object := .root, selector := .key "k", id := ⟨0, 0⟩, parents := [], value := .scalar (.bool true) }, 2⟩] := by
  have h := c2_iter_sorted_is_descending_dfs
    ⟨2,
      [⟨⟨2, 1⟩, none, .createMap { object := .root, selector := .key "k", id := ⟨2, 0⟩, parents := [] }, 1⟩,
       ⟨⟨0, 1⟩, some ⟨2, 1⟩, .setMapValue { object := .root, selector := .key "k", id := ⟨0, 0⟩, parents := [], value := .scalar (.bool true) }, 2⟩,
       ⟨⟨1, 1⟩, some ⟨2, 1⟩, .setMapValue { object := .root, selector := .key "k", id := ⟨1, 0⟩, parents := [], value := .scalar (.bool false) }, 3⟩],
      [(2, 1), (0, 1), (1, 1)],
      [(⟨2, 1⟩, 0), (⟨0, 1⟩, 1), (⟨1, 1⟩, 2)],
      [0], some 1, []⟩
    [(0, [1, 2])]
    (by rfl)
    (by
      intro i j hj
      by_cases h0 : (0 : Nat) = i
      · have hj2 : j ∈ ([1, 2] : List Nat) := by
          have : (alistLookup i [((0 : Nat), [1, 2])]).getD [] = [1, 2] := by
            show (if (0 : Nat) = i then some [1, 2] else none).getD [] = [1, 2]
            rw [if_pos h0]
            rfl
          rw [this] at hj
          exact hj
        rw [← h0]
        rcases List.mem_cons.mp hj2 with h | h
        · rw [h]
          exact ⟨by decide, by decide⟩
        · rw [List.mem_singleton.mp h]
          exact ⟨by decide, by decide⟩
      · have hnil : (alistLookup i [((0 : Nat), [1, 2])]).getD [] = [] := by
          show (if (0 : Nat) = i then some [1, 2] else none).getD [] = []
          rw [if_neg h0]
          rfl
        rw [hnil] at hj
        exact absurd hj (List.not_mem_nil j))
    (by decide)
    (by decide)
  exact h.trans (by rfl)
